import Mathlib

/-!
Verification of the stratumn sdk-js client against its source.

The development shallowly embeds the parts of the repository that the
claims talk about:

* `Data` models a JavaScript value tree as manipulated by `src/helpers.ts`
  (scalars, arrays, plain objects, `FileWrapper` instances and `FileRecord`
  instances).  `Data.undef` models the JavaScript value `undefined`, which
  lodash treats specially during `set`/`merge`.
* `isFileWrapperB` / `isFileRecordB` / `fromObjectD` model
  `FileWrapper.isFileWrapper`, `FileRecord.isFileRecord` and
  `FileRecord.fromObject` (`src/fileWrapper.ts`, `src/fileRecord.ts`).
* `extractObjectsImplD` models `extractObjectsImpl` from `src/helpers.ts`,
  building dotted/indexed string paths exactly as the source does.
* `stringToPath`, `lset` and `mergeD` model the lodash functions
  (`lodash.set`, `lodash.merge`) that `assignObjects` relies on.
* `TraceLinkBuilder` state and its `forX` operations model
  `src/traceLinkBuilder.ts`.
* `getGroupIdByLabel` models `SdkConfig.getGroupIdByLabel`
  (`src/sdkConfig.ts`), and the `Sdk` models (`getConfigStep`,
  `createLinkM`, query logs) model the corresponding methods of the
  newest `Sdk` class in the repository.

Class instances (`FileWrapper`, `FileRecord`) are modelled as atomic
constructors; the traversal in `extractObjectsImpl` would enumerate their
primitive own-properties (`id`, `digest`, ...), none of which can satisfy
either extraction predicate, so treating them atomically leaves every
extraction map unchanged.
-/

set_option maxHeartbeats 1000000

namespace StratumnSdk

/-- A JavaScript value as handled by the helpers of `src/helpers.ts`:
scalars, arrays, plain objects (entry list in property order), plus the
two class instances the SDK cares about.  `undef` is `undefined`. -/
inductive Data where
  | null
  | undef
  | boolD (b : Bool)
  | num (n : Int)
  | str (s : String)
  | arr (items : List Data)
  | obj (fields : List (String × Data))
  | wrapper (id : String)
  | record (dg nm mt sz : Data)
  deriving Repr

mutual
/-- Boolean structural equality on `Data` (JavaScript deep equality). -/
def beqD : Data → Data → Bool
  | .null, .null => true
  | .undef, .undef => true
  | .boolD a, .boolD b => a == b
  | .num a, .num b => a == b
  | .str a, .str b => a == b
  | .arr a, .arr b => beqL a b
  | .obj a, .obj b => beqF a b
  | .wrapper a, .wrapper b => a == b
  | .record a b c d, .record a' b' c' d' =>
      beqD a a' && beqD b b' && beqD c c' && beqD d d'
  | _, _ => false

/-- Boolean equality on lists of `Data`. -/
def beqL : List Data → List Data → Bool
  | [], [] => true
  | a :: as, b :: bs => beqD a b && beqL as bs
  | _, _ => false

/-- Boolean equality on object entry lists. -/
def beqF : List (String × Data) → List (String × Data) → Bool
  | [], [] => true
  | (k, v) :: as, (k', v') :: bs => k == k' && beqD v v' && beqF as bs
  | _, _ => false
end

mutual
theorem beqD_eq : ∀ a b : Data, beqD a b = true ↔ a = b
  | .null, b => by cases b <;> simp [beqD]
  | .undef, b => by cases b <;> simp [beqD]
  | .boolD x, b => by cases b <;> simp [beqD]
  | .num x, b => by cases b <;> simp [beqD]
  | .str x, b => by cases b <;> simp [beqD]
  | .arr l, b => by
      cases b <;> simp [beqD]
      exact beqL_eq l _
  | .obj kvs, b => by
      cases b <;> simp [beqD]
      exact beqF_eq kvs _
  | .wrapper x, b => by cases b <;> simp [beqD]
  | .record a b c d, e => by
      cases e <;> simp [beqD]
      rw [beqD_eq a, beqD_eq b, beqD_eq c, beqD_eq d]
      tauto

theorem beqL_eq : ∀ a b : List Data, beqL a b = true ↔ a = b
  | [], b => by cases b <;> simp [beqL]
  | a :: as, b => by
      cases b with
      | nil => simp [beqL]
      | cons b bs => simp [beqL, beqD_eq a b, beqL_eq as bs]

theorem beqF_eq : ∀ a b : List (String × Data), beqF a b = true ↔ a = b
  | [], b => by cases b <;> simp [beqF]
  | (k, v) :: as, b => by
      cases b with
      | nil => simp [beqF]
      | cons kv bs =>
          obtain ⟨k', v'⟩ := kv
          simp [beqF, beqD_eq v v', beqF_eq as bs]
end

instance : DecidableEq Data := fun a b =>
  decidable_of_iff (beqD a b = true) (beqD_eq a b)

/-- Lookup in a JavaScript `Map` / object modelled as an entry list:
the value of the first entry with the given key. -/
def mapGet {α β : Type} [DecidableEq α] (m : List (α × β)) (k : α) : Option β :=
  match m with
  | [] => none
  | (k', v) :: tl => if k' = k then some v else mapGet tl k

/-- `Map.prototype.set` / property assignment: overwrite the first entry
with the given key in place, otherwise append a new entry. -/
def mapSet {α β : Type} [DecidableEq α] (m : List (α × β)) (k : α) (v : β) :
    List (α × β) :=
  match m with
  | [] => [(k, v)]
  | (k', v') :: tl => if k' = k then (k, v) :: tl else (k', v') :: mapSet tl k v

/-- Keys of an entry list. -/
def mapKeys {α β : Type} (m : List (α × β)) : List α := m.map Prod.fst

/-- Decimal digit character. -/
def digitChar : Nat → Char
  | 0 => '0' | 1 => '1' | 2 => '2' | 3 => '3' | 4 => '4'
  | 5 => '5' | 6 => '6' | 7 => '7' | 8 => '8' | _ => '9'

/-- Numeric value of a decimal digit character. -/
def digitVal (c : Char) : Nat := c.toNat - 48

/-- Fuel-driven decimal rendering of a natural number (most significant
digit first); the fuel is always sufficient when it exceeds the number. -/
def natStrGo : Nat → Nat → List Char → List Char
  | 0, _, acc => acc
  | fuel + 1, n, acc =>
      if n < 10 then digitChar n :: acc
      else natStrGo fuel (n / 10) (digitChar (n % 10) :: acc)

/-- Decimal rendering of a natural number, the model of the template
interpolation of an array index in `extractObjectsImpl`. -/
def natChars (n : Nat) : List Char := natStrGo (n + 1) n []

/-- Decimal rendering as a string. -/
def natStr (n : Nat) : String := String.mk (natChars n)

/-- Decimal value of a digit character list. -/
def parseNatChars (cs : List Char) : Nat :=
  cs.foldl (fun a c => 10 * a + digitVal c) 0

/-- Decimal value of a string of digits (JavaScript array index coercion). -/
def parseNat (s : String) : Nat := parseNatChars s.data

/-- Lodash `isIndex`: a string is an array index when it is a run of
decimal digits without a leading zero (or exactly `0`). -/
def isIndexKey (k : String) : Bool :=
  !(k.data.isEmpty) && k.data.all Char.isDigit &&
    (k = "0" || k.data.head? ≠ some '0')

/-- Tokenizer state machine behind the model of lodash `stringToPath`:
the flag is true while scanning the inside of a bracket group. -/
def stpGo : List Char → List Char → Bool → List String
  | [], cur, _ => if cur.isEmpty then [] else [String.mk cur.reverse]
  | c :: rest, cur, true =>
      if c = ']' then String.mk cur.reverse :: stpGo rest [] false
      else stpGo rest (c :: cur) true
  | c :: rest, cur, false =>
      if c = '.' then
        if cur.isEmpty then stpGo rest [] false
        else String.mk cur.reverse :: stpGo rest [] false
      else if c = '[' then
        if cur.isEmpty then stpGo rest [] true
        else String.mk cur.reverse :: stpGo rest [] true
      else stpGo rest (c :: cur) false

/-- Model of lodash `stringToPath` on the dotted/indexed accessor strings
produced by `extractObjectsImpl`: `a.b[2].c` becomes `[a, b, 2, c]`. -/
def stringToPath (s : String) : List String := stpGo s.data [] false

/-- Model of `FileWrapper.isFileWrapper` (`src/fileWrapper.ts`): an
`instanceof FileWrapper` test, true only for actual wrapper instances. -/
def isFileWrapperB : Data → Bool
  | .wrapper _ => true
  | _ => false

/-- Property read on an object entry list, `undefined` when absent. -/
def getProp (kvs : List (String × Data)) (k : String) : Data :=
  (mapGet kvs k).getD (.undef)

/-- JavaScript `obj.k !== undefined`: the property exists and its value
is not `undefined`. -/
def isDefinedProp (kvs : List (String × Data)) (k : String) : Bool :=
  match mapGet kvs k with
  | some .undef => false
  | some _ => true
  | none => false

/-- Model of `FileRecord.isFileRecord` (`src/fileRecord.ts`): an
`instanceof FileRecord` test, or a truthy value whose `digest`, `name`,
`mimetype` and `size` properties are all defined.  Scalars, `null`,
`undefined`, arrays and `FileWrapper` instances have none of those
properties, so only record instances and structurally shaped plain
objects pass. -/
def isFileRecordB : Data → Bool
  | .record _ _ _ _ => true
  | .obj kvs =>
      isDefinedProp kvs "digest" && isDefinedProp kvs "name" &&
        isDefinedProp kvs "mimetype" && isDefinedProp kvs "size"
  | _ => false

/-- Model of `FileRecord.fromObject` (`src/fileRecord.ts`): rebuild a
`FileRecord` instance from the `digest`/`name`/`mimetype`/`size`
properties of the argument. -/
def fromObjectD : Data → Data
  | .record a b c d => .record a b c d
  | .obj kvs =>
      .record (getProp kvs "digest") (getProp kvs "name")
        (getProp kvs "mimetype") (getProp kvs "size")
  | _ => .record .undef .undef .undef (.undef)

/-- The `id` property used by `extractObjectsImpl` on an extracted value:
a `FileWrapper` exposes its `id` field, a `FileRecord` exposes a getter
returning its digest. -/
def jsIdOf : Data → Data
  | .wrapper i => .str i
  | .record dg _ _ _ => dg
  | _ => (.undef)

/-- The pair of maps produced by `extractObjects` (`src/helpers.ts`):
`pathToIdMap` maps accessor paths to ids, `idToObjectMap` maps ids to
the extracted objects. -/
structure ExtractMaps where
  pathToIdMap : List (String × Data)
  idToObjectMap : List (Data × Data)
  deriving Repr, DecidableEq

mutual
/-- Model of `extractObjectsImpl` (`src/helpers.ts`): depth-first walk;
a predicate match records `path → id` and `id → object` and stops the
descent, arrays extend the path with `[idx]`, plain objects with `.key`
(the bare key at the root); every other value is left alone. -/
def extractObjectsImplD (pred : Data → Bool) (rev : Data → Data) :
    Data → String → ExtractMaps → ExtractMaps
  | d, path, maps =>
    if pred d then
      let nd := rev d
      ⟨mapSet maps.pathToIdMap path (jsIdOf nd),
        mapSet maps.idToObjectMap (jsIdOf nd) nd⟩
    else match d with
      | .arr l => extractObjectsImplArr pred rev l 0 path maps
      | .obj kvs => extractObjectsImplObj pred rev kvs path maps
      | _ => maps

/-- Array leg of `extractObjectsImpl`: `forEach` with index-suffixed
paths. -/
def extractObjectsImplArr (pred : Data → Bool) (rev : Data → Data) :
    List Data → Nat → String → ExtractMaps → ExtractMaps
  | [], _, _, maps => maps
  | x :: tl, i, path, maps =>
      extractObjectsImplArr pred rev tl (i + 1) path
        (extractObjectsImplD pred rev x (path ++ "[" ++ natStr i ++ "]") maps)

/-- Object leg of `extractObjectsImpl`: `Object.entries` with
dot-appended keys, using the bare key at the root. -/
def extractObjectsImplObj (pred : Data → Bool) (rev : Data → Data) :
    List (String × Data) → String → ExtractMaps → ExtractMaps
  | [], _, maps => maps
  | (k, v) :: tl, path, maps =>
      extractObjectsImplObj pred rev tl path
        (extractObjectsImplD pred rev v
          (if path = "" then k else path ++ "." ++ k) maps)
end

/-- Model of `extractObjects` (`src/helpers.ts`). -/
def extractObjects (pred : Data → Bool) (rev : Data → Data) (d : Data) :
    ExtractMaps :=
  extractObjectsImplD pred rev d "" ⟨[], []⟩

/-- Model of `extractFileWrappers` (`src/helpers.ts`): no reviver. -/
def extractFileWrappers (d : Data) : ExtractMaps :=
  extractObjects isFileWrapperB id d

/-- Model of `extractFileRecords` (`src/helpers.ts`): reviver
`FileRecord.fromObject`. -/
def extractFileRecords (d : Data) : ExtractMaps :=
  extractObjects isFileRecordB fromObjectD d

/-- Values lodash treats as object-like when reusing an existing nested
value inside `set` (arrays, plain objects and class instances). -/
def isObjectLike : Data → Bool
  | .arr _ => true
  | .obj _ => true
  | .wrapper _ => true
  | .record _ _ _ _ => true
  | _ => false

/-- Property read during lodash `set`: object key lookup or array index
access, `undefined` otherwise. -/
def lgetProp : Data → String → Data
  | .obj kvs, k => getProp kvs k
  | .arr l, k =>
      if isIndexKey k then (l.get? (parseNat k)).getD .undef else .undef
  | _, _ => (.undef)

/-- Array element write at an index, padding with `undefined` holes when
the index is beyond the current length (JavaScript array semantics). -/
def padSet (l : List Data) (n : Nat) (v : Data) : List Data :=
  if n < l.length then l.set n v
  else l ++ List.replicate (n - l.length) .undef ++ [v]

/-- Property write during lodash `set`: in-place object entry update (or
append), array index write with padding; writes on primitives are
silently dropped as in non-strict JavaScript. -/
def lsetProp : Data → String → Data → Data
  | .obj kvs, k, v => .obj (mapSet kvs k v)
  | .arr l, k, v => if isIndexKey k then .arr (padSet l (parseNat k) v) else .arr l
  | d, _, _ => d

/-- Model of lodash `baseSet` on a tokenized path: walk the path, reusing
an existing object-like value at each hop and otherwise creating a fresh
array (when the next token is an index) or object. -/
def lset : Data → List String → Data → Data
  | d, [], _ => d
  | d, k :: rest, v =>
    match rest with
    | [] => lsetProp d k v
    | k2 :: _ =>
      let cur := lgetProp d k
      let base := if isObjectLike cur then cur
        else if isIndexKey k2 then .arr [] else .obj []
      lsetProp d k (lset base rest v)

mutual
/-- Model of lodash `merge` of a source value over a destination value.
`undefined` sources keep the destination, plain objects merge keywise
(source-only keys are appended), arrays merge index-wise, and every
other source value overwrites the destination. -/
def mergeD : Data → Data → Data
  | dst, src =>
    match src with
    | .undef => dst
    | .obj skvs =>
        match dst with
        | .obj dkvs => .obj (mergeFields dkvs skvs)
        | _ => .obj skvs
    | .arr sl =>
        match dst with
        | .arr dl => .arr (mergeItems dl sl)
        | _ => .arr sl
    | s => s

/-- Keywise leg of `mergeD`: iterate the source entries in order, merging
into an existing destination entry or appending a new one. -/
def mergeFields : List (String × Data) → List (String × Data) →
    List (String × Data)
  | dkvs, [] => dkvs
  | dkvs, (k, sv) :: rest =>
      match mapGet dkvs k with
      | some dv => mergeFields (mapSet dkvs k (mergeD dv sv)) rest
      | none => mergeFields (dkvs ++ [(k, sv)]) rest

/-- Index-wise leg of `mergeD`: positions beyond the source keep the
destination, positions beyond the destination take the source. -/
def mergeItems : List Data → List Data → List Data
  | dl, [] => dl
  | [], sv :: srest => sv :: mergeItems [] srest
  | dv :: drest, sv :: srest => mergeD dv sv :: mergeItems drest srest
end

/-- Model of the initial `lodash.merge({}, data, ...)` deep copy: the
top-level value is forced into a plain object (array indices become
string keys, class instances contribute their own properties, primitive
sources are ignored); nested values are kept as they are. -/
def cloneTop : Data → Data
  | .obj kvs => .obj kvs
  | .arr l => .obj (l.enum.map fun p => (natStr p.1, p.2))
  | .wrapper i => .obj [("id", .str i)]
  | .record a b c d =>
      .obj [("digest", a), ("name", b), ("mimetype", c), ("size", d)]
  | _ => .obj []

/-- Model of `assignObjects` (`src/helpers.ts`): an empty path map returns
the data unchanged; otherwise each mapped path is `lodash.set` into an
initially empty overlay object (resolving the id through `idToObjectMap`,
a missed lookup yielding `undefined`), and the overlay is merged over a
deep copy of the data. -/
def assignObjects (data : Data) (p2i : List (String × Data))
    (i2o : List (Data × Data)) : Data :=
  if p2i.isEmpty then data
  else
    let res := p2i.foldl
      (fun res pr => lset res (stringToPath pr.1) ((mapGet i2o pr.2).getD .undef))
      (.obj [])
    mergeD (cloneTop data) res

/-- The `FileRecord` built in the repository roundtrip test
(`fileWrapper.spec.ts`): digest equal to the wrapper id, fixed
name/mimetype/size. -/
def mkTestRecord (id : Data) : Data :=
  .record id (.str "data.txt") (.str "text/plain") (.num 123)

/-- The wrapper-to-record-and-back roundtrip of claim C2, following the
repository test `roundtrip file wrappers => file records and back`:
extract the wrappers, substitute records whose digest is the wrapper id,
extract the records from the result, substitute the original wrappers
back. -/
def wrapperRecordRoundtrip (d : Data) : Data :=
  let e1 := extractFileWrappers d
  let idToRec : List (Data × Data) :=
    e1.idToObjectMap.map fun pr => (pr.1, mkTestRecord pr.1)
  let d2 := assignObjects d e1.pathToIdMap idToRec
  let e2 := extractFileRecords d2
  assignObjects d2 e2.pathToIdMap e1.idToObjectMap

/-- Path segments of a tree position: an object key or an array index. -/
inductive Seg where
  | key (k : String)
  | idx (n : Nat)
  deriving DecidableEq, Repr

/-- The token a segment contributes to a lodash path list. -/
def segToken : Seg → String
  | .key k => k
  | .idx n => natStr n

/-- A key is benign when it is nonempty, contains none of the path
syntax characters and is not an array index; such keys survive the
render/parse roundtrip through accessor strings unambiguously. -/
def benignKey (k : String) : Bool :=
  !(k.data.isEmpty) &&
    k.data.all (fun c => !(c = '.') && !(c = '[') && !(c = ']')) &&
    !(isIndexKey k)

/-- A benign segment: indices always are, keys must be benign. -/
def benignSeg : Seg → Bool
  | .key k => benignKey k
  | .idx _ => true

/-- String appended to a path for one segment, exactly as
`extractObjectsImpl` does it. -/
def appendSegStr (path : String) : Seg → String
  | .key k => if path = "" then k else path ++ "." ++ k
  | .idx n => path ++ "[" ++ natStr n ++ "]"

/-- Accessor string of a segment list relative to a starting path. -/
def renderFrom (path : String) : List Seg → String
  | [] => path
  | s :: tl => renderFrom (appendSegStr path s) tl

/-- Accessor string of the non-leading segments (each key preceded by a
dot). -/
def renderTailStr : List Seg → String
  | [] => ""
  | .key k :: tl => "." ++ k ++ renderTailStr tl
  | .idx n :: tl => "[" ++ natStr n ++ "]" ++ renderTailStr tl

/-- Accessor string of the first segment (bare key at the root). -/
def headSegStr : Seg → String
  | .key k => k
  | .idx n => "[" ++ natStr n ++ "]"

/-- Accessor string of a whole segment list from the root. -/
def renderSegs : List Seg → String
  | [] => ""
  | s :: tl => headSegStr s ++ renderTailStr tl

theorem natStrGo_acc :
    ∀ fuel n acc, n < fuel → natStrGo fuel n acc = natStrGo fuel n [] ++ acc := by
  intro fuel
  induction fuel with
  | zero => intro n acc h; omega
  | succ fuel ih =>
      intro n acc _
      by_cases h10 : n < 10
      · simp [natStrGo, h10]
      · have hdiv : n / 10 < fuel := by
          have h1 : n / 10 < n := Nat.div_lt_self (by omega) (by omega)
          omega
        simp only [natStrGo, h10, if_false]
        rw [ih (n / 10) (digitChar (n % 10) :: acc) hdiv,
          ih (n / 10) [digitChar (n % 10)] hdiv]
        simp

theorem natStrGo_fuel :
    ∀ f g n, n < f → n < g → natStrGo f n [] = natStrGo g n [] := by
  intro f
  induction f with
  | zero => intro g n h; omega
  | succ f ih =>
      intro g n hf hg
      cases g with
      | zero => omega
      | succ g =>
          by_cases h10 : n < 10
          · simp [natStrGo, h10]
          · have h1 : n / 10 < n := Nat.div_lt_self (by omega) (by omega)
            simp only [natStrGo, h10, if_false]
            rw [natStrGo_acc f (n / 10) _ (by omega),
              natStrGo_acc g (n / 10) _ (by omega), ih g (n / 10) (by omega) (by omega)]

theorem natChars_lt (n : Nat) (h : n < 10) : natChars n = [digitChar n] := by
  simp [natChars, natStrGo, h]

theorem natChars_ge (n : Nat) (h : 10 ≤ n) :
    natChars n = natChars (n / 10) ++ [digitChar (n % 10)] := by
  have h1 : n / 10 < n := Nat.div_lt_self (by omega) (by omega)
  unfold natChars
  conv_lhs => simp only [natStrGo, Nat.not_lt.mpr h, if_false]
  rw [natStrGo_acc n (n / 10) _ (by omega),
    natStrGo_fuel n (n / 10 + 1) (n / 10) (by omega) (by omega)]

theorem digitChar_cases (d : Nat) :
    digitChar d = '0' ∨ digitChar d = '1' ∨ digitChar d = '2' ∨
    digitChar d = '3' ∨ digitChar d = '4' ∨ digitChar d = '5' ∨
    digitChar d = '6' ∨ digitChar d = '7' ∨ digitChar d = '8' ∨
    digitChar d = '9' := by
  unfold digitChar
  split <;> simp

theorem digitChar_isDigit (d : Nat) : (digitChar d).isDigit = true := by
  rcases digitChar_cases d with h | h | h | h | h | h | h | h | h | h <;>
    rw [h] <;> decide

theorem digitChar_not_special (d : Nat) :
    digitChar d ≠ '.' ∧ digitChar d ≠ '[' ∧ digitChar d ≠ ']' := by
  rcases digitChar_cases d with h | h | h | h | h | h | h | h | h | h <;>
    rw [h] <;> exact ⟨by decide, by decide, by decide⟩

theorem digitVal_digitChar (d : Nat) (h : d < 10) :
    digitVal (digitChar d) = d := by
  interval_cases d <;> decide

theorem natChars_all_digits (n : Nat) : ∀ c ∈ natChars n, c.isDigit = true := by
  induction n using Nat.strong_induction_on with
  | _ n ih =>
      by_cases h10 : n < 10
      · rw [natChars_lt n h10]
        intro c hc
        simp at hc
        subst hc
        exact digitChar_isDigit n
      · rw [natChars_ge n (by omega)]
        intro c hc
        rcases List.mem_append.mp hc with h | h
        · exact ih (n / 10) (Nat.div_lt_self (by omega) (by omega)) c h
        · simp at h
          subst h
          exact digitChar_isDigit (n % 10)

theorem natChars_ne_nil (n : Nat) : natChars n ≠ [] := by
  by_cases h10 : n < 10
  · rw [natChars_lt n h10]; simp
  · rw [natChars_ge n (by omega)]; simp

theorem parseNatChars_append (xs : List Char) (c : Char) :
    parseNatChars (xs ++ [c]) = 10 * parseNatChars xs + digitVal c := by
  simp [parseNatChars, List.foldl_append]

theorem parseNatChars_natChars (n : Nat) : parseNatChars (natChars n) = n := by
  induction n using Nat.strong_induction_on with
  | _ n ih =>
      by_cases h10 : n < 10
      · rw [natChars_lt n h10]
        simp [parseNatChars, digitVal_digitChar n h10]
      · rw [natChars_ge n (by omega), parseNatChars_append,
          ih (n / 10) (Nat.div_lt_self (by omega) (by omega)),
          digitVal_digitChar (n % 10) (by omega)]
        omega

theorem parseNat_natStr (n : Nat) : parseNat (natStr n) = n := by
  simpa [parseNat, natStr] using parseNatChars_natChars n

theorem natStr_inj {a b : Nat} (h : natStr a = natStr b) : a = b := by
  have := parseNat_natStr a
  rw [h, parseNat_natStr b] at this
  omega

theorem natChars_head_ne_zero (n : Nat) (h : 1 ≤ n) :
    (natChars n).head? ≠ some '0' := by
  induction n using Nat.strong_induction_on with
  | _ n ih =>
      by_cases h10 : n < 10
      · rw [natChars_lt n h10]
        interval_cases n <;> decide
      · rw [natChars_ge n (by omega)]
        rcases List.exists_cons_of_ne_nil (natChars_ne_nil (n / 10)) with ⟨c, cs, hc⟩
        rw [hc]
        have h1 : (natChars (n / 10)).head? ≠ some '0' := by
          have hd : n / 10 < n := Nat.div_lt_self (by omega) (by omega)
          exact ih (n / 10) hd (by
            have : 1 ≤ n / 10 := Nat.one_le_div_iff (by omega) |>.mpr (by omega)
            exact this)
        rw [hc] at h1
        simpa using h1

theorem isIndexKey_natStr (n : Nat) : isIndexKey (natStr n) = true := by
  unfold isIndexKey
  have hd : (natStr n).data = natChars n := rfl
  rw [hd]
  simp only [Bool.and_eq_true, Bool.or_eq_true]
  refine ⟨⟨by simpa using natChars_ne_nil n, ?_⟩, ?_⟩
  · rw [List.all_eq_true]
    intro c hc
    exact natChars_all_digits n c hc
  · by_cases h : n = 0
    · left
      subst h
      rfl
    · right
      simpa using natChars_head_ne_zero n (by omega)

theorem benignKey_not_index {k : String} (h : benignKey k = true) :
    isIndexKey k = false := by
  unfold benignKey at h
  simp only [Bool.and_eq_true, Bool.not_eq_true'] at h
  exact h.2

theorem benignKey_ne_natStr {k : String} (h : benignKey k = true) (n : Nat) :
    k ≠ natStr n := by
  intro he
  have := benignKey_not_index h
  rw [he, isIndexKey_natStr n] at this
  cases this

theorem segToken_inj {a b : Seg} (ha : benignSeg a = true)
    (hb : benignSeg b = true) (h : segToken a = segToken b) : a = b := by
  cases a with
  | key k =>
      cases b with
      | key k' => simpa [segToken] using h
      | idx n => exact absurd h (benignKey_ne_natStr ha n)
  | idx n =>
      cases b with
      | key k' => exact absurd h.symm (benignKey_ne_natStr hb n)
      | idx m => simp only [segToken] at h; rw [natStr_inj h]

theorem stpGo_consume :
    ∀ (kc : List Char), (∀ c ∈ kc, c ≠ '.' ∧ c ≠ '[') →
      ∀ rest acc, stpGo (kc ++ rest) acc false = stpGo rest (kc.reverse ++ acc) false := by
  intro kc
  induction kc with
  | nil => intro _ rest acc; simp
  | cons c tl ih =>
      intro h rest acc
      have hc := h c (by simp)
      have htl : ∀ c ∈ tl, c ≠ '.' ∧ c ≠ '[' := fun c hc => h c (by simp [hc])
      simp only [List.cons_append, stpGo, if_neg hc.1, if_neg hc.2]
      simpa [List.append_assoc] using ih htl rest (c :: acc)

theorem stpGo_consume_br :
    ∀ (ds : List Char), (∀ c ∈ ds, c ≠ ']') →
      ∀ rest acc, stpGo (ds ++ rest) acc true = stpGo rest (ds.reverse ++ acc) true := by
  intro ds
  induction ds with
  | nil => intro _ rest acc; simp
  | cons c tl ih =>
      intro h rest acc
      have hc := h c (by simp)
      have htl : ∀ c ∈ tl, c ≠ ']' := fun c hc => h c (by simp [hc])
      simp only [List.cons_append, stpGo, if_neg hc]
      simpa [List.append_assoc] using ih htl rest (c :: acc)

theorem benignKey_chars {k : String} (h : benignKey k = true) :
    ∀ c ∈ k.data, c ≠ '.' ∧ c ≠ '[' := by
  unfold benignKey at h
  simp only [Bool.and_eq_true, List.all_eq_true] at h
  intro c hc
  have := h.1.2 c hc
  simp only [Bool.and_eq_true, Bool.not_eq_true', decide_eq_false_iff_not] at this
  exact ⟨this.1.1, this.1.2⟩

theorem benignKey_ne_nil {k : String} (h : benignKey k = true) : k.data ≠ [] := by
  unfold benignKey at h
  simp only [Bool.and_eq_true, Bool.not_eq_true'] at h
  simpa using h.1.1

theorem natChars_not_special (n : Nat) :
    ∀ c ∈ natChars n, c ≠ '.' ∧ c ≠ '[' ∧ c ≠ ']' := by
  intro c hc
  have := natChars_all_digits n c hc
  refine ⟨?_, ?_, ?_⟩ <;> intro h <;> rw [h] at this <;> cases this

theorem stpGo_renderTail :
    ∀ segs : List Seg, segs.all benignSeg = true → ∀ cur : List Char,
      stpGo (renderTailStr segs).data cur false =
        (if cur.isEmpty then [] else [String.mk cur.reverse]) ++ segs.map segToken := by
  intro segs
  induction segs with
  | nil =>
      intro _ cur
      simp only [renderTailStr]
      cases cur <;> simp [stpGo]
  | cons s tl ih =>
      intro hb cur
      have hbs : benignSeg s = true := by
        simp only [List.all_eq_true] at hb
        exact hb s (by simp)
      have hbtl : tl.all benignSeg = true := by
        simp only [List.all_eq_true] at hb ⊢
        exact fun x hx => hb x (by simp [hx])
      cases s with
      | key k =>
          have hkc := benignKey_chars hbs
          have hd : (renderTailStr (.key k :: tl)).data =
              '.' :: (k.data ++ (renderTailStr tl).data) := by
            simp [renderTailStr, String.data_append]
          rw [hd]
          have step : ∀ cur' : List Char,
              stpGo ('.' :: (k.data ++ (renderTailStr tl).data)) cur' false =
                (if cur'.isEmpty then [] else [String.mk cur'.reverse]) ++
                  stpGo (k.data ++ (renderTailStr tl).data) [] false := by
            intro cur'
            cases cur' <;> simp [stpGo]
          rw [step cur]
          rw [stpGo_consume k.data hkc _ []]
          rw [ih hbtl (k.data.reverse ++ [])]
          have hne : ((k.data.reverse ++ [] : List Char)).isEmpty = false := by
            simp only [List.append_nil]
            cases hk : k.data with
            | nil => exact absurd hk (benignKey_ne_nil hbs)
            | cons c cs => simp
          rw [hne]
          simp [segToken]
      | idx n =>
          have hd : (renderTailStr (.idx n :: tl)).data =
              '[' :: (natChars n ++ (']' :: (renderTailStr tl).data)) := by
            simp [renderTailStr, String.data_append, natStr]
          rw [hd]
          have step : ∀ cur' : List Char,
              stpGo ('[' :: (natChars n ++ (']' :: (renderTailStr tl).data))) cur' false =
                (if cur'.isEmpty then [] else [String.mk cur'.reverse]) ++
                  stpGo (natChars n ++ (']' :: (renderTailStr tl).data)) [] true := by
            intro cur'
            cases cur' <;> simp [stpGo]
          rw [step cur]
          rw [stpGo_consume_br (natChars n)
            (fun c hc => (natChars_not_special n c hc).2.2) _ []]
          have hbr : stpGo (']' :: (renderTailStr tl).data) ((natChars n).reverse ++ []) true =
              String.mk (natChars n) :: stpGo (renderTailStr tl).data [] false := by
            simp [stpGo]
          rw [hbr, ih hbtl []]
          simp [segToken, natStr]

mutual
/-- The extraction sites of a predicate in a value: the tree positions
(as segment paths) where the predicate first matches on the way down,
paired with the matched subvalue.  This is the structural counterpart of
the traversal of `extractObjectsImpl`. -/
def sitesD (pred : Data → Bool) : Data → List (List Seg × Data)
  | .arr l =>
      if pred (.arr l) then [([], .arr l)] else sitesArr pred l 0
  | .obj kvs =>
      if pred (.obj kvs) then [([], .obj kvs)] else sitesObj pred kvs
  | d => if pred d then [([], d)] else []

/-- Sites of an array, positions indexed from `i`. -/
def sitesArr (pred : Data → Bool) : List Data → Nat → List (List Seg × Data)
  | [], _ => []
  | x :: tl, i =>
      (sitesD pred x).map (fun pr => (Seg.idx i :: pr.1, pr.2)) ++
        sitesArr pred tl (i + 1)

/-- Sites of an object entry list. -/
def sitesObj (pred : Data → Bool) : List (String × Data) → List (List Seg × Data)
  | [] => []
  | (k, v) :: tl =>
      (sitesD pred v).map (fun pr => (Seg.key k :: pr.1, pr.2)) ++
        sitesObj pred tl
end

mutual
/-- Replace every site of a predicate by the image of its value: the
specification-level effect of `assignObjects` after an extraction. -/
def mapSitesD (pred : Data → Bool) (f : Data → Data) : Data → Data
  | .arr l =>
      if pred (.arr l) then f (.arr l) else .arr (mapSitesArr pred f l)
  | .obj kvs =>
      if pred (.obj kvs) then f (.obj kvs) else .obj (mapSitesObj pred f kvs)
  | d => if pred d then f d else d

/-- Array leg of `mapSitesD`. -/
def mapSitesArr (pred : Data → Bool) (f : Data → Data) : List Data → List Data
  | [] => []
  | x :: tl => mapSitesD pred f x :: mapSitesArr pred f tl

/-- Object leg of `mapSitesD`. -/
def mapSitesObj (pred : Data → Bool) (f : Data → Data) :
    List (String × Data) → List (String × Data)
  | [] => []
  | (k, v) :: tl => (k, mapSitesD pred f v) :: mapSitesObj pred f tl
end

/-- Fill a list of optional overlay values with `undefined` holes and trim
the trailing holes, the shape a JavaScript array acquires from sparse
index writes in increasing order. -/
def fillTrim : List (Option Data) → List Data
  | [] => []
  | o :: tl =>
    let r := fillTrim tl
    match o with
    | some v => v :: r
    | none => if r.isEmpty then [] else .undef :: r

mutual
/-- The partial overlay of a predicate's sites in a value: `none` when the
subtree has no site, otherwise the sparse tree holding the replacement of
every site.  This is what the `lodash.set` fold of `assignObjects` builds. -/
def povD (pred : Data → Bool) (rep : Data → Data) : Data → Option Data
  | .arr l =>
      if pred (.arr l) then some (rep (.arr l))
      else
        match fillTrim (povArr pred rep l) with
        | [] => none
        | items => some (.arr items)
  | .obj kvs =>
      if pred (.obj kvs) then some (rep (.obj kvs))
      else
        match povObj pred rep kvs with
        | [] => none
        | entries => some (.obj entries)
  | d => if pred d then some (rep d) else none

/-- Array leg of `povD`: one optional overlay per element. -/
def povArr (pred : Data → Bool) (rep : Data → Data) : List Data → List (Option Data)
  | [] => []
  | x :: tl => povD pred rep x :: povArr pred rep tl

/-- Object leg of `povD`: only keys with an overlay appear. -/
def povObj (pred : Data → Bool) (rep : Data → Data) :
    List (String × Data) → List (String × Data)
  | [] => []
  | (k, v) :: tl =>
    match povD pred rep v with
    | some ov => (k, ov) :: povObj pred rep tl
    | none => povObj pred rep tl
end

/-- Pairwise distinct strings. -/
def keysNodupB : List String → Bool
  | [] => true
  | k :: tl => decide (k ∉ tl) && keysNodupB tl

mutual
/-- A value is benign when every object level has pairwise distinct,
benign keys: the accessor strings of its positions then round-trip
through lodash path parsing. -/
def benignD : Data → Bool
  | .arr l => benignArr l
  | .obj kvs => keysNodupB (mapKeys kvs) && benignFields kvs
  | _ => true

/-- Array leg of `benignD`. -/
def benignArr : List Data → Bool
  | [] => true
  | x :: tl => benignD x && benignArr tl

/-- Object leg of `benignD`. -/
def benignFields : List (String × Data) → Bool
  | [] => true
  | (k, v) :: tl => benignKey k && benignD v && benignFields tl
end

mutual
/-- No subvalue of the data satisfies `isFileRecordB`: the payload holds
no `FileRecord` instance and no plain object shaped like one. -/
def noRecB : Data → Bool
  | .arr l => noRecArr l
  | .obj kvs => !(isFileRecordB (.obj kvs)) && noRecFields kvs
  | .record _ _ _ _ => false
  | _ => true

/-- Array leg of `noRecB`. -/
def noRecArr : List Data → Bool
  | [] => true
  | x :: tl => noRecB x && noRecArr tl

/-- Object leg of `noRecB`. -/
def noRecFields : List (String × Data) → Bool
  | [] => true
  | (_, v) :: tl => noRecB v && noRecFields tl
end

/-- The fresh container `lodash.set` creates for a path into a value of
this shape (an array for arrays, an object otherwise). -/
def startBase : Data → Data
  | .arr _ => .arr []
  | _ => .obj []

/-- The fresh container `lodash.set` creates when the next path token is
the given segment. -/
def startTok : Seg → Data
  | .idx _ => .arr []
  | .key _ => .obj []

/-- The overlay-building fold of `assignObjects`, expressed over sites:
each site path is tokenized and `lodash.set` into the accumulator with
the replacement of its value. -/
def ovFold (rep : Data → Data) (sl : List (List Seg × Data)) (base : Data) : Data :=
  sl.foldl (fun res pr => lset res (pr.1.map segToken) (rep pr.2)) base

/-- Replacement values that lodash `merge` copies over the destination
wholesale (everything except `undefined`, plain objects and arrays). -/
def atomicRep : Data → Bool
  | .undef => false
  | .obj _ => false
  | .arr _ => false
  | _ => true

theorem mapGet_mapSet_self {α β : Type} [DecidableEq α] (m : List (α × β))
    (k : α) (v : β) : mapGet (mapSet m k v) k = some v := by
  induction m with
  | nil => simp [mapGet, mapSet]
  | cons kv tl ih =>
      obtain ⟨k', v'⟩ := kv
      by_cases h : k' = k
      · subst h; simp [mapGet, mapSet]
      · simp [mapGet, mapSet, h, ih]

theorem mapGet_mapSet_ne {α β : Type} [DecidableEq α] (m : List (α × β))
    {k k' : α} (v : β) (h : k ≠ k') :
    mapGet (mapSet m k v) k' = mapGet m k' := by
  induction m with
  | nil => simp [mapGet, mapSet, h]
  | cons kv tl ih =>
      obtain ⟨k'', v''⟩ := kv
      by_cases h2 : k'' = k
      · subst h2; simp [mapGet, mapSet, h]
      · simp only [mapSet, if_neg h2, mapGet]
        by_cases h3 : k'' = k' <;> simp [h3, ih]

theorem mapSet_mapSet_self {α β : Type} [DecidableEq α] (m : List (α × β))
    (k : α) (v w : β) : mapSet (mapSet m k v) k w = mapSet m k w := by
  induction m with
  | nil => simp [mapSet]
  | cons kv tl ih =>
      obtain ⟨k', v'⟩ := kv
      by_cases h : k' = k
      · subst h; simp [mapSet]
      · simp [mapSet, h, ih]

theorem mapGet_eq_none {α β : Type} [DecidableEq α] {m : List (α × β)} {k : α}
    (h : k ∉ mapKeys m) : mapGet m k = none := by
  induction m with
  | nil => rfl
  | cons kv tl ih =>
      obtain ⟨k', v'⟩ := kv
      simp only [mapKeys, List.map_cons, List.mem_cons, not_or] at h
      simp only [mapGet, if_neg (Ne.symm h.1)]
      exact ih (by simpa [mapKeys] using h.2)

theorem mapSet_eq_append {α β : Type} [DecidableEq α] {m : List (α × β)} {k : α}
    (v : β) (h : k ∉ mapKeys m) : mapSet m k v = m ++ [(k, v)] := by
  induction m with
  | nil => rfl
  | cons kv tl ih =>
      obtain ⟨k', v'⟩ := kv
      simp only [mapKeys, List.map_cons, List.mem_cons, not_or] at h
      simp only [mapSet, if_neg (Ne.symm h.1), List.cons_append]
      rw [ih (by simpa [mapKeys] using h.2)]

theorem mapGet_map_by_key {α β γ : Type} [DecidableEq α]
    (m : List (α × β)) (f : α → γ) (k : α) :
    mapGet (m.map fun pr => (pr.1, f pr.1)) k =
      (mapGet m k).map fun _ => f k := by
  induction m with
  | nil => rfl
  | cons kv tl ih =>
      obtain ⟨k', v'⟩ := kv
      by_cases h : k' = k
      · subst h; simp [mapGet]
      · simp [mapGet, h, ih]

theorem fillTrim_eq_nil_iff (os : List (Option Data)) :
    fillTrim os = [] ↔ ∀ o ∈ os, o = none := by
  induction os with
  | nil => simp [fillTrim]
  | cons o tl ih =>
      cases o with
      | none =>
          rcases h : fillTrim tl with _ | ⟨x, xs⟩
          · simp only [fillTrim, h, List.isEmpty_nil, if_true, List.mem_cons]
            constructor
            · intro _ o ho
              rcases ho with ho | ho
              · exact ho
              · exact (ih.mp h) o ho
            · intro _; trivial
          · simp only [fillTrim, h, List.isEmpty_cons, if_false, List.mem_cons]
            constructor
            · intro he; cases he
            · intro hall
              have : fillTrim tl = [] := ih.mpr fun o ho => hall o (Or.inr ho)
              rw [this] at h; cases h
      | some v => simp [fillTrim]

mutual
theorem povD_none_iff : ∀ (pred : Data → Bool) (rep : Data → Data) (d : Data),
    povD pred rep d = none ↔ sitesD pred d = []
  | pred, rep, .arr l => by
      by_cases hp : pred (.arr l)
      · simp [povD, sitesD, hp]
      · simp only [povD, sitesD]
        rw [if_neg hp, if_neg hp]
        rcases h : fillTrim (povArr pred rep l) with _ | ⟨x, xs⟩
        · simp only []
          rw [fillTrim_eq_nil_iff] at h
          constructor
          · intro _
            exact (povArr_none_iff pred rep l 0).mp h
          · intro _; trivial
        · simp only []
          constructor
          · intro he; cases he
          · intro hs
            have := (povArr_none_iff pred rep l 0).mpr hs
            rw [(fillTrim_eq_nil_iff _).mpr this] at h
            cases h
  | pred, rep, .obj kvs => by
      by_cases hp : pred (.obj kvs)
      · simp [povD, sitesD, hp]
      · simp only [povD, sitesD]
        rw [if_neg hp, if_neg hp]
        rcases h : povObj pred rep kvs with _ | ⟨x, xs⟩
        · simpa using povObj_nil_iff pred rep kvs |>.mp h
        · constructor
          · intro he; cases he
          · intro hs
            rw [povObj_nil_iff pred rep kvs |>.mpr hs] at h
            cases h
  | pred, rep, .null => by simp [povD, sitesD]
  | pred, rep, .undef => by simp [povD, sitesD]
  | pred, rep, .boolD b => by simp [povD, sitesD]
  | pred, rep, .num n => by simp [povD, sitesD]
  | pred, rep, .str s => by simp [povD, sitesD]
  | pred, rep, .wrapper i => by simp [povD, sitesD]
  | pred, rep, .record a b c d => by simp [povD, sitesD]

theorem povArr_none_iff : ∀ (pred : Data → Bool) (rep : Data → Data)
    (l : List Data) (i : Nat),
    (∀ o ∈ povArr pred rep l, o = none) ↔ sitesArr pred l i = []
  | pred, rep, [], i => by simp [povArr, sitesArr]
  | pred, rep, x :: tl, i => by
      simp only [povArr, sitesArr, List.mem_cons, List.append_eq_nil,
        List.map_eq_nil_iff]
      constructor
      · intro h
        refine ⟨(povD_none_iff pred rep x).mp (h _ (Or.inl rfl)), ?_⟩
        exact (povArr_none_iff pred rep tl (i + 1)).mp fun o ho => h o (Or.inr ho)
      · intro h o ho
        rcases ho with ho | ho
        · subst ho; exact (povD_none_iff pred rep x).mpr h.1
        · exact (povArr_none_iff pred rep tl (i + 1)).mpr h.2 o ho

theorem povObj_nil_iff : ∀ (pred : Data → Bool) (rep : Data → Data)
    (kvs : List (String × Data)),
    povObj pred rep kvs = [] ↔ sitesObj pred kvs = []
  | pred, rep, [] => by simp [povObj, sitesObj]
  | pred, rep, (k, v) :: tl => by
      simp only [povObj, sitesObj, List.append_eq_nil, List.map_eq_nil_iff]
      rcases h : povD pred rep v with _ | ov
      · simp only []
        rw [povObj_nil_iff pred rep tl]
        have := (povD_none_iff pred rep v).mp h
        simp [this]
      · simp only []
        constructor
        · intro he; cases he
        · intro hs
          have := (povD_none_iff pred rep v).mpr hs.1
          rw [this] at h
          cases h
end

mutual
theorem mapSitesD_id : ∀ (pred : Data → Bool) (f : Data → Data) (d : Data),
    sitesD pred d = [] → mapSitesD pred f d = d
  | pred, f, .arr l => by
      intro h
      by_cases hp : pred (.arr l)
      · simp [sitesD, hp] at h
      · simp only [sitesD] at h
        rw [if_neg hp] at h
        simp only [mapSitesD]
        rw [if_neg hp, mapSitesArr_id pred f l 0 h]
  | pred, f, .obj kvs => by
      intro h
      by_cases hp : pred (.obj kvs)
      · simp [sitesD, hp] at h
      · simp only [sitesD] at h
        rw [if_neg hp] at h
        simp only [mapSitesD]
        rw [if_neg hp, mapSitesObj_id pred f kvs h]
  | pred, f, .null => by intro h; by_cases hp : pred .null <;>
      simp_all [sitesD, mapSitesD]
  | pred, f, .undef => by intro h; by_cases hp : pred .undef <;>
      simp_all [sitesD, mapSitesD]
  | pred, f, .boolD b => by intro h; by_cases hp : pred (.boolD b) <;>
      simp_all [sitesD, mapSitesD]
  | pred, f, .num n => by intro h; by_cases hp : pred (.num n) <;>
      simp_all [sitesD, mapSitesD]
  | pred, f, .str s => by intro h; by_cases hp : pred (.str s) <;>
      simp_all [sitesD, mapSitesD]
  | pred, f, .wrapper i => by intro h; by_cases hp : pred (.wrapper i) <;>
      simp_all [sitesD, mapSitesD]
  | pred, f, .record a b c d => by intro h; by_cases hp : pred (.record a b c d) <;>
      simp_all [sitesD, mapSitesD]

theorem mapSitesArr_id : ∀ (pred : Data → Bool) (f : Data → Data)
    (l : List Data) (i : Nat), sitesArr pred l i = [] →
    mapSitesArr pred f l = l
  | pred, f, [], _ => by intro _; rfl
  | pred, f, x :: tl, i => by
      intro h
      simp only [sitesArr, List.append_eq_nil, List.map_eq_nil_iff] at h
      simp only [mapSitesArr]
      rw [mapSitesD_id pred f x h.1, mapSitesArr_id pred f tl (i + 1) h.2]

theorem mapSitesObj_id : ∀ (pred : Data → Bool) (f : Data → Data)
    (kvs : List (String × Data)), sitesObj pred kvs = [] →
    mapSitesObj pred f kvs = kvs
  | pred, f, [] => by intro _; rfl
  | pred, f, (k, v) :: tl => by
      intro h
      simp only [sitesObj, List.append_eq_nil, List.map_eq_nil_iff] at h
      simp only [mapSitesObj]
      rw [mapSitesD_id pred f v h.1, mapSitesObj_id pred f tl h.2]
end

theorem sitesD_pred_true {pred : Data → Bool} {d : Data} (h : pred d = true) :
    sitesD pred d = [([], d)] := by
  cases d <;> simp [sitesD, h]

theorem povD_pred_true {pred : Data → Bool} (rep : Data → Data) {d : Data}
    (h : pred d = true) : povD pred rep d = some (rep d) := by
  cases d <;> simp [povD, h]

theorem sitesD_arr_false {pred : Data → Bool} {l : List Data}
    (h : pred (.arr l) = false) : sitesD pred (.arr l) = sitesArr pred l 0 := by
  simp [sitesD, h]

theorem sitesD_obj_false {pred : Data → Bool} {kvs : List (String × Data)}
    (h : pred (.obj kvs) = false) : sitesD pred (.obj kvs) = sitesObj pred kvs := by
  simp [sitesD, h]

theorem povD_arr_false {pred : Data → Bool} (rep : Data → Data) {l : List Data}
    (h : pred (.arr l) = false) :
    povD pred rep (.arr l) =
      match fillTrim (povArr pred rep l) with
      | [] => none
      | items => some (.arr items) := by
  simp [povD, h]

theorem povD_obj_false {pred : Data → Bool} (rep : Data → Data)
    {kvs : List (String × Data)} (h : pred (.obj kvs) = false) :
    povD pred rep (.obj kvs) =
      match povObj pred rep kvs with
      | [] => none
      | entries => some (.obj entries) := by
  simp [povD, h]

theorem benignFields_mem {kvs : List (String × Data)}
    (h : benignFields kvs = true) {k : String} {v : Data} (hm : (k, v) ∈ kvs) :
    benignKey k = true ∧ benignD v = true := by
  induction kvs with
  | nil => cases hm
  | cons kv tl ih =>
      obtain ⟨k', v'⟩ := kv
      simp only [benignFields, Bool.and_eq_true] at h
      rcases List.mem_cons.mp hm with hm | hm
      · obtain ⟨he1, he2⟩ := Prod.mk.injEq .. ▸ hm
        exact ⟨he1 ▸ h.1.1, he2 ▸ h.1.2⟩
      · exact ih h.2 hm

theorem benignArr_mem {l : List Data} (h : benignArr l = true) {v : Data}
    (hm : v ∈ l) : benignD v = true := by
  induction l with
  | nil => cases hm
  | cons x tl ih =>
      simp only [benignArr, Bool.and_eq_true] at h
      rcases List.mem_cons.mp hm with hm | hm
      · exact hm ▸ h.1
      · exact ih h.2 hm

theorem sitesArr_shape {pred : Data → Bool} :
    ∀ {l : List Data} {i : Nat} {pr : List Seg × Data}, pr ∈ sitesArr pred l i →
      ∃ n p', pr.1 = Seg.idx n :: p' := by
  intro l
  induction l with
  | nil => intro i pr h; cases h
  | cons x tl ih =>
      intro i pr h
      rcases List.mem_append.mp h with h | h
      · rcases List.mem_map.mp h with ⟨q, _, hq⟩
        exact ⟨i, q.1, by rw [← hq]⟩
      · exact ih h

theorem sitesObj_shape {pred : Data → Bool} :
    ∀ {kvs : List (String × Data)} {pr : List Seg × Data},
      pr ∈ sitesObj pred kvs → ∃ k p', pr.1 = Seg.key k :: p' := by
  intro kvs
  induction kvs with
  | nil => intro pr h; cases h
  | cons kv tl ih =>
      obtain ⟨k, v⟩ := kv
      intro pr h
      rcases List.mem_append.mp h with h | h
      · rcases List.mem_map.mp h with ⟨q, _, hq⟩
        exact ⟨k, q.1, by rw [← hq]⟩
      · exact ih h

theorem sitesObj_keys_benign {pred : Data → Bool} :
    ∀ {kvs : List (String × Data)}, benignFields kvs = true →
      ∀ {pr : List Seg × Data}, pr ∈ sitesObj pred kvs →
      ∀ k p', pr.1 = Seg.key k :: p' → benignKey k = true := by
  intro kvs
  induction kvs with
  | nil => intro _ pr h; cases h
  | cons kv tl ih =>
      obtain ⟨k0, v0⟩ := kv
      intro hb pr h k p' hp
      simp only [benignFields, Bool.and_eq_true] at hb
      rcases List.mem_append.mp h with h | h
      · rcases List.mem_map.mp h with ⟨q, _, hq⟩
        have : pr.1 = Seg.key k0 :: q.1 := by rw [← hq]
        rw [hp] at this
        cases this
        exact hb.1.1
      · exact ih hb.2 h k p' hp

theorem sitesD_head {pred : Data → Bool} {v : Data} (hp : pred v = false)
    (hb : benignD v = true) :
    ∀ pr ∈ sitesD pred v, ∃ s p', pr.1 = s :: p' ∧
      (if isIndexKey (segToken s) then Data.arr [] else Data.obj []) = startBase v := by
  intro pr hpr
  cases v with
  | arr l =>
      rw [sitesD_arr_false hp] at hpr
      obtain ⟨n, p', hshape⟩ := sitesArr_shape hpr
      exact ⟨Seg.idx n, p', hshape, by simp [segToken, isIndexKey_natStr, startBase]⟩
  | obj kvs =>
      rw [sitesD_obj_false hp] at hpr
      obtain ⟨k, p', hshape⟩ := sitesObj_shape hpr
      have hbk : benignKey k = true := by
        have hbf : benignFields kvs = true := by
          simp only [benignD, Bool.and_eq_true] at hb
          exact hb.2
        exact sitesObj_keys_benign hbf hpr k p' hshape
      refine ⟨Seg.key k, p', hshape, ?_⟩
      simp [segToken, benignKey_not_index hbk, startBase]
  | null => simp [sitesD, hp] at hpr
  | undef => simp [sitesD, hp] at hpr
  | boolD b => simp [sitesD, hp] at hpr
  | num n => simp [sitesD, hp] at hpr
  | str s => simp [sitesD, hp] at hpr
  | wrapper i => simp [sitesD, hp] at hpr
  | record a b c d => simp [sitesD, hp] at hpr

theorem isObjectLike_lsetProp {d : Data} (h : isObjectLike d = true)
    (k : String) (v : Data) : isObjectLike (lsetProp d k v) = true := by
  cases d with
  | arr l =>
      simp only [lsetProp]
      split <;> simp [isObjectLike]
  | obj kvs => simp [lsetProp, isObjectLike]
  | wrapper i => simp [lsetProp, isObjectLike]
  | record a b c dd => simp [lsetProp, isObjectLike]
  | null => simp [isObjectLike] at h
  | undef => simp [isObjectLike] at h
  | boolD b => simp [isObjectLike] at h
  | num n => simp [isObjectLike] at h
  | str sx => simp [isObjectLike] at h

theorem isObjectLike_lset {cv : Data} (h : isObjectLike cv = true)
    (p : List String) (v : Data) : isObjectLike (lset cv p v) = true := by
  cases p with
  | nil => simpa [lset] using h
  | cons k rest =>
      cases rest with
      | nil => simpa [lset] using isObjectLike_lsetProp h k v
      | cons k2 r2 => simpa [lset] using isObjectLike_lsetProp h k _

theorem ovFold_nil (rep : Data → Data) (base : Data) : ovFold rep [] base = base := rfl

theorem ovFold_cons (rep : Data → Data) (pr : List Seg × Data)
    (tl : List (List Seg × Data)) (base : Data) :
    ovFold rep (pr :: tl) base =
      ovFold rep tl (lset base (pr.1.map segToken) (rep pr.2)) := rfl

theorem ovFold_append (rep : Data → Data) (a b : List (List Seg × Data))
    (base : Data) : ovFold rep (a ++ b) base = ovFold rep b (ovFold rep a base) := by
  simp [ovFold, List.foldl_append]

theorem set_concat {α : Type} (l : List α) (a b : α) :
    (l ++ [a]).set l.length b = l ++ [b] := by
  induction l with
  | nil => rfl
  | cons x tl ih => simp [List.set, ih]

theorem set_self_of_get? {α : Type} :
    ∀ (l : List α) (i : Nat) (cv : α), l.get? i = some cv → l.set i cv = l := by
  intro l
  induction l with
  | nil => intro i cv h; cases h
  | cons x tl ih =>
      intro i cv h
      cases i with
      | zero => simp_all [List.get?]
      | succ j =>
          simp only [List.get?] at h
          simp [List.set, ih j cv h]

theorem lt_length_of_get? {α : Type} :
    ∀ {l : List α} {i : Nat} {a : α}, l.get? i = some a → i < l.length := by
  intro l
  induction l with
  | nil => intro i a h; cases h
  | cons x tl ih =>
      intro i a h
      cases i with
      | zero => simp
      | succ j =>
          simp only [List.get?] at h
          have := ih h
          simp only [List.length_cons]
          omega

theorem get?_set_self {α : Type} :
    ∀ (l : List α) (i : Nat) (a : α), i < l.length → (l.set i a).get? i = some a := by
  intro l
  induction l with
  | nil => intro i a h; simp at h
  | cons x tl ih =>
      intro i a h
      cases i with
      | zero => rfl
      | succ j =>
          simp only [List.set, List.get?]
          exact ih j a (by simpa using Nat.lt_of_succ_lt_succ h)

theorem setSet {α : Type} :
    ∀ (l : List α) (i : Nat) (a b : α), (l.set i a).set i b = l.set i b := by
  intro l
  induction l with
  | nil => intro i a b; rfl
  | cons x tl ih =>
      intro i a b
      cases i with
      | zero => rfl
      | succ j => simp [List.set, ih]

theorem lset_arr_single {acc : List Data} {i : Nat} (hacc : acc.length ≤ i)
    (w : Data) :
    lset (.arr acc) [natStr i] w =
      .arr (acc ++ List.replicate (i - acc.length) .undef ++ [w]) := by
  simp only [lset, lsetProp]
  rw [if_pos (isIndexKey_natStr i), parseNat_natStr, padSet,
    if_neg (by omega)]

theorem lset_arr_missing {acc : List Data} {i : Nat} (hacc : acc.length ≤ i)
    (t : String) (ts : List String) (w : Data) :
    lset (.arr acc) (natStr i :: t :: ts) w =
      .arr (acc ++ List.replicate (i - acc.length) .undef ++
        [lset (if isIndexKey t then Data.arr [] else Data.obj []) (t :: ts) w]) := by
  simp only [lset]
  have hcur : lgetProp (.arr acc) (natStr i) = .undef := by
    simp only [lgetProp]
    rw [if_pos (isIndexKey_natStr i), parseNat_natStr,
      List.get?_eq_none.mpr hacc]
    rfl
  rw [hcur]
  simp only [isObjectLike, Bool.false_eq_true, if_false]
  simp only [lsetProp]
  rw [if_pos (isIndexKey_natStr i), parseNat_natStr, padSet, if_neg (by omega)]

theorem lset_obj_single {bkvs : List (String × Data)} {k : String}
    (hk : k ∉ mapKeys bkvs) (w : Data) :
    lset (.obj bkvs) [k] w = .obj (bkvs ++ [(k, w)]) := by
  simp only [lset, lsetProp]
  rw [mapSet_eq_append w hk]

theorem lset_obj_missing {bkvs : List (String × Data)} {k : String}
    (hk : k ∉ mapKeys bkvs) (t : String) (ts : List String) (w : Data) :
    lset (.obj bkvs) (k :: t :: ts) w =
      .obj (bkvs ++ [(k, lset (if isIndexKey t then Data.arr [] else Data.obj [])
        (t :: ts) w)]) := by
  simp only [lset]
  have hcur : lgetProp (.obj bkvs) k = .undef := by
    simp only [lgetProp, getProp]
    rw [mapGet_eq_none hk]
    rfl
  rw [hcur]
  simp only [isObjectLike, Bool.false_eq_true, if_false]
  simp only [lsetProp]
  rw [mapSet_eq_append _ hk]

theorem ovFold_group_obj (rep : Data → Data) (k : String) :
    ∀ ps : List (List Seg × Data), (∀ pr ∈ ps, pr.1 ≠ []) →
      ∀ (bkvs : List (String × Data)) (cv : Data), isObjectLike cv = true →
      ovFold rep (ps.map fun pr => (Seg.key k :: pr.1, pr.2))
          (.obj (mapSet bkvs k cv)) =
        .obj (mapSet bkvs k (ovFold rep ps cv)) := by
  intro ps
  induction ps with
  | nil => intro _ bkvs cv _; rfl
  | cons pr tl ih =>
      intro hne bkvs cv hcv
      obtain ⟨p, v⟩ := pr
      have hpne : p ≠ [] := hne (p, v) (by simp)
      cases p with
      | nil => exact absurd rfl hpne
      | cons s ptl =>
          rw [List.map_cons, ovFold_cons]
          have hstep : lset (Data.obj (mapSet bkvs k cv))
              ((Seg.key k :: s :: ptl).map segToken) (rep v) =
              Data.obj (mapSet bkvs k (lset cv ((s :: ptl).map segToken) (rep v))) := by
            simp only [List.map_cons, lset]
            have hcur : lgetProp (Data.obj (mapSet bkvs k cv)) (segToken (Seg.key k)) = cv := by
              simp [lgetProp, getProp, segToken, mapGet_mapSet_self]
            rw [hcur, if_pos hcv]
            simp only [lsetProp, segToken, mapSet_mapSet_self]
          rw [hstep,
            ih (fun q hq => hne q (by simp [hq])) bkvs _ (isObjectLike_lset hcv _ _),
            ovFold_cons]

theorem ovFold_group_arr (rep : Data → Data) (i : Nat) :
    ∀ ps : List (List Seg × Data), (∀ pr ∈ ps, pr.1 ≠ []) →
      ∀ (acc : List Data) (cv : Data), acc.get? i = some cv →
        isObjectLike cv = true →
      ovFold rep (ps.map fun pr => (Seg.idx i :: pr.1, pr.2)) (.arr acc) =
        .arr (acc.set i (ovFold rep ps cv)) := by
  intro ps
  induction ps with
  | nil =>
      intro _ acc cv hget _
      simp only [List.map_nil, ovFold_nil]
      rw [set_self_of_get? acc i cv hget]
  | cons pr tl ih =>
      intro hne acc cv hget hcv
      obtain ⟨p, v⟩ := pr
      have hpne : p ≠ [] := hne (p, v) (by simp)
      cases p with
      | nil => exact absurd rfl hpne
      | cons s ptl =>
          have hlt : i < acc.length := lt_length_of_get? hget
          rw [List.map_cons, ovFold_cons]
          have hstep : lset (Data.arr acc)
              ((Seg.idx i :: s :: ptl).map segToken) (rep v) =
              Data.arr (acc.set i (lset cv ((s :: ptl).map segToken) (rep v))) := by
            simp only [List.map_cons, lset]
            have hcur : lgetProp (Data.arr acc) (segToken (Seg.idx i)) = cv := by
              simp only [lgetProp, segToken]
              rw [if_pos (isIndexKey_natStr i), parseNat_natStr, hget]
              rfl
            rw [hcur, if_pos hcv]
            simp only [lsetProp, segToken]
            rw [if_pos (isIndexKey_natStr i), parseNat_natStr, padSet, if_pos hlt]
          rw [hstep,
            ih (fun q hq => hne q (by simp [hq])) (acc.set i _) _
              (get?_set_self acc i _ hlt) (isObjectLike_lset hcv _ _),
            setSet, ovFold_cons]

theorem startBase_objectLike (x : Data) : isObjectLike (startBase x) = true := by
  cases x <;> simp [startBase, isObjectLike]

theorem mapKeys_cons {k : String} {v : Data} {tl : List (String × Data)} :
    mapKeys ((k, v) :: tl) = k :: mapKeys tl := rfl

theorem ovFold_cons2 (rep : Data → Data) (p : List Seg) (v : Data)
    (tl : List (List Seg × Data)) (base : Data) :
    ovFold rep ((p, v) :: tl) base =
      ovFold rep tl (lset base (p.map segToken) (rep v)) := rfl

mutual
theorem ovFold_povD : ∀ (pred : Data → Bool) (rep : Data → Data) (d : Data),
    benignD d = true → pred d = false → ∀ ov, povD pred rep d = some ov →
    ovFold rep (sitesD pred d) (startBase d) = ov
  | pred, rep, .arr l => by
      intro hb hp ov hov
      rw [sitesD_arr_false hp]
      rw [povD_arr_false rep hp] at hov
      rcases ht : fillTrim (povArr pred rep l) with _ | ⟨x, xs⟩
      · rw [ht] at hov; cases hov
      · rw [ht] at hov
        cases hov
        have hmain := ovFold_povArr pred rep l (by exact hb) 0 [] (by simp)
        rw [ht] at hmain
        rw [show startBase (Data.arr l) = Data.arr [] from rfl, hmain]
        simp
  | pred, rep, .obj kvs => by
      intro hb hp ov hov
      rw [sitesD_obj_false hp]
      rw [povD_obj_false rep hp] at hov
      rcases ht : povObj pred rep kvs with _ | ⟨e, es⟩
      · rw [ht] at hov; cases hov
      · rw [ht] at hov
        cases hov
        have hb2 := hb
        simp only [benignD, Bool.and_eq_true] at hb2
        have hmain := ovFold_povObj pred rep kvs hb2.2 hb2.1 [] (by simp [mapKeys])
        rw [ht] at hmain
        rw [show startBase (Data.obj kvs) = Data.obj [] from rfl, hmain]
        simp
  | pred, rep, .null => by intro hb hp ov hov; simp [povD, hp] at hov
  | pred, rep, .undef => by intro hb hp ov hov; simp [povD, hp] at hov
  | pred, rep, .boolD b => by intro hb hp ov hov; simp [povD, hp] at hov
  | pred, rep, .num n => by intro hb hp ov hov; simp [povD, hp] at hov
  | pred, rep, .str sx => by intro hb hp ov hov; simp [povD, hp] at hov
  | pred, rep, .wrapper i => by intro hb hp ov hov; simp [povD, hp] at hov
  | pred, rep, .record a b c d => by intro hb hp ov hov; simp [povD, hp] at hov

theorem ovFold_povArr : ∀ (pred : Data → Bool) (rep : Data → Data) (l : List Data),
    benignArr l = true → ∀ (i : Nat) (acc : List Data), acc.length ≤ i →
    ovFold rep (sitesArr pred l i) (.arr acc) =
      .arr (if fillTrim (povArr pred rep l) = [] then acc
        else acc ++ List.replicate (i - acc.length) .undef ++
          fillTrim (povArr pred rep l))
  | pred, rep, [] => by
      intro _ i acc _
      simp [sitesArr, povArr, fillTrim, ovFold]
  | pred, rep, x :: tl => by
      intro hb i acc hacc
      have hb2 := hb
      simp only [benignArr, Bool.and_eq_true] at hb2
      have hbx : benignD x = true := hb2.1
      have hbtl : benignArr tl = true := hb2.2
      rw [show sitesArr pred (x :: tl) i =
        ((sitesD pred x).map fun pr => (Seg.idx i :: pr.1, pr.2)) ++
          sitesArr pred tl (i + 1) from rfl, ovFold_append]
      rw [show povArr pred rep (x :: tl) = povD pred rep x :: povArr pred rep tl
        from rfl]
      by_cases hpx : pred x = true
      · rw [sitesD_pred_true hpx, povD_pred_true rep hpx]
        have hone : ovFold rep
            ([(([] : List Seg), x)].map fun pr => (Seg.idx i :: pr.1, pr.2))
            (Data.arr acc) =
            Data.arr (acc ++ List.replicate (i - acc.length) Data.undef ++ [rep x]) := by
          rw [show ([(([] : List Seg), x)].map fun pr => (Seg.idx i :: pr.1, pr.2)) =
            [(Seg.idx i :: ([] : List Seg), x)] from rfl,
            ovFold_cons2 rep (Seg.idx i :: []) x [] (Data.arr acc), ovFold_nil,
            show ((Seg.idx i :: ([] : List Seg)).map segToken) = [natStr i] from rfl]
          exact lset_arr_single hacc (rep x)
        rw [hone, ovFold_povArr pred rep tl hbtl (i + 1)
          (acc ++ List.replicate (i - acc.length) Data.undef ++ [rep x])
          (by
            simp only [List.length_append, List.length_replicate,
              List.length_cons, List.length_nil]
            omega)]
        have hlen : (acc ++ List.replicate (i - acc.length) Data.undef ++
            [rep x]).length = i + 1 := by
          simp only [List.length_append, List.length_replicate,
            List.length_cons, List.length_nil]
          omega
        rcases htl : fillTrim (povArr pred rep tl) with _ | ⟨y, ys⟩
        · simp [fillTrim, htl]
        · simp only [fillTrim, htl, hlen]
          simp [List.append_assoc, Nat.sub_self]
      · have hpxf : pred x = false := by revert hpx; cases pred x <;> simp
        rcases hsx : sitesD pred x with _ | ⟨pr1, rest⟩
        · have hpovx : povD pred rep x = none := (povD_none_iff pred rep x).mpr hsx
          rw [hpovx]
          simp only [List.map_nil, ovFold_nil]
          rw [ovFold_povArr pred rep tl hbtl (i + 1) acc (by omega)]
          rcases htl : fillTrim (povArr pred rep tl) with _ | ⟨y, ys⟩
          · simp [fillTrim, htl]
          · simp only [fillTrim, htl, List.isEmpty_cons, Bool.false_eq_true, if_false]
            have hrepl : (i + 1) - acc.length = (i - acc.length) + 1 := by omega
            rw [hrepl, List.replicate_succ']
            simp [List.append_assoc]
        · have hpov : ∃ ov1, povD pred rep x = some ov1 := by
            rcases hpv : povD pred rep x with _ | o
            · rw [(povD_none_iff pred rep x).mp hpv] at hsx; cases hsx
            · exact ⟨o, rfl⟩
          obtain ⟨ov1, hov1⟩ := hpov
          obtain ⟨pp, vv⟩ := pr1
          have hmem1 : ((pp, vv) : List Seg × Data) ∈ sitesD pred x := by
            rw [hsx]; exact List.mem_cons_self _ _
          obtain ⟨s, p', hps, hstart⟩ := sitesD_head hpxf hbx (pp, vv) hmem1
          simp only at hps
          subst hps
          have hrestne : ∀ pr ∈ rest, pr.1 ≠ [] := by
            intro pr hpr
            have hm : pr ∈ sitesD pred x := by
              rw [hsx]; exact List.mem_cons_of_mem _ hpr
            obtain ⟨s2, p2, hp2, _⟩ := sitesD_head hpxf hbx pr hm
            rw [hp2]; simp
          rw [show List.map (fun pr => ((Seg.idx i :: pr.1, pr.2) : List Seg × Data))
              ((s :: p', vv) :: rest) =
            (Seg.idx i :: s :: p', vv) ::
              List.map (fun pr => ((Seg.idx i :: pr.1, pr.2) : List Seg × Data)) rest
            from rfl]
          rw [ovFold_cons2 rep (Seg.idx i :: s :: p') vv]
          have hfirst : lset (Data.arr acc)
              ((Seg.idx i :: s :: p').map segToken) (rep vv) =
              Data.arr (acc ++ List.replicate (i - acc.length) Data.undef ++
                [lset (startBase x) ((s :: p').map segToken) (rep vv)]) := by
            rw [show ((Seg.idx i :: s :: p').map segToken) =
              natStr i :: segToken s :: p'.map segToken from rfl]
            rw [lset_arr_missing hacc (segToken s) (p'.map segToken) (rep vv), hstart]
            rfl
          rw [hfirst]
          have hlen2 : (acc ++ List.replicate (i - acc.length) Data.undef).length = i := by
            simp only [List.length_append, List.length_replicate]
            omega
          have hget1 : (acc ++ List.replicate (i - acc.length) Data.undef ++
              [lset (startBase x) ((s :: p').map segToken) (rep vv)]).get? i =
              some (lset (startBase x) ((s :: p').map segToken) (rep vv)) := by
            have h := List.get?_concat_length
              (acc ++ List.replicate (i - acc.length) Data.undef)
              (lset (startBase x) ((s :: p').map segToken) (rep vv))
            rw [hlen2] at h
            exact h
          have hobj1 : isObjectLike (lset (startBase x)
              ((s :: p').map segToken) (rep vv)) = true :=
            isObjectLike_lset (startBase_objectLike x) _ _
          rw [ovFold_group_arr rep i rest hrestne _ _ hget1 hobj1]
          have hfold : ovFold rep rest
              (lset (startBase x) ((s :: p').map segToken) (rep vv)) = ov1 := by
            have h := ovFold_povD pred rep x hbx hpxf ov1 hov1
            rw [hsx, ovFold_cons2 rep (s :: p') vv] at h
            exact h
          rw [hfold]
          have hset : (acc ++ List.replicate (i - acc.length) Data.undef ++
              [lset (startBase x) ((s :: p').map segToken) (rep vv)]).set i ov1 =
              acc ++ List.replicate (i - acc.length) Data.undef ++ [ov1] := by
            have h := set_concat (acc ++ List.replicate (i - acc.length) Data.undef)
              (lset (startBase x) ((s :: p').map segToken) (rep vv)) ov1
            rw [hlen2] at h
            exact h
          rw [hset, ovFold_povArr pred rep tl hbtl (i + 1)
            (acc ++ List.replicate (i - acc.length) Data.undef ++ [ov1])
            (by
              simp only [List.length_append, List.length_replicate,
                List.length_cons, List.length_nil]
              omega), hov1]
          have hlen3 : (acc ++ List.replicate (i - acc.length) Data.undef ++
              [ov1]).length = i + 1 := by
            simp only [List.length_append, List.length_replicate,
              List.length_cons, List.length_nil]
            omega
          rcases htl : fillTrim (povArr pred rep tl) with _ | ⟨y, ys⟩
          · simp [fillTrim, htl]
          · simp only [fillTrim, htl, hlen3]
            simp [List.append_assoc, Nat.sub_self]

theorem ovFold_povObj : ∀ (pred : Data → Bool) (rep : Data → Data)
    (kvs : List (String × Data)), benignFields kvs = true →
    keysNodupB (mapKeys kvs) = true →
    ∀ bkvs : List (String × Data), (∀ k2 ∈ mapKeys kvs, k2 ∉ mapKeys bkvs) →
    ovFold rep (sitesObj pred kvs) (.obj bkvs) = .obj (bkvs ++ povObj pred rep kvs)
  | pred, rep, [] => by
      intro _ _ bkvs _
      simp [sitesObj, povObj, ovFold]
  | pred, rep, (k, v) :: tl => by
      intro hbf hnd bkvs hdis
      have hbf2 := hbf
      simp only [benignFields, Bool.and_eq_true] at hbf2
      have hbv : benignD v = true := hbf2.1.2
      have hbtl : benignFields tl = true := hbf2.2
      have hnd2 := hnd
      simp only [mapKeys_cons, keysNodupB, Bool.and_eq_true,
        decide_eq_true_eq] at hnd2
      have hndtl : keysNodupB (mapKeys tl) = true := hnd2.2
      have hknotl : k ∉ mapKeys tl := hnd2.1
      have hkb : k ∉ mapKeys bkvs := hdis k (by rw [mapKeys_cons]; exact List.mem_cons_self _ _)
      have hdistl : ∀ k2 ∈ mapKeys tl, k2 ∉ mapKeys bkvs := fun k2 hk2 =>
        hdis k2 (by rw [mapKeys_cons]; exact List.mem_cons_of_mem _ hk2)
      have hfresh : ∀ w : Data, ∀ k2 ∈ mapKeys tl, k2 ∉ mapKeys (bkvs ++ [(k, w)]) := by
        intro w k2 hk2
        have h1 := hdistl k2 hk2
        have h2 : k2 ≠ k := fun he => hknotl (he ▸ hk2)
        simp only [mapKeys, List.map_append, List.map_cons, List.map_nil,
          List.mem_append, List.mem_cons, List.not_mem_nil, or_false, not_or]
        exact ⟨h1, h2⟩
      rw [show sitesObj pred ((k, v) :: tl) =
        ((sitesD pred v).map fun pr => (Seg.key k :: pr.1, pr.2)) ++
          sitesObj pred tl from rfl, ovFold_append]
      rw [show povObj pred rep ((k, v) :: tl) =
        (match povD pred rep v with
          | some ov => (k, ov) :: povObj pred rep tl
          | none => povObj pred rep tl) from rfl]
      by_cases hpv : pred v = true
      · rw [sitesD_pred_true hpv, povD_pred_true rep hpv]
        have hone : ovFold rep
            ([(([] : List Seg), v)].map fun pr => (Seg.key k :: pr.1, pr.2))
            (Data.obj bkvs) = Data.obj (bkvs ++ [(k, rep v)]) := by
          rw [show ([(([] : List Seg), v)].map fun pr => (Seg.key k :: pr.1, pr.2)) =
            [(Seg.key k :: ([] : List Seg), v)] from rfl,
            ovFold_cons2 rep (Seg.key k :: []) v [] (Data.obj bkvs), ovFold_nil,
            show ((Seg.key k :: ([] : List Seg)).map segToken) = [k] from rfl]
          exact lset_obj_single hkb (rep v)
        rw [hone, ovFold_povObj pred rep tl hbtl hndtl (bkvs ++ [(k, rep v)])
          (hfresh (rep v))]
        simp [List.append_assoc]
      · have hpvf : pred v = false := by revert hpv; cases pred v <;> simp
        rcases hsv : sitesD pred v with _ | ⟨pr1, rest⟩
        · have hpovv : povD pred rep v = none := (povD_none_iff pred rep v).mpr hsv
          rw [hpovv]
          simp only [List.map_nil, ovFold_nil]
          exact ovFold_povObj pred rep tl hbtl hndtl bkvs hdistl
        · have hpov : ∃ ov1, povD pred rep v = some ov1 := by
            rcases hpv2 : povD pred rep v with _ | o
            · rw [(povD_none_iff pred rep v).mp hpv2] at hsv; cases hsv
            · exact ⟨o, rfl⟩
          obtain ⟨ov1, hov1⟩ := hpov
          obtain ⟨pp, vv⟩ := pr1
          have hmem1 : ((pp, vv) : List Seg × Data) ∈ sitesD pred v := by
            rw [hsv]; exact List.mem_cons_self _ _
          obtain ⟨s, p', hps, hstart⟩ := sitesD_head hpvf hbv (pp, vv) hmem1
          simp only at hps
          subst hps
          have hrestne : ∀ pr ∈ rest, pr.1 ≠ [] := by
            intro pr hpr
            have hm : pr ∈ sitesD pred v := by
              rw [hsv]; exact List.mem_cons_of_mem _ hpr
            obtain ⟨s2, p2, hp2, _⟩ := sitesD_head hpvf hbv pr hm
            rw [hp2]; simp
          rw [show List.map (fun pr => ((Seg.key k :: pr.1, pr.2) : List Seg × Data))
              ((s :: p', vv) :: rest) =
            (Seg.key k :: s :: p', vv) ::
              List.map (fun pr => ((Seg.key k :: pr.1, pr.2) : List Seg × Data)) rest
            from rfl]
          rw [ovFold_cons2 rep (Seg.key k :: s :: p') vv]
          have hfirst : lset (Data.obj bkvs)
              ((Seg.key k :: s :: p').map segToken) (rep vv) =
              Data.obj (mapSet bkvs k
                (lset (startBase v) ((s :: p').map segToken) (rep vv))) := by
            rw [show ((Seg.key k :: s :: p').map segToken) =
              k :: segToken s :: p'.map segToken from rfl]
            rw [lset_obj_missing hkb (segToken s) (p'.map segToken) (rep vv), hstart,
              mapSet_eq_append _ hkb]
            rfl
          rw [hfirst]
          rw [ovFold_group_obj rep k rest hrestne bkvs _
            (isObjectLike_lset (startBase_objectLike v) _ _)]
          have hfold : ovFold rep rest
              (lset (startBase v) ((s :: p').map segToken) (rep vv)) = ov1 := by
            have h := ovFold_povD pred rep v hbv hpvf ov1 hov1
            rw [hsv, ovFold_cons2 rep (s :: p') vv] at h
            exact h
          rw [hfold, mapSet_eq_append _ hkb,
            ovFold_povObj pred rep tl hbtl hndtl (bkvs ++ [(k, ov1)]) (hfresh ov1),
            hov1]
          simp [List.append_assoc]
end

theorem mapSitesD_pred_true {pred : Data → Bool} (f : Data → Data) {d : Data}
    (h : pred d = true) : mapSitesD pred f d = f d := by
  cases d <;> simp [mapSitesD, h]

theorem mapSitesD_arr_false {pred : Data → Bool} (f : Data → Data)
    {l : List Data} (h : pred (.arr l) = false) :
    mapSitesD pred f (.arr l) = .arr (mapSitesArr pred f l) := by
  simp [mapSitesD, h]

theorem mapSitesD_obj_false {pred : Data → Bool} (f : Data → Data)
    {kvs : List (String × Data)} (h : pred (.obj kvs) = false) :
    mapSitesD pred f (.obj kvs) = .obj (mapSitesObj pred f kvs) := by
  simp [mapSitesD, h]

theorem mergeD_atomic {s : Data} (h : atomicRep s = true) (d : Data) :
    mergeD d s = s := by
  cases s with
  | undef => simp [atomicRep] at h
  | obj kvs => simp [atomicRep] at h
  | arr l => simp [atomicRep] at h
  | null => rfl
  | boolD b => rfl
  | num n => rfl
  | str sx => rfl
  | wrapper i => rfl
  | record a b c dd => rfl

theorem mergeD_undef (d : Data) : mergeD d .undef = d := rfl

theorem mergeFields_skip :
    ∀ (src : List (String × Data)) (k : String) (w : Data)
      (tl : List (String × Data)), k ∉ mapKeys src →
      mergeFields ((k, w) :: tl) src = (k, w) :: mergeFields tl src := by
  intro src
  induction src with
  | nil => intro k w tl _; rfl
  | cons kv rest ih =>
      obtain ⟨k2, sv⟩ := kv
      intro k w tl hk
      simp only [mapKeys, List.map_cons, List.mem_cons, not_or] at hk
      have hne : k ≠ k2 := hk.1
      have hrest : k ∉ mapKeys rest := by simpa [mapKeys] using hk.2
      simp only [mergeFields, mapGet, if_neg hne, mapSet, if_neg hne,
        List.cons_append]
      rcases hget : mapGet tl k2 with _ | dv
      · show mergeFields ((k, w) :: (tl ++ [(k2, sv)])) rest =
          (k, w) :: mergeFields (tl ++ [(k2, sv)]) rest
        exact ih k w _ hrest
      · show mergeFields ((k, w) :: mapSet tl k2 (mergeD dv sv)) rest =
          (k, w) :: mergeFields (mapSet tl k2 (mergeD dv sv)) rest
        exact ih k w _ hrest

theorem povObj_keys_sub {pred : Data → Bool} {rep : Data → Data} :
    ∀ {kvs : List (String × Data)} {k2 : String},
      k2 ∈ mapKeys (povObj pred rep kvs) → k2 ∈ mapKeys kvs := by
  intro kvs
  induction kvs with
  | nil => intro k2 h; simp [povObj] at h; cases h
  | cons kv tl ih =>
      obtain ⟨k, v⟩ := kv
      intro k2 h
      simp only [povObj] at h
      rcases hpov : povD pred rep v with _ | ov
      · rw [hpov] at h
        exact List.mem_cons_of_mem _ (ih h)
      · rw [hpov] at h
        simp only [mapKeys, List.map_cons, List.mem_cons] at h ⊢
        rcases h with h | h
        · exact Or.inl h
        · exact Or.inr (ih h)

theorem sitesArr_mem_val {pred : Data → Bool} :
    ∀ (l : List Data) (i : Nat) (x : Data), x ∈ l →
      ∀ pr ∈ sitesD pred x, ∃ q, q ∈ sitesArr pred l i ∧ q.2 = pr.2 := by
  intro l
  induction l with
  | nil => intro i x hx; cases hx
  | cons y tl ih =>
      intro i x hx pr hpr
      rcases List.mem_cons.mp hx with hx | hx
      · subst hx
        exact ⟨(Seg.idx i :: pr.1, pr.2),
          List.mem_append_left _ (List.mem_map.mpr ⟨pr, hpr, rfl⟩), rfl⟩
      · obtain ⟨q, hq, hq2⟩ := ih (i + 1) x hx pr hpr
        exact ⟨q, List.mem_append_right _ hq, hq2⟩

theorem sitesObj_mem_val {pred : Data → Bool} :
    ∀ (kvs : List (String × Data)) (k : String) (v : Data), (k, v) ∈ kvs →
      ∀ pr ∈ sitesD pred v, ∃ q, q ∈ sitesObj pred kvs ∧ q.2 = pr.2 := by
  intro kvs
  induction kvs with
  | nil => intro k v hx; cases hx
  | cons kv tl ih =>
      obtain ⟨k0, v0⟩ := kv
      intro k v hx pr hpr
      rcases List.mem_cons.mp hx with hx | hx
      · obtain ⟨hk, hv⟩ := Prod.mk.injEq .. ▸ hx
        subst hv
        exact ⟨(Seg.key k0 :: pr.1, pr.2),
          List.mem_append_left _ (List.mem_map.mpr ⟨pr, hpr, rfl⟩), rfl⟩
      · obtain ⟨q, hq, hq2⟩ := ih k v hx pr hpr
        exact ⟨q, List.mem_append_right _ hq, hq2⟩

mutual
theorem mergeD_povD : ∀ (pred : Data → Bool) (rep : Data → Data) (d : Data),
    benignD d = true →
    (∀ pr ∈ sitesD pred d, atomicRep (rep pr.2) = true) →
    ∀ ov, povD pred rep d = some ov → mergeD d ov = mapSitesD pred rep d
  | pred, rep, .arr l => by
      intro hb hrep ov hov
      by_cases hp : pred (.arr l) = true
      · rw [povD_pred_true rep hp] at hov
        cases hov
        rw [mapSitesD_pred_true rep hp]
        exact mergeD_atomic (hrep ([], .arr l) (by rw [sitesD_pred_true hp]; simp)) _
      · have hpf : pred (.arr l) = false := by revert hp; cases pred (.arr l) <;> simp
        rw [povD_arr_false rep hpf] at hov
        rcases he : fillTrim (povArr pred rep l) with _ | ⟨e, es⟩
        · rw [he] at hov; cases hov
        · rw [he] at hov
          cases hov
          rw [mapSitesD_arr_false rep hpf]
          rw [show mergeD (Data.arr l) (Data.arr (e :: es)) =
            Data.arr (mergeItems l (e :: es)) from rfl, ← he]
          refine congrArg Data.arr (mergeItems_povArr pred rep l (by exact hb) ?_)
          intro x hx pr hpr
          obtain ⟨q, hq, hq2⟩ := sitesArr_mem_val l 0 x hx pr hpr
          have := hrep q (by rw [sitesD_arr_false hpf]; exact hq)
          rw [hq2] at this
          exact this
  | pred, rep, .obj kvs => by
      intro hb hrep ov hov
      by_cases hp : pred (.obj kvs) = true
      · rw [povD_pred_true rep hp] at hov
        cases hov
        rw [mapSitesD_pred_true rep hp]
        exact mergeD_atomic (hrep ([], .obj kvs) (by rw [sitesD_pred_true hp]; simp)) _
      · have hpf : pred (.obj kvs) = false := by revert hp; cases pred (.obj kvs) <;> simp
        rw [povD_obj_false rep hpf] at hov
        rcases he : povObj pred rep kvs with _ | ⟨e, es⟩
        · rw [he] at hov; cases hov
        · rw [he] at hov
          cases hov
          rw [mapSitesD_obj_false rep hpf]
          rw [show mergeD (Data.obj kvs) (Data.obj (e :: es)) =
            Data.obj (mergeFields kvs (e :: es)) from rfl, ← he]
          have hb2 := hb
          simp only [benignD, Bool.and_eq_true] at hb2
          refine congrArg Data.obj (mergeFields_povObj pred rep kvs hb2.1 hb2.2 ?_)
          intro kv hkv pr hpr
          obtain ⟨q, hq, hq2⟩ := sitesObj_mem_val kvs kv.1 kv.2 (by simpa using hkv) pr hpr
          have := hrep q (by rw [sitesD_obj_false hpf]; exact hq)
          rw [hq2] at this
          exact this
  | pred, rep, .null => by
      intro hb hrep ov hov
      by_cases hp : pred .null = true
      · rw [povD_pred_true rep hp] at hov
        cases hov
        rw [mapSitesD_pred_true rep hp]
        exact mergeD_atomic (hrep ([], .null) (by rw [sitesD_pred_true hp]; simp)) _
      · simp [povD, hp] at hov
  | pred, rep, .undef => by
      intro hb hrep ov hov
      by_cases hp : pred .undef = true
      · rw [povD_pred_true rep hp] at hov
        cases hov
        rw [mapSitesD_pred_true rep hp]
        exact mergeD_atomic (hrep ([], .undef) (by rw [sitesD_pred_true hp]; simp)) _
      · simp [povD, hp] at hov
  | pred, rep, .boolD b => by
      intro hb hrep ov hov
      by_cases hp : pred (.boolD b) = true
      · rw [povD_pred_true rep hp] at hov
        cases hov
        rw [mapSitesD_pred_true rep hp]
        exact mergeD_atomic (hrep ([], .boolD b) (by rw [sitesD_pred_true hp]; simp)) _
      · simp [povD, hp] at hov
  | pred, rep, .num n => by
      intro hb hrep ov hov
      by_cases hp : pred (.num n) = true
      · rw [povD_pred_true rep hp] at hov
        cases hov
        rw [mapSitesD_pred_true rep hp]
        exact mergeD_atomic (hrep ([], .num n) (by rw [sitesD_pred_true hp]; simp)) _
      · simp [povD, hp] at hov
  | pred, rep, .str sx => by
      intro hb hrep ov hov
      by_cases hp : pred (.str sx) = true
      · rw [povD_pred_true rep hp] at hov
        cases hov
        rw [mapSitesD_pred_true rep hp]
        exact mergeD_atomic (hrep ([], .str sx) (by rw [sitesD_pred_true hp]; simp)) _
      · simp [povD, hp] at hov
  | pred, rep, .wrapper i => by
      intro hb hrep ov hov
      by_cases hp : pred (.wrapper i) = true
      · rw [povD_pred_true rep hp] at hov
        cases hov
        rw [mapSitesD_pred_true rep hp]
        exact mergeD_atomic (hrep ([], .wrapper i) (by rw [sitesD_pred_true hp]; simp)) _
      · simp [povD, hp] at hov
  | pred, rep, .record a b c d => by
      intro hb hrep ov hov
      by_cases hp : pred (.record a b c d) = true
      · rw [povD_pred_true rep hp] at hov
        cases hov
        rw [mapSitesD_pred_true rep hp]
        exact mergeD_atomic
          (hrep ([], .record a b c d) (by rw [sitesD_pred_true hp]; simp)) _
      · simp [povD, hp] at hov

theorem mergeItems_povArr : ∀ (pred : Data → Bool) (rep : Data → Data)
    (l : List Data), benignArr l = true →
    (∀ x ∈ l, ∀ pr ∈ sitesD pred x, atomicRep (rep pr.2) = true) →
    mergeItems l (fillTrim (povArr pred rep l)) = mapSitesArr pred rep l
  | pred, rep, [] => by intro _ _; rfl
  | pred, rep, x :: tl => by
      intro hb hrep
      have hb2 := hb
      simp only [benignArr, Bool.and_eq_true] at hb2
      have hrepx : ∀ pr ∈ sitesD pred x, atomicRep (rep pr.2) = true :=
        hrep x (List.mem_cons_self _ _)
      have hreptl : ∀ y ∈ tl, ∀ pr ∈ sitesD pred y, atomicRep (rep pr.2) = true :=
        fun y hy => hrep y (List.mem_cons_of_mem _ hy)
      rw [show povArr pred rep (x :: tl) = povD pred rep x :: povArr pred rep tl
        from rfl]
      rcases hpov : povD pred rep x with _ | ov1
      · rcases htl : fillTrim (povArr pred rep tl) with _ | ⟨y, ys⟩
        · rw [show fillTrim (none :: povArr pred rep tl) =
            (if (fillTrim (povArr pred rep tl)).isEmpty then []
              else Data.undef :: fillTrim (povArr pred rep tl)) from rfl, htl]
          simp only [List.isEmpty_nil, if_true]
          rw [show mergeItems (x :: tl) [] = x :: tl from rfl]
          rw [show mapSitesArr pred rep (x :: tl) =
            mapSitesD pred rep x :: mapSitesArr pred rep tl from rfl]
          rw [mapSitesD_id pred rep x ((povD_none_iff pred rep x).mp hpov)]
          rw [mapSitesArr_id pred rep tl 0 ((povArr_none_iff pred rep tl 0).mp
            ((fillTrim_eq_nil_iff _).mp htl))]
        · rw [show fillTrim (none :: povArr pred rep tl) =
            (if (fillTrim (povArr pred rep tl)).isEmpty then []
              else Data.undef :: fillTrim (povArr pred rep tl)) from rfl, htl]
          simp only [List.isEmpty_cons, Bool.false_eq_true, if_false]
          rw [show mergeItems (x :: tl) (Data.undef :: y :: ys) =
            mergeD x Data.undef :: mergeItems tl (y :: ys) from rfl]
          rw [mergeD_undef, ← htl,
            mergeItems_povArr pred rep tl hb2.2 hreptl]
          rw [show mapSitesArr pred rep (x :: tl) =
            mapSitesD pred rep x :: mapSitesArr pred rep tl from rfl]
          rw [mapSitesD_id pred rep x ((povD_none_iff pred rep x).mp hpov)]
      · rw [show fillTrim (some ov1 :: povArr pred rep tl) =
          ov1 :: fillTrim (povArr pred rep tl) from rfl]
        rw [show mergeItems (x :: tl) (ov1 :: fillTrim (povArr pred rep tl)) =
          mergeD x ov1 :: mergeItems tl (fillTrim (povArr pred rep tl)) from rfl]
        rw [mergeD_povD pred rep x hb2.1 hrepx ov1 hpov,
          mergeItems_povArr pred rep tl hb2.2 hreptl]
        rfl

theorem mergeFields_povObj : ∀ (pred : Data → Bool) (rep : Data → Data)
    (kvs : List (String × Data)), keysNodupB (mapKeys kvs) = true →
    benignFields kvs = true →
    (∀ kv ∈ kvs, ∀ pr ∈ sitesD pred kv.2, atomicRep (rep pr.2) = true) →
    mergeFields kvs (povObj pred rep kvs) = mapSitesObj pred rep kvs
  | pred, rep, [] => by intro _ _ _; rfl
  | pred, rep, (k, v) :: tl => by
      intro hnd hbf hrep
      have hnd2 := hnd
      simp only [mapKeys_cons, keysNodupB, Bool.and_eq_true,
        decide_eq_true_eq] at hnd2
      have hbf2 := hbf
      simp only [benignFields, Bool.and_eq_true] at hbf2
      have hrepv : ∀ pr ∈ sitesD pred v, atomicRep (rep pr.2) = true :=
        hrep (k, v) (List.mem_cons_self _ _)
      have hreptl : ∀ kv ∈ tl, ∀ pr ∈ sitesD pred kv.2, atomicRep (rep pr.2) = true :=
        fun kv hkv => hrep kv (List.mem_cons_of_mem _ hkv)
      have hkpov : k ∉ mapKeys (povObj pred rep tl) := fun hmem =>
        hnd2.1 (povObj_keys_sub hmem)
      rw [show povObj pred rep ((k, v) :: tl) =
        (match povD pred rep v with
          | some ov => (k, ov) :: povObj pred rep tl
          | none => povObj pred rep tl) from rfl]
      rcases hpov : povD pred rep v with _ | ov1
      · rw [mergeFields_skip (povObj pred rep tl) k v tl hkpov,
          mergeFields_povObj pred rep tl hnd2.2 hbf2.2 hreptl]
        rw [show mapSitesObj pred rep ((k, v) :: tl) =
          (k, mapSitesD pred rep v) :: mapSitesObj pred rep tl from rfl]
        rw [mapSitesD_id pred rep v ((povD_none_iff pred rep v).mp hpov)]
      · rw [show mergeFields ((k, v) :: tl) ((k, ov1) :: povObj pred rep tl) =
          mergeFields (mapSet ((k, v) :: tl) k (mergeD v ov1))
            (povObj pred rep tl) from by simp [mergeFields, mapGet]]
        rw [show mapSet ((k, v) :: tl) k (mergeD v ov1) =
          (k, mergeD v ov1) :: tl from by simp [mapSet]]
        rw [mergeFields_skip (povObj pred rep tl) k (mergeD v ov1) tl hkpov,
          mergeFields_povObj pred rep tl hnd2.2 hbf2.2 hreptl,
          mergeD_povD pred rep v hbf2.1.2 hrepv ov1 hpov]
        rfl
end

mutual
theorem sites_pred : ∀ (pred : Data → Bool) (d : Data),
    ∀ pr ∈ sitesD pred d, pred pr.2 = true
  | pred, .arr l => by
      intro pr hpr
      by_cases hp : pred (.arr l) = true
      · rw [sitesD_pred_true hp] at hpr
        simp at hpr
        subst hpr
        exact hp
      · rw [sitesD_arr_false (by revert hp; cases pred (.arr l) <;> simp)] at hpr
        exact sitesArr_pred pred l 0 pr hpr
  | pred, .obj kvs => by
      intro pr hpr
      by_cases hp : pred (.obj kvs) = true
      · rw [sitesD_pred_true hp] at hpr
        simp at hpr
        subst hpr
        exact hp
      · rw [sitesD_obj_false (by revert hp; cases pred (.obj kvs) <;> simp)] at hpr
        exact sitesObj_pred pred kvs pr hpr
  | pred, .null => by
      intro pr hpr
      by_cases hp : pred .null = true
      · rw [sitesD_pred_true hp] at hpr
        simp at hpr
        subst hpr; exact hp
      · simp [sitesD, hp] at hpr
  | pred, .undef => by
      intro pr hpr
      by_cases hp : pred .undef = true
      · rw [sitesD_pred_true hp] at hpr
        simp at hpr
        subst hpr; exact hp
      · simp [sitesD, hp] at hpr
  | pred, .boolD b => by
      intro pr hpr
      by_cases hp : pred (.boolD b) = true
      · rw [sitesD_pred_true hp] at hpr
        simp at hpr
        subst hpr; exact hp
      · simp [sitesD, hp] at hpr
  | pred, .num n => by
      intro pr hpr
      by_cases hp : pred (.num n) = true
      · rw [sitesD_pred_true hp] at hpr
        simp at hpr
        subst hpr; exact hp
      · simp [sitesD, hp] at hpr
  | pred, .str sx => by
      intro pr hpr
      by_cases hp : pred (.str sx) = true
      · rw [sitesD_pred_true hp] at hpr
        simp at hpr
        subst hpr; exact hp
      · simp [sitesD, hp] at hpr
  | pred, .wrapper i => by
      intro pr hpr
      by_cases hp : pred (.wrapper i) = true
      · rw [sitesD_pred_true hp] at hpr
        simp at hpr
        subst hpr; exact hp
      · simp [sitesD, hp] at hpr
  | pred, .record a b c d => by
      intro pr hpr
      by_cases hp : pred (.record a b c d) = true
      · rw [sitesD_pred_true hp] at hpr
        simp at hpr
        subst hpr; exact hp
      · simp [sitesD, hp] at hpr

theorem sitesArr_pred : ∀ (pred : Data → Bool) (l : List Data) (i : Nat),
    ∀ pr ∈ sitesArr pred l i, pred pr.2 = true
  | pred, [], i => by intro pr hpr; cases hpr
  | pred, x :: tl, i => by
      intro pr hpr
      rcases List.mem_append.mp hpr with h | h
      · obtain ⟨q, hq, hq2⟩ := List.mem_map.mp h
        have := sites_pred pred x q hq
        rw [← hq2]
        exact this
      · exact sitesArr_pred pred tl (i + 1) pr h

theorem sitesObj_pred : ∀ (pred : Data → Bool) (kvs : List (String × Data)),
    ∀ pr ∈ sitesObj pred kvs, pred pr.2 = true
  | pred, [] => by intro pr hpr; cases hpr
  | pred, (k, v) :: tl => by
      intro pr hpr
      rcases List.mem_append.mp hpr with h | h
      · obtain ⟨q, hq, hq2⟩ := List.mem_map.mp h
        have := sites_pred pred v q hq
        rw [← hq2]
        exact this
      · exact sitesObj_pred pred tl pr h
end

mutual
theorem sites_benign : ∀ (pred : Data → Bool) (d : Data), benignD d = true →
    ∀ pr ∈ sitesD pred d, pr.1.all benignSeg = true
  | pred, .arr l => by
      intro hb pr hpr
      by_cases hp : pred (.arr l) = true
      · rw [sitesD_pred_true hp] at hpr
        simp at hpr
        subst hpr; rfl
      · rw [sitesD_arr_false (by revert hp; cases pred (.arr l) <;> simp)] at hpr
        exact sitesArr_benign pred l (by exact hb) 0 pr hpr
  | pred, .obj kvs => by
      intro hb pr hpr
      by_cases hp : pred (.obj kvs) = true
      · rw [sitesD_pred_true hp] at hpr
        simp at hpr
        subst hpr; rfl
      · rw [sitesD_obj_false (by revert hp; cases pred (.obj kvs) <;> simp)] at hpr
        have hb2 := hb
        simp only [benignD, Bool.and_eq_true] at hb2
        exact sitesObj_benign pred kvs hb2.2 pr hpr
  | pred, .null => by
      intro hb pr hpr
      by_cases hp : pred .null = true
      · rw [sitesD_pred_true hp] at hpr
        simp at hpr
        subst hpr; rfl
      · simp [sitesD, hp] at hpr
  | pred, .undef => by
      intro hb pr hpr
      by_cases hp : pred .undef = true
      · rw [sitesD_pred_true hp] at hpr
        simp at hpr
        subst hpr; rfl
      · simp [sitesD, hp] at hpr
  | pred, .boolD b => by
      intro hb pr hpr
      by_cases hp : pred (.boolD b) = true
      · rw [sitesD_pred_true hp] at hpr
        simp at hpr
        subst hpr; rfl
      · simp [sitesD, hp] at hpr
  | pred, .num n => by
      intro hb pr hpr
      by_cases hp : pred (.num n) = true
      · rw [sitesD_pred_true hp] at hpr
        simp at hpr
        subst hpr; rfl
      · simp [sitesD, hp] at hpr
  | pred, .str sx => by
      intro hb pr hpr
      by_cases hp : pred (.str sx) = true
      · rw [sitesD_pred_true hp] at hpr
        simp at hpr
        subst hpr; rfl
      · simp [sitesD, hp] at hpr
  | pred, .wrapper i => by
      intro hb pr hpr
      by_cases hp : pred (.wrapper i) = true
      · rw [sitesD_pred_true hp] at hpr
        simp at hpr
        subst hpr; rfl
      · simp [sitesD, hp] at hpr
  | pred, .record a b c d => by
      intro hb pr hpr
      by_cases hp : pred (.record a b c d) = true
      · rw [sitesD_pred_true hp] at hpr
        simp at hpr
        subst hpr; rfl
      · simp [sitesD, hp] at hpr

theorem sitesArr_benign : ∀ (pred : Data → Bool) (l : List Data),
    benignArr l = true → ∀ (i : Nat),
    ∀ pr ∈ sitesArr pred l i, pr.1.all benignSeg = true
  | pred, [] => by intro _ i pr hpr; cases hpr
  | pred, x :: tl => by
      intro hb i pr hpr
      have hb2 := hb
      simp only [benignArr, Bool.and_eq_true] at hb2
      rcases List.mem_append.mp hpr with h | h
      · obtain ⟨q, hq, hq2⟩ := List.mem_map.mp h
        have hqb := sites_benign pred x hb2.1 q hq
        rw [← hq2]
        simp only [List.all_cons, Bool.and_eq_true]
        exact ⟨rfl, hqb⟩
      · exact sitesArr_benign pred tl hb2.2 (i + 1) pr h

theorem sitesObj_benign : ∀ (pred : Data → Bool) (kvs : List (String × Data)),
    benignFields kvs = true →
    ∀ pr ∈ sitesObj pred kvs, pr.1.all benignSeg = true
  | pred, [] => by intro _ pr hpr; cases hpr
  | pred, (k, v) :: tl => by
      intro hb pr hpr
      have hb2 := hb
      simp only [benignFields, Bool.and_eq_true] at hb2
      rcases List.mem_append.mp hpr with h | h
      · obtain ⟨q, hq, hq2⟩ := List.mem_map.mp h
        have hqb := sites_benign pred v hb2.1.2 q hq
        rw [← hq2]
        simp only [List.all_cons, Bool.and_eq_true]
        exact ⟨hb2.1.1, hqb⟩
      · exact sitesObj_benign pred tl hb2.2 pr h
end

theorem sitesArr_shape_ge {pred : Data → Bool} :
    ∀ {l : List Data} {i : Nat} {pr : List Seg × Data}, pr ∈ sitesArr pred l i →
      ∃ n p', pr.1 = Seg.idx n :: p' ∧ i ≤ n := by
  intro l
  induction l with
  | nil => intro i pr h; cases h
  | cons x tl ih =>
      intro i pr h
      rcases List.mem_append.mp h with h | h
      · rcases List.mem_map.mp h with ⟨q, _, hq⟩
        exact ⟨i, q.1, by rw [← hq], le_refl i⟩
      · obtain ⟨n, p', hp, hn⟩ := ih h
        exact ⟨n, p', hp, by omega⟩

theorem sitesObj_shape_mem {pred : Data → Bool} :
    ∀ {kvs : List (String × Data)} {pr : List Seg × Data},
      pr ∈ sitesObj pred kvs →
      ∃ k p', pr.1 = Seg.key k :: p' ∧ k ∈ mapKeys kvs := by
  intro kvs
  induction kvs with
  | nil => intro pr h; cases h
  | cons kv tl ih =>
      obtain ⟨k, v⟩ := kv
      intro pr h
      rcases List.mem_append.mp h with h | h
      · rcases List.mem_map.mp h with ⟨q, _, hq⟩
        exact ⟨k, q.1, by rw [← hq], by rw [mapKeys_cons]; exact List.mem_cons_self _ _⟩
      · obtain ⟨k2, p', hp, hk⟩ := ih h
        exact ⟨k2, p', hp, by rw [mapKeys_cons]; exact List.mem_cons_of_mem _ hk⟩

mutual
theorem sites_paths_nodup : ∀ (pred : Data → Bool) (d : Data), benignD d = true →
    ((sitesD pred d).map Prod.fst).Nodup
  | pred, .arr l => by
      intro hb
      by_cases hp : pred (.arr l) = true
      · rw [sitesD_pred_true hp]; simp
      · rw [sitesD_arr_false (by revert hp; cases pred (.arr l) <;> simp)]
        exact sitesArr_paths_nodup pred l (by exact hb) 0
  | pred, .obj kvs => by
      intro hb
      by_cases hp : pred (.obj kvs) = true
      · rw [sitesD_pred_true hp]; simp
      · rw [sitesD_obj_false (by revert hp; cases pred (.obj kvs) <;> simp)]
        have hb2 := hb
        simp only [benignD, Bool.and_eq_true] at hb2
        exact sitesObj_paths_nodup pred kvs hb2.2 hb2.1
  | pred, .null => by
      intro hb
      by_cases hp : pred .null = true
      · rw [sitesD_pred_true hp]; simp
      · simp [sitesD, hp]
  | pred, .undef => by
      intro hb
      by_cases hp : pred .undef = true
      · rw [sitesD_pred_true hp]; simp
      · simp [sitesD, hp]
  | pred, .boolD b => by
      intro hb
      by_cases hp : pred (.boolD b) = true
      · rw [sitesD_pred_true hp]; simp
      · simp [sitesD, hp]
  | pred, .num n => by
      intro hb
      by_cases hp : pred (.num n) = true
      · rw [sitesD_pred_true hp]; simp
      · simp [sitesD, hp]
  | pred, .str sx => by
      intro hb
      by_cases hp : pred (.str sx) = true
      · rw [sitesD_pred_true hp]; simp
      · simp [sitesD, hp]
  | pred, .wrapper i => by
      intro hb
      by_cases hp : pred (.wrapper i) = true
      · rw [sitesD_pred_true hp]; simp
      · simp [sitesD, hp]
  | pred, .record a b c d => by
      intro hb
      by_cases hp : pred (.record a b c d) = true
      · rw [sitesD_pred_true hp]; simp
      · simp [sitesD, hp]

theorem sitesArr_paths_nodup : ∀ (pred : Data → Bool) (l : List Data),
    benignArr l = true → ∀ (i : Nat),
    ((sitesArr pred l i).map Prod.fst).Nodup
  | pred, [] => by intro _ i; simp [sitesArr]
  | pred, x :: tl => by
      intro hb i
      have hb2 := hb
      simp only [benignArr, Bool.and_eq_true] at hb2
      rw [show sitesArr pred (x :: tl) i =
        ((sitesD pred x).map fun pr => (Seg.idx i :: pr.1, pr.2)) ++
          sitesArr pred tl (i + 1) from rfl, List.map_append]
      apply List.Nodup.append
      · rw [List.map_map]
        have : (Prod.fst ∘ fun pr : List Seg × Data => (Seg.idx i :: pr.1, pr.2)) =
            (fun p : List Seg => Seg.idx i :: p) ∘ Prod.fst := rfl
        rw [this, ← List.map_map]
        exact (sites_paths_nodup pred x hb2.1).map
          (fun a b h => by simpa using h)
      · exact sitesArr_paths_nodup pred tl hb2.2 (i + 1)
      · intro a ha hb3
        rw [List.map_map] at ha
        obtain ⟨q, _, hq⟩ := List.mem_map.mp ha
        obtain ⟨q2, hq2, hq2e⟩ := List.mem_map.mp hb3
        obtain ⟨n, p', hshape, hge⟩ := sitesArr_shape_ge hq2
        rw [← hq] at hq2e
        rw [hq2e] at hshape
        simp only [Function.comp] at hshape
        cases hshape
        omega

theorem sitesObj_paths_nodup : ∀ (pred : Data → Bool)
    (kvs : List (String × Data)), benignFields kvs = true →
    keysNodupB (mapKeys kvs) = true →
    ((sitesObj pred kvs).map Prod.fst).Nodup
  | pred, [] => by intro _ _; simp [sitesObj]
  | pred, (k, v) :: tl => by
      intro hbf hnd
      have hbf2 := hbf
      simp only [benignFields, Bool.and_eq_true] at hbf2
      have hnd2 := hnd
      simp only [mapKeys_cons, keysNodupB, Bool.and_eq_true,
        decide_eq_true_eq] at hnd2
      rw [show sitesObj pred ((k, v) :: tl) =
        ((sitesD pred v).map fun pr => (Seg.key k :: pr.1, pr.2)) ++
          sitesObj pred tl from rfl, List.map_append]
      apply List.Nodup.append
      · rw [List.map_map]
        have : (Prod.fst ∘ fun pr : List Seg × Data => (Seg.key k :: pr.1, pr.2)) =
            (fun p : List Seg => Seg.key k :: p) ∘ Prod.fst := rfl
        rw [this, ← List.map_map]
        exact (sites_paths_nodup pred v hbf2.1.2).map
          (fun a b h => by simpa using h)
      · exact sitesObj_paths_nodup pred tl hbf2.2 hnd2.2
      · intro a ha hb3
        rw [List.map_map] at ha
        obtain ⟨q, _, hq⟩ := List.mem_map.mp ha
        obtain ⟨q2, hq2, hq2e⟩ := List.mem_map.mp hb3
        obtain ⟨k2, p', hshape, hk2⟩ := sitesObj_shape_mem hq2
        rw [← hq] at hq2e
        rw [hq2e] at hshape
        simp only [Function.comp] at hshape
        cases hshape
        exact hnd2.1 hk2
end

theorem stringToPath_renderSegs (segs : List Seg)
    (hb : segs.all benignSeg = true) :
    stringToPath (renderSegs segs) = segs.map segToken := by
  cases segs with
  | nil => rfl
  | cons s tl =>
      have hbs : benignSeg s = true := by
        simp only [List.all_eq_true] at hb
        exact hb s (by simp)
      have hbtl : tl.all benignSeg = true := by
        simp only [List.all_eq_true] at hb ⊢
        exact fun x hx => hb x (by simp [hx])
      cases s with
      | key k =>
          have hd : (renderSegs (.key k :: tl)).data =
              k.data ++ (renderTailStr tl).data := by
            simp [renderSegs, headSegStr, String.data_append]
          unfold stringToPath
          rw [hd, stpGo_consume k.data (benignKey_chars hbs) _ [],
            stpGo_renderTail tl hbtl (k.data.reverse ++ [])]
          have hne : ((k.data.reverse ++ [] : List Char)).isEmpty = false := by
            simp only [List.append_nil]
            cases hk : k.data with
            | nil => exact absurd hk (benignKey_ne_nil hbs)
            | cons c cs => simp
          rw [hne]
          simp [segToken]
      | idx n =>
          have hd : (renderSegs (.idx n :: tl)).data =
              '[' :: (natChars n ++ (']' :: (renderTailStr tl).data)) := by
            simp [renderSegs, headSegStr, String.data_append, natStr]
          unfold stringToPath
          rw [hd]
          have step : stpGo ('[' :: (natChars n ++ (']' :: (renderTailStr tl).data))) [] false =
              stpGo (natChars n ++ (']' :: (renderTailStr tl).data)) [] true := by
            simp [stpGo]
          rw [step, stpGo_consume_br (natChars n)
            (fun c hc => (natChars_not_special n c hc).2.2) _ []]
          have hbr : stpGo (']' :: (renderTailStr tl).data) ((natChars n).reverse ++ []) true =
              String.mk (natChars n) :: stpGo (renderTailStr tl).data [] false := by
            simp [stpGo]
          rw [hbr, stpGo_renderTail tl hbtl []]
          simp [segToken, natStr]

theorem string_eq_empty_of_data {s : String} (h : s.data = []) : s = "" := by
  cases s with
  | mk d => simp_all

theorem string_ne_empty_of_data {s : String} (h : s.data ≠ []) : s ≠ "" := by
  intro he; rw [he] at h; exact h rfl

theorem append_ne_empty {a b : String} (h : a ≠ "") : a ++ b ≠ "" := by
  intro he
  have hd : (a ++ b).data = [] := by rw [he]
  rw [String.data_append] at hd
  have ha : a.data = [] := by
    cases h2 : a.data with
    | nil => rfl
    | cons c cs => rw [h2] at hd; simp at hd
  exact h (string_eq_empty_of_data ha)

theorem renderFrom_ne : ∀ (tl : List Seg) (path : String), path ≠ "" →
    renderFrom path tl = path ++ renderTailStr tl
  | [], path => by intro _; simp [renderFrom, renderTailStr]
  | .key k :: tl, path => by
      intro h
      rw [show renderFrom path (Seg.key k :: tl) =
        renderFrom (appendSegStr path (Seg.key k)) tl from rfl]
      rw [show appendSegStr path (Seg.key k) = path ++ "." ++ k from by
        simp [appendSegStr, h]]
      rw [renderFrom_ne tl _ (append_ne_empty (append_ne_empty h))]
      simp [renderTailStr, String.append_assoc]
  | .idx n :: tl, path => by
      intro h
      rw [show renderFrom path (Seg.idx n :: tl) =
        renderFrom (path ++ "[" ++ natStr n ++ "]") tl from rfl]
      rw [renderFrom_ne tl (path ++ "[" ++ natStr n ++ "]")
        (append_ne_empty (append_ne_empty (append_ne_empty h)))]
      simp [renderTailStr, String.append_assoc]

theorem renderFrom_root : ∀ {p : List Seg}, p.all benignSeg = true →
    renderFrom "" p = renderSegs p
  | [], _ => rfl
  | .key k :: tl, h => by
      simp only [List.all_cons, Bool.and_eq_true] at h
      rw [show renderFrom "" (Seg.key k :: tl) = renderFrom k tl from by
        simp [renderFrom, appendSegStr]]
      rw [renderFrom_ne tl k
        (string_ne_empty_of_data (benignKey_ne_nil (by exact h.1)))]
      simp [renderSegs, headSegStr]
  | .idx n :: tl, h => by
      rw [show renderFrom "" (Seg.idx n :: tl) =
        renderFrom ("[" ++ natStr n ++ "]") tl from by
          simp [renderFrom, appendSegStr]]
      rw [renderFrom_ne tl _ (append_ne_empty (append_ne_empty (by decide)))]
      simp [renderSegs, headSegStr, String.append_assoc]

theorem map_segToken_inj : ∀ {a b : List Seg}, a.all benignSeg = true →
    b.all benignSeg = true → a.map segToken = b.map segToken → a = b
  | [], [], _, _, _ => rfl
  | [], _ :: _, _, _, h => by simp at h
  | _ :: _, [], _, _, h => by simp at h
  | x :: xs, y :: ys, ha, hb, h => by
      simp only [List.all_cons, Bool.and_eq_true] at ha hb
      simp only [List.map_cons, List.cons.injEq] at h
      rw [segToken_inj ha.1 hb.1 h.1, map_segToken_inj ha.2 hb.2 h.2]

theorem renderSegs_inj {a b : List Seg} (ha : a.all benignSeg = true)
    (hb : b.all benignSeg = true) (h : renderSegs a = renderSegs b) : a = b := by
  have h2 := stringToPath_renderSegs a ha
  rw [h, stringToPath_renderSegs b hb] at h2
  exact (map_segToken_inj hb ha h2).symm

/-- The extraction walk expressed as a fold over pre-computed sites: each
site contributes one `path → id` and one `id → object` write. -/
def extFold (rev : Data → Data) (path : String) :
    List (List Seg × Data) → ExtractMaps → ExtractMaps
  | [], maps => maps
  | pr :: tl, maps =>
      extFold rev path tl
        ⟨mapSet maps.pathToIdMap (renderFrom path pr.1) (jsIdOf (rev pr.2)),
          mapSet maps.idToObjectMap (jsIdOf (rev pr.2)) (rev pr.2)⟩

theorem extFold_append (rev : Data → Data) (path : String) :
    ∀ (a b : List (List Seg × Data)) (maps : ExtractMaps),
    extFold rev path (a ++ b) maps = extFold rev path b (extFold rev path a maps)
  | [], b, maps => rfl
  | pr :: tl, b, maps => by
      simp only [List.cons_append, extFold]
      exact extFold_append rev path tl b _

theorem extFold_map_cons (rev : Data → Data) (s : Seg) :
    ∀ (sl : List (List Seg × Data)) (path : String) (maps : ExtractMaps),
    extFold rev path (sl.map fun pr => (s :: pr.1, pr.2)) maps =
      extFold rev (appendSegStr path s) sl maps
  | [], _, _ => rfl
  | pr :: tl, path, maps => by
      simp only [List.map_cons, extFold]
      exact extFold_map_cons rev s tl path _

mutual
theorem extract_sites : ∀ (pred : Data → Bool) (rev : Data → Data) (d : Data)
    (path : String) (maps : ExtractMaps),
    extractObjectsImplD pred rev d path maps = extFold rev path (sitesD pred d) maps
  | pred, rev, .arr l => by
      intro path maps
      by_cases hp : pred (.arr l) = true
      · rw [sitesD_pred_true hp]
        simp [extractObjectsImplD, hp, extFold, renderFrom]
      · have hpf : pred (.arr l) = false := by
          revert hp; cases pred (.arr l) <;> simp
        rw [sitesD_arr_false hpf]
        rw [show extractObjectsImplD pred rev (.arr l) path maps =
          extractObjectsImplArr pred rev l 0 path maps from by
            simp [extractObjectsImplD, hpf]]
        exact extractArr_sites pred rev l 0 path maps
  | pred, rev, .obj kvs => by
      intro path maps
      by_cases hp : pred (.obj kvs) = true
      · rw [sitesD_pred_true hp]
        simp [extractObjectsImplD, hp, extFold, renderFrom]
      · have hpf : pred (.obj kvs) = false := by
          revert hp; cases pred (.obj kvs) <;> simp
        rw [sitesD_obj_false hpf]
        rw [show extractObjectsImplD pred rev (.obj kvs) path maps =
          extractObjectsImplObj pred rev kvs path maps from by
            simp [extractObjectsImplD, hpf]]
        exact extractObj_sites pred rev kvs path maps
  | pred, rev, .null => by
      intro path maps
      by_cases hp : pred .null = true
      · rw [sitesD_pred_true hp]
        simp [extractObjectsImplD, hp, extFold, renderFrom]
      · simp [extractObjectsImplD, sitesD, hp, extFold]
  | pred, rev, .undef => by
      intro path maps
      by_cases hp : pred .undef = true
      · rw [sitesD_pred_true hp]
        simp [extractObjectsImplD, hp, extFold, renderFrom]
      · simp [extractObjectsImplD, sitesD, hp, extFold]
  | pred, rev, .boolD b => by
      intro path maps
      by_cases hp : pred (.boolD b) = true
      · rw [sitesD_pred_true hp]
        simp [extractObjectsImplD, hp, extFold, renderFrom]
      · simp [extractObjectsImplD, sitesD, hp, extFold]
  | pred, rev, .num n => by
      intro path maps
      by_cases hp : pred (.num n) = true
      · rw [sitesD_pred_true hp]
        simp [extractObjectsImplD, hp, extFold, renderFrom]
      · simp [extractObjectsImplD, sitesD, hp, extFold]
  | pred, rev, .str sx => by
      intro path maps
      by_cases hp : pred (.str sx) = true
      · rw [sitesD_pred_true hp]
        simp [extractObjectsImplD, hp, extFold, renderFrom]
      · simp [extractObjectsImplD, sitesD, hp, extFold]
  | pred, rev, .wrapper i => by
      intro path maps
      by_cases hp : pred (.wrapper i) = true
      · rw [sitesD_pred_true hp]
        simp [extractObjectsImplD, hp, extFold, renderFrom]
      · simp [extractObjectsImplD, sitesD, hp, extFold]
  | pred, rev, .record a b c d => by
      intro path maps
      by_cases hp : pred (.record a b c d) = true
      · rw [sitesD_pred_true hp]
        simp [extractObjectsImplD, hp, extFold, renderFrom]
      · simp [extractObjectsImplD, sitesD, hp, extFold]

theorem extractArr_sites : ∀ (pred : Data → Bool) (rev : Data → Data)
    (l : List Data) (i : Nat) (path : String) (maps : ExtractMaps),
    extractObjectsImplArr pred rev l i path maps =
      extFold rev path (sitesArr pred l i) maps
  | pred, rev, [] => by intro i path maps; rfl
  | pred, rev, x :: tl => by
      intro i path maps
      rw [show extractObjectsImplArr pred rev (x :: tl) i path maps =
        extractObjectsImplArr pred rev tl (i + 1) path
          (extractObjectsImplD pred rev x (path ++ "[" ++ natStr i ++ "]") maps)
        from rfl]
      rw [extract_sites pred rev x _ maps,
        extractArr_sites pred rev tl (i + 1) path _]
      rw [show sitesArr pred (x :: tl) i =
        ((sitesD pred x).map fun pr => (Seg.idx i :: pr.1, pr.2)) ++
          sitesArr pred tl (i + 1) from rfl]
      rw [extFold_append, extFold_map_cons]
      rfl

theorem extractObj_sites : ∀ (pred : Data → Bool) (rev : Data → Data)
    (kvs : List (String × Data)) (path : String) (maps : ExtractMaps),
    extractObjectsImplObj pred rev kvs path maps =
      extFold rev path (sitesObj pred kvs) maps
  | pred, rev, [] => by intro path maps; rfl
  | pred, rev, (k, v) :: tl => by
      intro path maps
      rw [show extractObjectsImplObj pred rev ((k, v) :: tl) path maps =
        extractObjectsImplObj pred rev tl path
          (extractObjectsImplD pred rev v
            (if path = "" then k else path ++ "." ++ k) maps) from rfl]
      rw [extract_sites pred rev v _ maps,
        extractObj_sites pred rev tl path _]
      rw [show sitesObj pred ((k, v) :: tl) =
        ((sitesD pred v).map fun pr => (Seg.key k :: pr.1, pr.2)) ++
          sitesObj pred tl from rfl]
      rw [extFold_append, extFold_map_cons]
      rfl
end

theorem extFold_p2i (rev : Data → Data) (path : String) :
    ∀ (sl : List (List Seg × Data)) (maps : ExtractMaps),
    (extFold rev path sl maps).pathToIdMap =
      sl.foldl
        (fun m pr => mapSet m (renderFrom path pr.1) (jsIdOf (rev pr.2)))
        maps.pathToIdMap
  | [], maps => rfl
  | pr :: tl, maps => by
      simp only [extFold, List.foldl_cons]
      exact extFold_p2i rev path tl _

theorem foldl_mapSet_fresh {α β : Type} [DecidableEq α] :
    ∀ (ps : List (α × β)) (m : List (α × β)),
    (∀ p ∈ ps, p.1 ∉ mapKeys m) → (ps.map Prod.fst).Nodup →
    ps.foldl (fun m p => mapSet m p.1 p.2) m = m ++ ps
  | [], m => by intro _ _; simp
  | p :: tl, m => by
      intro hf hnd
      have hnd2 := hnd
      simp only [List.map_cons, List.nodup_cons] at hnd2
      simp only [List.foldl_cons]
      rw [show mapSet m p.1 p.2 = m ++ [(p.1, p.2)] from
        mapSet_eq_append p.2 (hf p (List.mem_cons_self p tl))]
      have hf2 : ∀ q ∈ tl, q.1 ∉ mapKeys (m ++ [(p.1, p.2)]) := by
        intro q hq hc
        simp only [mapKeys, List.map_append, List.mem_append, List.map_cons,
          List.map_nil, List.mem_singleton] at hc
        rcases hc with hc | hc
        · exact hf q (List.mem_cons_of_mem _ hq) (by simpa [mapKeys] using hc)
        · exact hnd2.1 (List.mem_map.mpr ⟨q, hq, hc⟩)
      rw [foldl_mapSet_fresh tl (m ++ [(p.1, p.2)]) hf2 hnd2.2]
      simp

theorem sites_rendered_nodup (pred : Data → Bool) {d : Data}
    (hb : benignD d = true) :
    ((sitesD pred d).map fun pr => renderSegs pr.1).Nodup := by
  rw [show ((sitesD pred d).map fun pr => renderSegs pr.1) =
    ((sitesD pred d).map Prod.fst).map renderSegs from by rw [List.map_map]; rfl]
  apply List.Nodup.map_on ?_ (sites_paths_nodup pred d hb)
  intro x hx y hy hxy
  obtain ⟨prx, hprx, hprx2⟩ := List.mem_map.mp hx
  obtain ⟨pry, hpry, hpry2⟩ := List.mem_map.mp hy
  exact renderSegs_inj
    (by rw [← hprx2]; exact sites_benign pred d hb prx hprx)
    (by rw [← hpry2]; exact sites_benign pred d hb pry hpry) hxy

theorem extract_p2i_eq (pred : Data → Bool) (rev : Data → Data) {d : Data}
    (hb : benignD d = true) :
    (extractObjects pred rev d).pathToIdMap =
      (sitesD pred d).map fun pr => (renderSegs pr.1, jsIdOf (rev pr.2)) := by
  unfold extractObjects
  rw [extract_sites, extFold_p2i]
  have hext : (sitesD pred d).foldl
      (fun m pr => mapSet m (renderFrom "" pr.1) (jsIdOf (rev pr.2)))
      (⟨[], []⟩ : ExtractMaps).pathToIdMap =
      (sitesD pred d).foldl
        (fun m pr => mapSet m (renderSegs pr.1) (jsIdOf (rev pr.2))) [] :=
    List.foldl_ext _ _ _
      (fun m pr hpr => by rw [renderFrom_root (sites_benign pred d hb pr hpr)])
  rw [hext]
  rw [show (sitesD pred d).foldl
      (fun m pr => mapSet m (renderSegs pr.1) (jsIdOf (rev pr.2)))
      ([] : List (String × Data)) =
    ((sitesD pred d).map fun pr => (renderSegs pr.1, jsIdOf (rev pr.2))).foldl
      (fun m p => mapSet m p.1 p.2) [] from
    (List.foldl_map (fun pr : List Seg × Data => (renderSegs pr.1, jsIdOf (rev pr.2)))
      (fun m p => mapSet m p.1 p.2) (sitesD pred d) []).symm]
  rw [foldl_mapSet_fresh _ [] (by intro p hp hc; simp [mapKeys] at hc)
    (by rw [List.map_map]; exact sites_rendered_nodup pred hb)]
  simp

theorem mapGet_mem {α β : Type} [DecidableEq α] {k : α} {v : β} :
    ∀ {m : List (α × β)}, mapGet m k = some v → (k, v) ∈ m := by
  intro m
  induction m with
  | nil => intro h; simp [mapGet] at h
  | cons kv tl ih =>
      obtain ⟨k2, v2⟩ := kv
      intro h
      simp only [mapGet] at h
      by_cases he : k2 = k
      · subst he
        rw [if_pos rfl] at h
        obtain rfl := Option.some.inj h
        exact List.mem_cons_self _ _
      · rw [if_neg he] at h
        exact List.mem_cons_of_mem _ (ih h)

theorem mapSet_mem {α β : Type} [DecidableEq α] {k : α} {v : β} {e : α × β} :
    ∀ {m : List (α × β)}, e ∈ mapSet m k v → e ∈ m ∨ e = (k, v) := by
  intro m
  induction m with
  | nil => intro h; simp [mapSet] at h; exact Or.inr h
  | cons kv tl ih =>
      obtain ⟨k2, v2⟩ := kv
      intro h
      simp only [mapSet] at h
      by_cases he : k2 = k
      · rw [if_pos he] at h
        rcases List.mem_cons.mp h with h | h
        · exact Or.inr h
        · exact Or.inl (List.mem_cons_of_mem _ h)
      · rw [if_neg he] at h
        rcases List.mem_cons.mp h with h | h
        · subst h; exact Or.inl (List.mem_cons_self _ _)
        · rcases ih h with h2 | h2
          · exact Or.inl (List.mem_cons_of_mem _ h2)
          · exact Or.inr h2

theorem mapGet_isSome_mapSet {α β : Type} [DecidableEq α] {m : List (α × β)}
    {k : α} (k2 : α) (v : β) (h : (mapGet m k).isSome) :
    (mapGet (mapSet m k2 v) k).isSome := by
  by_cases he : k2 = k
  · subst he; rw [mapGet_mapSet_self]; rfl
  · rw [mapGet_mapSet_ne m v he]; exact h

theorem extFold_i2o_isSome (rev : Data → Data) (path : String) (k : Data) :
    ∀ (sl : List (List Seg × Data)) (maps : ExtractMaps),
    (mapGet maps.idToObjectMap k).isSome = true →
    (mapGet (extFold rev path sl maps).idToObjectMap k).isSome = true
  | [], maps => fun h => h
  | pr :: tl, maps => by
      intro h
      simp only [extFold]
      exact extFold_i2o_isSome rev path k tl _ (mapGet_isSome_mapSet _ _ h)

theorem extFold_i2o_mem_get (rev : Data → Data) (path : String) :
    ∀ (sl : List (List Seg × Data)) (maps : ExtractMaps)
      (pr : List Seg × Data), pr ∈ sl →
    (mapGet (extFold rev path sl maps).idToObjectMap
      (jsIdOf (rev pr.2))).isSome = true
  | [], maps, pr => by intro h; cases h
  | q :: tl, maps, pr => by
      intro h
      rcases List.mem_cons.mp h with h | h
      · subst h
        simp only [extFold]
        exact extFold_i2o_isSome rev path _ tl _
          (by rw [mapGet_mapSet_self]; rfl)
      · simp only [extFold]
        exact extFold_i2o_mem_get rev path tl _ pr h

theorem extFold_i2o_entry_shape (rev : Data → Data) (path : String) :
    ∀ (sl : List (List Seg × Data)) (maps : ExtractMaps) (e : Data × Data),
    e ∈ (extFold rev path sl maps).idToObjectMap →
    e ∈ maps.idToObjectMap ∨ ∃ pr ∈ sl, e = (jsIdOf (rev pr.2), rev pr.2)
  | [], maps, e => fun h => Or.inl h
  | q :: tl, maps, e => by
      intro h
      simp only [extFold] at h
      rcases extFold_i2o_entry_shape rev path tl _ e h with h2 | h2
      · rcases mapSet_mem h2 with h3 | h3
        · exact Or.inl h3
        · exact Or.inr ⟨q, List.mem_cons_self _ _, h3⟩
      · obtain ⟨pr, hpr, he⟩ := h2
        exact Or.inr ⟨pr, List.mem_cons_of_mem _ hpr, he⟩

theorem isFileWrapperB_eq_true {v : Data} (h : isFileWrapperB v = true) :
    ∃ i, v = .wrapper i := by
  cases v <;> simp [isFileWrapperB] at h ⊢

theorem assignObjects_extract (pred : Data → Bool) (rev : Data → Data)
    (i2o : List (Data × Data)) (kvs : List (String × Data))
    (hp : pred (.obj kvs) = false)
    (hb : benignD (.obj kvs) = true)
    (hrep : ∀ pr ∈ sitesD pred (.obj kvs),
      atomicRep ((mapGet i2o (jsIdOf (rev pr.2))).getD .undef) = true) :
    assignObjects (.obj kvs)
        (extractObjects pred rev (.obj kvs)).pathToIdMap i2o =
      mapSitesD pred
        (fun v => (mapGet i2o (jsIdOf (rev v))).getD .undef) (.obj kvs) := by
  rw [extract_p2i_eq pred rev hb]
  by_cases hs : sitesD pred (.obj kvs) = []
  · rw [hs, mapSitesD_id _ _ _ hs]
    rfl
  · have hnemp : ¬ ((((sitesD pred (.obj kvs)).map fun pr =>
        (renderSegs pr.1, jsIdOf (rev pr.2))).isEmpty) = true) := by
      rcases hsl2 : sitesD pred (.obj kvs) with _ | ⟨a, b⟩
      · exact absurd hsl2 hs
      · simp
    have hfold : (((sitesD pred (.obj kvs)).map fun pr =>
        (renderSegs pr.1, jsIdOf (rev pr.2))).foldl
        (fun res pr => lset res (stringToPath pr.1)
          ((mapGet i2o pr.2).getD .undef)) (.obj [])) =
        ovFold (fun v => (mapGet i2o (jsIdOf (rev v))).getD .undef)
          (sitesD pred (.obj kvs)) (.obj []) := by
      rw [List.foldl_map]
      apply List.foldl_ext
      intro res pr hpr
      rw [stringToPath_renderSegs pr.1
        (sites_benign pred _ hb pr hpr)]
    have hpov : ∃ ov, povD pred
        (fun v => (mapGet i2o (jsIdOf (rev v))).getD .undef) (.obj kvs) =
          some ov := by
      rcases hpv : povD pred
          (fun v => (mapGet i2o (jsIdOf (rev v))).getD .undef) (.obj kvs)
        with _ | ov
      · exact absurd ((povD_none_iff pred _ _).mp hpv) hs
      · exact ⟨ov, rfl⟩
    obtain ⟨ov, hov⟩ := hpov
    have hA : ovFold (fun v => (mapGet i2o (jsIdOf (rev v))).getD .undef)
        (sitesD pred (.obj kvs)) (.obj []) = ov :=
      ovFold_povD pred _ (.obj kvs) hb hp ov hov
    have hB := mergeD_povD pred
      (fun v => (mapGet i2o (jsIdOf (rev v))).getD .undef) (.obj kvs) hb
      (fun pr hpr => hrep pr hpr) ov hov
    unfold assignObjects
    rw [if_neg hnemp, hfold, hA]
    exact hB

theorem bool_eq_of_iff {a b : Bool} (h : a = true ↔ b = true) : a = b := by
  cases a <;> cases b <;> simp_all

theorem mapKeys_mapSitesObj (pred : Data → Bool) (rep : Data → Data) :
    ∀ kvs, mapKeys (mapSitesObj pred rep kvs) = mapKeys kvs
  | [] => rfl
  | (k, v) :: tl => by
      simp only [mapSitesObj, mapKeys, List.map_cons]
      rw [show (mapSitesObj pred rep tl).map Prod.fst =
        mapKeys (mapSitesObj pred rep tl) from rfl,
        mapKeys_mapSitesObj pred rep tl]
      rfl

theorem mapGet_mapSitesObj (pred : Data → Bool) (rep : Data → Data) (k : String) :
    ∀ kvs, mapGet (mapSitesObj pred rep kvs) k =
      (mapGet kvs k).map (mapSitesD pred rep)
  | [] => rfl
  | (k2, v) :: tl => by
      simp only [mapSitesObj, mapGet]
      by_cases he : k2 = k
      · rw [if_pos he, if_pos he]; rfl
      · rw [if_neg he, if_neg he]; exact mapGet_mapSitesObj pred rep k tl

theorem mapSitesD_ne_undef (pred : Data → Bool) (rep : Data → Data) {v : Data}
    (hv : pred v = true → rep v ≠ .undef) (hne : v ≠ .undef) :
    mapSitesD pred rep v ≠ .undef := by
  by_cases hp : pred v = true
  · rw [mapSitesD_pred_true rep hp]; exact hv hp
  · have hpf : pred v = false := by revert hp; cases pred v <;> simp
    cases v with
    | undef => exact absurd rfl hne
    | arr l => rw [mapSitesD_arr_false rep hpf]; simp
    | obj kvs => rw [mapSitesD_obj_false rep hpf]; simp
    | null => simp [mapSitesD, hpf]
    | boolD b => simp [mapSitesD, hpf]
    | num n => simp [mapSitesD, hpf]
    | str sx => simp [mapSitesD, hpf]
    | wrapper i => simp [mapSitesD, hpf]
    | record a b c d => simp [mapSitesD, hpf]

theorem isDefinedProp_eq_true_iff (kvs : List (String × Data)) (k : String) :
    isDefinedProp kvs k = true ↔
      ∃ v, mapGet kvs k = some v ∧ v ≠ .undef := by
  unfold isDefinedProp
  rcases h : mapGet kvs k with _ | v
  · simp
  · cases v <;> simp

theorem isDefinedProp_mapSitesObj (pred : Data → Bool) (rep : Data → Data)
    (hpu : pred .undef = false) (kvs : List (String × Data))
    (hrep : ∀ pr ∈ sitesObj pred kvs, rep pr.2 ≠ .undef) (k : String) :
    isDefinedProp (mapSitesObj pred rep kvs) k = isDefinedProp kvs k := by
  apply bool_eq_of_iff
  rw [isDefinedProp_eq_true_iff, isDefinedProp_eq_true_iff, mapGet_mapSitesObj]
  rcases hg : mapGet kvs k with _ | v
  · simp
  · simp only [Option.map_some']
    have hsite : pred v = true → rep v ≠ .undef := by
      intro hpv
      have hmem : (k, v) ∈ kvs := mapGet_mem hg
      obtain ⟨q, hq, hq2⟩ := sitesObj_mem_val kvs k v hmem ([], v)
        (by rw [sitesD_pred_true hpv]; simp)
      have := hrep q hq
      rw [hq2] at this
      exact this
    constructor
    · rintro ⟨w, hw, hwne⟩
      obtain rfl := Option.some.inj hw
      refine ⟨v, rfl, ?_⟩
      intro hv
      subst hv
      exact hwne (by simp [mapSitesD, hpu])
    · rintro ⟨w, hw, hwne⟩
      obtain rfl := Option.some.inj hw
      exact ⟨_, rfl, mapSitesD_ne_undef pred rep hsite hwne⟩

theorem isFileRecordB_ne_undef {v : Data} (h : isFileRecordB v = true) :
    v ≠ .undef := by
  intro he; subst he; simp [isFileRecordB] at h

theorem isFileRecordB_mapSitesObj (pred : Data → Bool) (rep : Data → Data)
    (hpu : pred .undef = false) (kvs : List (String × Data))
    (hrep : ∀ pr ∈ sitesObj pred kvs, rep pr.2 ≠ .undef) :
    isFileRecordB (.obj (mapSitesObj pred rep kvs)) =
      isFileRecordB (.obj kvs) := by
  simp only [isFileRecordB]
  rw [isDefinedProp_mapSitesObj pred rep hpu kvs hrep,
    isDefinedProp_mapSitesObj pred rep hpu kvs hrep,
    isDefinedProp_mapSitesObj pred rep hpu kvs hrep,
    isDefinedProp_mapSitesObj pred rep hpu kvs hrep]

mutual
theorem benign_mapSitesD : ∀ (pred : Data → Bool) (rep : Data → Data) (d : Data),
    benignD d = true → (∀ pr ∈ sitesD pred d, benignD (rep pr.2) = true) →
    benignD (mapSitesD pred rep d) = true
  | pred, rep, .arr l => by
      intro hb hrep
      by_cases hp : pred (.arr l) = true
      · rw [mapSitesD_pred_true rep hp]
        exact hrep ([], .arr l) (by rw [sitesD_pred_true hp]; simp)
      · have hpf : pred (.arr l) = false := by
          revert hp; cases pred (.arr l) <;> simp
        rw [mapSitesD_arr_false rep hpf]
        show benignArr (mapSitesArr pred rep l) = true
        apply benign_mapSitesArr pred rep l (by exact hb)
        intro x hx pr hpr
        obtain ⟨q, hq, hq2⟩ := sitesArr_mem_val l 0 x hx pr hpr
        have := hrep q (by rw [sitesD_arr_false hpf]; exact hq)
        rw [hq2] at this
        exact this
  | pred, rep, .obj kvs => by
      intro hb hrep
      by_cases hp : pred (.obj kvs) = true
      · rw [mapSitesD_pred_true rep hp]
        exact hrep ([], .obj kvs) (by rw [sitesD_pred_true hp]; simp)
      · have hpf : pred (.obj kvs) = false := by
          revert hp; cases pred (.obj kvs) <;> simp
        rw [mapSitesD_obj_false rep hpf]
        have hb2 := hb
        simp only [benignD, Bool.and_eq_true] at hb2
        show (keysNodupB (mapKeys (mapSitesObj pred rep kvs)) &&
          benignFields (mapSitesObj pred rep kvs)) = true
        rw [mapKeys_mapSitesObj]
        rw [Bool.and_eq_true]
        refine ⟨hb2.1, ?_⟩
        apply benign_mapSitesObj pred rep kvs hb2.2
        intro kv hkv pr hpr
        obtain ⟨q, hq, hq2⟩ := sitesObj_mem_val kvs kv.1 kv.2 hkv pr hpr
        have := hrep q (by rw [sitesD_obj_false hpf]; exact hq)
        rw [hq2] at this
        exact this
  | pred, rep, .null => by
      intro hb hrep
      by_cases hp : pred .null = true
      · rw [mapSitesD_pred_true rep hp]
        exact hrep ([], .null) (by rw [sitesD_pred_true hp]; simp)
      · simp [mapSitesD, hp, benignD]
  | pred, rep, .undef => by
      intro hb hrep
      by_cases hp : pred .undef = true
      · rw [mapSitesD_pred_true rep hp]
        exact hrep ([], .undef) (by rw [sitesD_pred_true hp]; simp)
      · simp [mapSitesD, hp, benignD]
  | pred, rep, .boolD b => by
      intro hb hrep
      by_cases hp : pred (.boolD b) = true
      · rw [mapSitesD_pred_true rep hp]
        exact hrep ([], .boolD b) (by rw [sitesD_pred_true hp]; simp)
      · simp [mapSitesD, hp, benignD]
  | pred, rep, .num n => by
      intro hb hrep
      by_cases hp : pred (.num n) = true
      · rw [mapSitesD_pred_true rep hp]
        exact hrep ([], .num n) (by rw [sitesD_pred_true hp]; simp)
      · simp [mapSitesD, hp, benignD]
  | pred, rep, .str sx => by
      intro hb hrep
      by_cases hp : pred (.str sx) = true
      · rw [mapSitesD_pred_true rep hp]
        exact hrep ([], .str sx) (by rw [sitesD_pred_true hp]; simp)
      · simp [mapSitesD, hp, benignD]
  | pred, rep, .wrapper i => by
      intro hb hrep
      by_cases hp : pred (.wrapper i) = true
      · rw [mapSitesD_pred_true rep hp]
        exact hrep ([], .wrapper i) (by rw [sitesD_pred_true hp]; simp)
      · simp [mapSitesD, hp, benignD]
  | pred, rep, .record a b c d => by
      intro hb hrep
      by_cases hp : pred (.record a b c d) = true
      · rw [mapSitesD_pred_true rep hp]
        exact hrep ([], .record a b c d) (by rw [sitesD_pred_true hp]; simp)
      · simp [mapSitesD, hp, benignD]

theorem benign_mapSitesArr : ∀ (pred : Data → Bool) (rep : Data → Data)
    (l : List Data), benignArr l = true →
    (∀ x ∈ l, ∀ pr ∈ sitesD pred x, benignD (rep pr.2) = true) →
    benignArr (mapSitesArr pred rep l) = true
  | pred, rep, [] => by intro _ _; rfl
  | pred, rep, x :: tl => by
      intro hb hrep
      have hb2 := hb
      simp only [benignArr, Bool.and_eq_true] at hb2
      show (benignD (mapSitesD pred rep x) &&
        benignArr (mapSitesArr pred rep tl)) = true
      rw [Bool.and_eq_true]
      refine ⟨?_, ?_⟩
      · exact benign_mapSitesD pred rep x hb2.1
          (fun pr hpr => hrep x (List.mem_cons_self _ _) pr hpr)
      · exact benign_mapSitesArr pred rep tl hb2.2
          (fun y hy pr hpr => hrep y (List.mem_cons_of_mem _ hy) pr hpr)

theorem benign_mapSitesObj : ∀ (pred : Data → Bool) (rep : Data → Data)
    (kvs : List (String × Data)), benignFields kvs = true →
    (∀ kv ∈ kvs, ∀ pr ∈ sitesD pred kv.2, benignD (rep pr.2) = true) →
    benignFields (mapSitesObj pred rep kvs) = true
  | pred, rep, [] => by intro _ _; rfl
  | pred, rep, (k, v) :: tl => by
      intro hb hrep
      have hb2 := hb
      simp only [benignFields, Bool.and_eq_true] at hb2
      show (benignKey k && benignD (mapSitesD pred rep v) &&
        benignFields (mapSitesObj pred rep tl)) = true
      rw [Bool.and_eq_true, Bool.and_eq_true]
      refine ⟨⟨hb2.1.1, ?_⟩, ?_⟩
      · exact benign_mapSitesD pred rep v hb2.1.2
          (fun pr hpr => hrep (k, v) (List.mem_cons_self _ _) pr hpr)
      · exact benign_mapSitesObj pred rep tl hb2.2
          (fun kv hkv pr hpr => hrep kv (List.mem_cons_of_mem _ hkv) pr hpr)
end

mutual
theorem roundSitesD : ∀ (rep1 : Data → Data) (d : Data), noRecB d = true →
    (∀ pr ∈ sitesD isFileWrapperB d, isFileRecordB (rep1 pr.2) = true) →
    sitesD isFileRecordB (mapSitesD isFileWrapperB rep1 d) =
      (sitesD isFileWrapperB d).map fun pr => (pr.1, rep1 pr.2)
  | rep1, .arr l => by
      intro hnr hrep
      rw [mapSitesD_arr_false rep1 rfl,
        sitesD_arr_false (show isFileWrapperB (.arr l) = false from rfl),
        sitesD_arr_false (show isFileRecordB
          (.arr (mapSitesArr isFileWrapperB rep1 l)) = false from rfl)]
      apply roundSitesArr rep1 l (by exact hnr) ?_ 0
      intro x hx pr hpr
      obtain ⟨q, hq, hq2⟩ := sitesArr_mem_val l 0 x hx pr hpr
      have := hrep q (by rw [sitesD_arr_false rfl]; exact hq)
      rw [hq2] at this
      exact this
  | rep1, .obj kvs => by
      intro hnr hrep
      have hnr2 := hnr
      simp only [noRecB, Bool.and_eq_true] at hnr2
      have hrecf : isFileRecordB (.obj kvs) = false := by
        have h1 := hnr2.1
        revert h1; cases isFileRecordB (.obj kvs) <;> simp
      have hrepne : ∀ pr ∈ sitesObj isFileWrapperB kvs, rep1 pr.2 ≠ .undef := by
        intro pr hpr
        exact isFileRecordB_ne_undef
          (hrep pr (by rw [sitesD_obj_false rfl]; exact hpr))
      have hrecf2 : isFileRecordB
          (.obj (mapSitesObj isFileWrapperB rep1 kvs)) = false := by
        rw [isFileRecordB_mapSitesObj isFileWrapperB rep1 rfl kvs hrepne]
        exact hrecf
      rw [mapSitesD_obj_false rep1 rfl,
        sitesD_obj_false (show isFileWrapperB (.obj kvs) = false from rfl),
        sitesD_obj_false hrecf2]
      apply roundSitesObj rep1 kvs hnr2.2
      intro kv hkv pr hpr
      obtain ⟨q, hq, hq2⟩ := sitesObj_mem_val kvs kv.1 kv.2 hkv pr hpr
      have := hrep q (by rw [sitesD_obj_false rfl]; exact hq)
      rw [hq2] at this
      exact this
  | rep1, .wrapper i => by
      intro hnr hrep
      have h := hrep ([], .wrapper i) (by rw [sitesD_pred_true rfl]; simp)
      rw [mapSitesD_pred_true rep1 rfl, sitesD_pred_true h,
        sitesD_pred_true (show isFileWrapperB (.wrapper i) = true from rfl)]
      rfl
  | rep1, .record a b c d => by
      intro hnr hrep
      simp [noRecB] at hnr
  | rep1, .null => by intro _ _; rfl
  | rep1, .undef => by intro _ _; rfl
  | rep1, .boolD b => by intro _ _; rfl
  | rep1, .num n => by intro _ _; rfl
  | rep1, .str sx => by intro _ _; rfl

theorem roundSitesArr : ∀ (rep1 : Data → Data) (l : List Data),
    noRecArr l = true →
    (∀ x ∈ l, ∀ pr ∈ sitesD isFileWrapperB x,
      isFileRecordB (rep1 pr.2) = true) →
    ∀ i, sitesArr isFileRecordB (mapSitesArr isFileWrapperB rep1 l) i =
      (sitesArr isFileWrapperB l i).map fun pr => (pr.1, rep1 pr.2)
  | rep1, [] => by intro _ _ i; rfl
  | rep1, x :: tl => by
      intro hnr hrep i
      have hnr2 := hnr
      simp only [noRecArr, Bool.and_eq_true] at hnr2
      show (sitesD isFileRecordB (mapSitesD isFileWrapperB rep1 x)).map
          (fun pr => (Seg.idx i :: pr.1, pr.2)) ++
          sitesArr isFileRecordB (mapSitesArr isFileWrapperB rep1 tl) (i + 1) = _
      rw [roundSitesD rep1 x hnr2.1
          (fun pr hpr => hrep x (List.mem_cons_self _ _) pr hpr),
        roundSitesArr rep1 tl hnr2.2
          (fun y hy pr hpr => hrep y (List.mem_cons_of_mem _ hy) pr hpr) (i + 1)]
      rw [show sitesArr isFileWrapperB (x :: tl) i =
        ((sitesD isFileWrapperB x).map fun pr => (Seg.idx i :: pr.1, pr.2)) ++
          sitesArr isFileWrapperB tl (i + 1) from rfl]
      rw [List.map_append, List.map_map, List.map_map]
      rfl

theorem roundSitesObj : ∀ (rep1 : Data → Data) (kvs : List (String × Data)),
    noRecFields kvs = true →
    (∀ kv ∈ kvs, ∀ pr ∈ sitesD isFileWrapperB kv.2,
      isFileRecordB (rep1 pr.2) = true) →
    sitesObj isFileRecordB (mapSitesObj isFileWrapperB rep1 kvs) =
      (sitesObj isFileWrapperB kvs).map fun pr => (pr.1, rep1 pr.2)
  | rep1, [] => by intro _ _; rfl
  | rep1, (k, v) :: tl => by
      intro hnr hrep
      have hnr2 := hnr
      simp only [noRecFields, Bool.and_eq_true] at hnr2
      show (sitesD isFileRecordB (mapSitesD isFileWrapperB rep1 v)).map
          (fun pr => (Seg.key k :: pr.1, pr.2)) ++
          sitesObj isFileRecordB (mapSitesObj isFileWrapperB rep1 tl) = _
      rw [roundSitesD rep1 v hnr2.1
          (fun pr hpr => hrep (k, v) (List.mem_cons_self _ _) pr hpr),
        roundSitesObj rep1 tl hnr2.2
          (fun kv hkv pr hpr => hrep kv (List.mem_cons_of_mem _ hkv) pr hpr)]
      rw [show sitesObj isFileWrapperB ((k, v) :: tl) =
        ((sitesD isFileWrapperB v).map fun pr => (Seg.key k :: pr.1, pr.2)) ++
          sitesObj isFileWrapperB tl from rfl]
      rw [List.map_append, List.map_map, List.map_map]
      rfl
end

mutual
theorem roundInvD : ∀ (rep1 rep2 : Data → Data) (d : Data), noRecB d = true →
    (∀ pr ∈ sitesD isFileWrapperB d, isFileRecordB (rep1 pr.2) = true) →
    (∀ pr ∈ sitesD isFileWrapperB d, rep2 (rep1 pr.2) = pr.2) →
    mapSitesD isFileRecordB rep2 (mapSitesD isFileWrapperB rep1 d) = d
  | rep1, rep2, .arr l => by
      intro hnr hrep hinv
      rw [mapSitesD_arr_false rep1 rfl,
        mapSitesD_arr_false rep2 (show isFileRecordB
          (.arr (mapSitesArr isFileWrapperB rep1 l)) = false from rfl)]
      rw [roundInvArr rep1 rep2 l (by exact hnr) ?hr ?hi]
      case hr =>
        intro x hx pr hpr
        obtain ⟨q, hq, hq2⟩ := sitesArr_mem_val l 0 x hx pr hpr
        have := hrep q (by rw [sitesD_arr_false rfl]; exact hq)
        rw [hq2] at this
        exact this
      case hi =>
        intro x hx pr hpr
        obtain ⟨q, hq, hq2⟩ := sitesArr_mem_val l 0 x hx pr hpr
        have h1 := hrep q (by rw [sitesD_arr_false rfl]; exact hq)
        have h2 := hinv q (by rw [sitesD_arr_false rfl]; exact hq)
        rw [hq2] at h2
        exact h2
  | rep1, rep2, .obj kvs => by
      intro hnr hrep hinv
      have hnr2 := hnr
      simp only [noRecB, Bool.and_eq_true] at hnr2
      have hrepne : ∀ pr ∈ sitesObj isFileWrapperB kvs, rep1 pr.2 ≠ .undef := by
        intro pr hpr
        exact isFileRecordB_ne_undef
          (hrep pr (by rw [sitesD_obj_false rfl]; exact hpr))
      have hrecf : isFileRecordB (.obj kvs) = false := by
        have h1 := hnr2.1
        revert h1; cases isFileRecordB (.obj kvs) <;> simp
      have hrecf2 : isFileRecordB
          (.obj (mapSitesObj isFileWrapperB rep1 kvs)) = false := by
        rw [isFileRecordB_mapSitesObj isFileWrapperB rep1 rfl kvs hrepne]
        exact hrecf
      rw [mapSitesD_obj_false rep1 rfl, mapSitesD_obj_false rep2 hrecf2]
      rw [roundInvObj rep1 rep2 kvs hnr2.2 ?hr ?hi]
      case hr =>
        intro kv hkv pr hpr
        obtain ⟨q, hq, hq2⟩ := sitesObj_mem_val kvs kv.1 kv.2 hkv pr hpr
        have := hrep q (by rw [sitesD_obj_false rfl]; exact hq)
        rw [hq2] at this
        exact this
      case hi =>
        intro kv hkv pr hpr
        obtain ⟨q, hq, hq2⟩ := sitesObj_mem_val kvs kv.1 kv.2 hkv pr hpr
        have h2 := hinv q (by rw [sitesD_obj_false rfl]; exact hq)
        rw [hq2] at h2
        exact h2
  | rep1, rep2, .wrapper i => by
      intro hnr hrep hinv
      have h := hrep ([], .wrapper i) (by rw [sitesD_pred_true rfl]; simp)
      have h2 := hinv ([], .wrapper i) (by rw [sitesD_pred_true rfl]; simp)
      rw [mapSitesD_pred_true rep1 rfl, mapSitesD_pred_true rep2 h]
      exact h2
  | rep1, rep2, .record a b c d => by
      intro hnr hrep hinv
      simp [noRecB] at hnr
  | rep1, rep2, .null => by intro _ _ _; rfl
  | rep1, rep2, .undef => by intro _ _ _; rfl
  | rep1, rep2, .boolD b => by intro _ _ _; rfl
  | rep1, rep2, .num n => by intro _ _ _; rfl
  | rep1, rep2, .str sx => by intro _ _ _; rfl

theorem roundInvArr : ∀ (rep1 rep2 : Data → Data) (l : List Data),
    noRecArr l = true →
    (∀ x ∈ l, ∀ pr ∈ sitesD isFileWrapperB x,
      isFileRecordB (rep1 pr.2) = true) →
    (∀ x ∈ l, ∀ pr ∈ sitesD isFileWrapperB x, rep2 (rep1 pr.2) = pr.2) →
    mapSitesArr isFileRecordB rep2 (mapSitesArr isFileWrapperB rep1 l) = l
  | rep1, rep2, [] => by intro _ _ _; rfl
  | rep1, rep2, x :: tl => by
      intro hnr hrep hinv
      have hnr2 := hnr
      simp only [noRecArr, Bool.and_eq_true] at hnr2
      show mapSitesD isFileRecordB rep2 (mapSitesD isFileWrapperB rep1 x) ::
        mapSitesArr isFileRecordB rep2 (mapSitesArr isFileWrapperB rep1 tl) = _
      rw [roundInvD rep1 rep2 x hnr2.1
          (fun pr hpr => hrep x (List.mem_cons_self _ _) pr hpr)
          (fun pr hpr => hinv x (List.mem_cons_self _ _) pr hpr),
        roundInvArr rep1 rep2 tl hnr2.2
          (fun y hy pr hpr => hrep y (List.mem_cons_of_mem _ hy) pr hpr)
          (fun y hy pr hpr => hinv y (List.mem_cons_of_mem _ hy) pr hpr)]

theorem roundInvObj : ∀ (rep1 rep2 : Data → Data)
    (kvs : List (String × Data)), noRecFields kvs = true →
    (∀ kv ∈ kvs, ∀ pr ∈ sitesD isFileWrapperB kv.2,
      isFileRecordB (rep1 pr.2) = true) →
    (∀ kv ∈ kvs, ∀ pr ∈ sitesD isFileWrapperB kv.2,
      rep2 (rep1 pr.2) = pr.2) →
    mapSitesObj isFileRecordB rep2 (mapSitesObj isFileWrapperB rep1 kvs) = kvs
  | rep1, rep2, [] => by intro _ _ _; rfl
  | rep1, rep2, (k, v) :: tl => by
      intro hnr hrep hinv
      have hnr2 := hnr
      simp only [noRecFields, Bool.and_eq_true] at hnr2
      show (k, mapSitesD isFileRecordB rep2 (mapSitesD isFileWrapperB rep1 v)) ::
        mapSitesObj isFileRecordB rep2 (mapSitesObj isFileWrapperB rep1 tl) = _
      rw [roundInvD rep1 rep2 v hnr2.1
          (fun pr hpr => hrep (k, v) (List.mem_cons_self _ _) pr hpr)
          (fun pr hpr => hinv (k, v) (List.mem_cons_self _ _) pr hpr),
        roundInvObj rep1 rep2 tl hnr2.2
          (fun kv hkv pr hpr => hrep kv (List.mem_cons_of_mem _ hkv) pr hpr)
          (fun kv hkv pr hpr => hinv kv (List.mem_cons_of_mem _ hkv) pr hpr)]
end

theorem extractFileWrappers_i2o_get {d : Data} {pr : List Seg × Data}
    (hpr : pr ∈ sitesD isFileWrapperB d) (i : String)
    (hi : pr.2 = .wrapper i) :
    mapGet (extractFileWrappers d).idToObjectMap (.str i) =
      some (.wrapper i) := by
  have hsome : (mapGet (extractFileWrappers d).idToObjectMap
      (jsIdOf (id pr.2))).isSome = true := by
    unfold extractFileWrappers extractObjects
    rw [extract_sites]
    exact extFold_i2o_mem_get id "" _ _ pr hpr
  rw [hi, show jsIdOf (id (Data.wrapper i)) = Data.str i from rfl] at hsome
  obtain ⟨w, hw⟩ := Option.isSome_iff_exists.mp hsome
  have hmem : ((.str i : Data), w) ∈ (extractFileWrappers d).idToObjectMap :=
    mapGet_mem hw
  have h2 : ((.str i : Data), w) ∈
      (extFold id "" (sitesD isFileWrapperB d) ⟨[], []⟩).idToObjectMap := by
    have h3 := hmem
    unfold extractFileWrappers extractObjects at h3
    rw [extract_sites] at h3
    exact h3
  have hshape : ∃ q ∈ sitesD isFileWrapperB d,
      ((.str i : Data), w) = (jsIdOf (id q.2), id q.2) := by
    rcases extFold_i2o_entry_shape id "" _ _ _ h2 with h3 | h3
    · cases h3
    · exact h3
  obtain ⟨q, hq, hqe⟩ := hshape
  obtain ⟨j, hj⟩ := isFileWrapperB_eq_true (sites_pred _ d q hq)
  rw [hj, show jsIdOf (id (Data.wrapper j)) = Data.str j from rfl] at hqe
  have hij : i = j := by
    have h4 := congrArg Prod.fst hqe
    simpa using h4
  have hw2 : w = .wrapper j := by
    have h4 := congrArg Prod.snd hqe
    simpa using h4
  rw [hw, hw2, hij]

/-- The replacement applied by the first `assignObjects` in the roundtrip:
resolve a wrapper through the substituted id-to-record map. -/
def recRep (i2oRec : List (Data × Data)) : Data → Data :=
  fun v => (mapGet i2oRec (jsIdOf (id v))).getD (.undef)

/-- The replacement applied by the second `assignObjects` in the roundtrip:
revive a record and resolve its digest through the original
id-to-wrapper map. -/
def wrapRep (i2oWrap : List (Data × Data)) : Data → Data :=
  fun v => (mapGet i2oWrap (jsIdOf (fromObjectD v))).getD .undef

theorem roundtrip_steps (kvs : List (String × Data))
    (i2oRec i2oWrap : List (Data × Data))
    (hb : benignD (.obj kvs) = true) (hnr : noRecB (.obj kvs) = true)
    (hrecLookup : ∀ i,
      (∃ pr ∈ sitesD isFileWrapperB (.obj kvs), pr.2 = .wrapper i) →
      mapGet i2oRec (.str i) = some (mkTestRecord (.str i)))
    (hwrapLookup : ∀ i,
      (∃ pr ∈ sitesD isFileWrapperB (.obj kvs), pr.2 = .wrapper i) →
      mapGet i2oWrap (.str i) = some (.wrapper i)) :
    assignObjects
      (assignObjects (.obj kvs)
        (extractObjects isFileWrapperB id (.obj kvs)).pathToIdMap i2oRec)
      (extractObjects isFileRecordB fromObjectD
        (assignObjects (.obj kvs)
          (extractObjects isFileWrapperB id (.obj kvs)).pathToIdMap
          i2oRec)).pathToIdMap
      i2oWrap = .obj kvs := by
  have hsite1 : ∀ pr ∈ sitesD isFileWrapperB (.obj kvs),
      ∃ i, pr.2 = .wrapper i :=
    fun pr hpr => isFileWrapperB_eq_true (sites_pred _ _ pr hpr)
  have hatom1 : ∀ pr ∈ sitesD isFileWrapperB (.obj kvs),
      atomicRep ((mapGet i2oRec (jsIdOf (id pr.2))).getD .undef) = true := by
    intro pr hpr
    obtain ⟨i, hi⟩ := hsite1 pr hpr
    rw [hi, show jsIdOf (id (Data.wrapper i)) = Data.str i from rfl,
      hrecLookup i ⟨pr, hpr, hi⟩]
    rfl
  rw [assignObjects_extract isFileWrapperB id i2oRec kvs rfl hb hatom1]
  rw [show (fun v => (mapGet i2oRec (jsIdOf (id v))).getD .undef) =
    recRep i2oRec from rfl]
  have hrepv : ∀ pr ∈ sitesD isFileWrapperB (.obj kvs),
      ∀ i, pr.2 = .wrapper i →
      recRep i2oRec pr.2 = mkTestRecord (.str i) := by
    intro pr hpr i hi
    show (mapGet i2oRec (jsIdOf (id pr.2))).getD .undef = _
    rw [hi, show jsIdOf (id (Data.wrapper i)) = Data.str i from rfl,
      hrecLookup i ⟨pr, hpr, hi⟩]
    rfl
  have hreprec : ∀ pr ∈ sitesD isFileWrapperB (.obj kvs),
      isFileRecordB (recRep i2oRec pr.2) = true := by
    intro pr hpr
    obtain ⟨i, hi⟩ := hsite1 pr hpr
    rw [hrepv pr hpr i hi]
    rfl
  have hbenrep : ∀ pr ∈ sitesD isFileWrapperB (.obj kvs),
      benignD (recRep i2oRec pr.2) = true := by
    intro pr hpr
    obtain ⟨i, hi⟩ := hsite1 pr hpr
    rw [hrepv pr hpr i hi]
    rfl
  have hb2 : benignD (mapSitesD isFileWrapperB (recRep i2oRec) (.obj kvs)) =
      true := benign_mapSitesD _ _ _ hb hbenrep
  have hrecne : ∀ pr ∈ sitesObj isFileWrapperB kvs,
      recRep i2oRec pr.2 ≠ .undef := by
    intro pr hpr
    exact isFileRecordB_ne_undef
      (hreprec pr (by rw [sitesD_obj_false rfl]; exact hpr))
  have hnr2 := hnr
  simp only [noRecB, Bool.and_eq_true] at hnr2
  have hrecf : isFileRecordB (.obj kvs) = false := by
    have h1 := hnr2.1
    revert h1; cases isFileRecordB (.obj kvs) <;> simp
  have hp2 : isFileRecordB
      (.obj (mapSitesObj isFileWrapperB (recRep i2oRec) kvs)) = false := by
    rw [isFileRecordB_mapSitesObj isFileWrapperB _ rfl kvs hrecne]
    exact hrecf
  have hS := roundSitesD (recRep i2oRec) (.obj kvs) hnr hreprec
  rw [mapSitesD_obj_false (recRep i2oRec) rfl] at hb2
  rw [mapSitesD_obj_false (recRep i2oRec) rfl]
  have hatom2 : ∀ pr ∈ sitesD isFileRecordB
      (.obj (mapSitesObj isFileWrapperB (recRep i2oRec) kvs)),
      atomicRep ((mapGet i2oWrap (jsIdOf (fromObjectD pr.2))).getD .undef) =
        true := by
    intro pr hpr
    rw [← mapSitesD_obj_false (recRep i2oRec) rfl, hS] at hpr
    obtain ⟨q, hq, hqe⟩ := List.mem_map.mp hpr
    obtain ⟨i, hi⟩ := hsite1 q hq
    have hpr2 : pr.2 = mkTestRecord (.str i) := by
      rw [← hqe]
      exact hrepv q hq i hi
    rw [hpr2,
      show jsIdOf (fromObjectD (mkTestRecord (.str i))) = Data.str i from rfl,
      hwrapLookup i ⟨q, hq, hi⟩]
    rfl
  rw [assignObjects_extract isFileRecordB fromObjectD i2oWrap
    (mapSitesObj isFileWrapperB (recRep i2oRec) kvs) hp2 hb2 hatom2]
  rw [show (fun v => (mapGet i2oWrap (jsIdOf (fromObjectD v))).getD .undef) =
    wrapRep i2oWrap from rfl]
  rw [← mapSitesD_obj_false (recRep i2oRec) rfl]
  apply roundInvD (recRep i2oRec) (wrapRep i2oWrap) (.obj kvs) hnr hreprec
  intro pr hpr
  obtain ⟨i, hi⟩ := hsite1 pr hpr
  rw [hrepv pr hpr i hi]
  show (mapGet i2oWrap (jsIdOf (fromObjectD (mkTestRecord (.str i))))).getD
    .undef = pr.2
  rw [show jsIdOf (fromObjectD (mkTestRecord (.str i))) = Data.str i from rfl,
    hwrapLookup i ⟨pr, hpr, hi⟩, hi]
  rfl

theorem wrapperRecordRoundtrip_obj (kvs : List (String × Data))
    (hb : benignD (.obj kvs) = true) (hnr : noRecB (.obj kvs) = true) :
    wrapperRecordRoundtrip (.obj kvs) = .obj kvs := by
  have hunfold : wrapperRecordRoundtrip (.obj kvs) =
      assignObjects
        (assignObjects (.obj kvs)
          (extractObjects isFileWrapperB id (.obj kvs)).pathToIdMap
          ((extractObjects isFileWrapperB id (.obj kvs)).idToObjectMap.map
            fun pr => (pr.1, mkTestRecord pr.1)))
        (extractObjects isFileRecordB fromObjectD
          (assignObjects (.obj kvs)
            (extractObjects isFileWrapperB id (.obj kvs)).pathToIdMap
            ((extractObjects isFileWrapperB id (.obj kvs)).idToObjectMap.map
              fun pr => (pr.1, mkTestRecord pr.1)))).pathToIdMap
        (extractObjects isFileWrapperB id (.obj kvs)).idToObjectMap := rfl
  rw [hunfold]
  apply roundtrip_steps kvs _ _ hb hnr
  · intro i hex
    obtain ⟨pr, hpr, hi⟩ := hex
    have hwl : mapGet
        (extractObjects isFileWrapperB id (.obj kvs)).idToObjectMap
        (.str i) = some (.wrapper i) :=
      extractFileWrappers_i2o_get hpr i hi
    rw [mapGet_map_by_key, hwl]
    rfl
  · intro i hex
    obtain ⟨pr, hpr, hi⟩ := hex
    exact extractFileWrappers_i2o_get hpr i hi

/-- C2: the wrapper-to-record-and-back roundtrip of `extractFileWrappers`,
`assignObjects` and `extractFileRecords` is NOT the identity on every
nested structure: a single object key containing a dot (`"a.b"`) is
tokenized into two path segments by lodash `set`, so the substituted
structure gains a nested `"a"` object and the roundtrip result differs
from the original. -/
theorem C2_counterexample :
    wrapperRecordRoundtrip (.obj [("a.b", .wrapper "w1")]) ≠
      .obj [("a.b", .wrapper "w1")] := by decide

/-- C2 (amended): for every object whose keys at all levels are nonempty,
free of the path characters `.`, `[`, `]`, not array-index strings and
pairwise distinct (`benignD`), and which contains no `FileRecord`
instance nor record-shaped plain object (`noRecB`), extracting the file
wrappers, substituting records whose digest is the wrapper id, extracting
those records and substituting the original wrappers back reproduces the
original structure exactly. -/
theorem C2_roundtrip (kvs : List (String × Data))
    (hb : benignD (.obj kvs) = true) (hnr : noRecB (.obj kvs) = true) :
    wrapperRecordRoundtrip (.obj kvs) = .obj kvs :=
  wrapperRecordRoundtrip_obj kvs hb hnr

/-- C2: witness that the amended roundtrip theorem applies to a concrete
benign payload with wrappers at object, array and nested-object
positions, mirroring the repository's roundtrip test fixture. -/
theorem C2_roundtrip_witness :
    benignD (.obj [("a", .wrapper "w1"),
      ("b", .arr [.num 1, .wrapper "w2"]),
      ("c", .obj [("d", .str "x"), ("e", .wrapper "w3")])]) = true ∧
    noRecB (.obj [("a", .wrapper "w1"),
      ("b", .arr [.num 1, .wrapper "w2"]),
      ("c", .obj [("d", .str "x"), ("e", .wrapper "w3")])]) = true ∧
    wrapperRecordRoundtrip (.obj [("a", .wrapper "w1"),
      ("b", .arr [.num 1, .wrapper "w2"]),
      ("c", .obj [("d", .str "x"), ("e", .wrapper "w3")])]) =
      .obj [("a", .wrapper "w1"),
        ("b", .arr [.num 1, .wrapper "w2"]),
        ("c", .obj [("d", .str "x"), ("e", .wrapper "w3")])] :=
  ⟨by decide, by decide, C2_roundtrip _ (by decide) (by decide)⟩

/-- Decimal rendering of an integer. -/
def intStr (n : Int) : String :=
  if n < 0 then "-" ++ natStr n.natAbs else natStr n.natAbs

/-- Lexicographic order on character lists by code point, the key order
canonical JSON serialization uses. -/
def charsLe : List Char → List Char → Bool
  | [], _ => true
  | _ :: _, [] => false
  | c :: cs, d :: ds =>
      if c.toNat < d.toNat then true
      else if d.toNat < c.toNat then false
      else charsLe cs ds

/-- Lexicographic string comparison. -/
def strLe (a b : String) : Bool := charsLe a.data b.data

theorem charsLe_cons_iff (x y : Char) (xs ys : List Char) :
    charsLe (x :: xs) (y :: ys) = true ↔
      x.toNat < y.toNat ∨ (x.toNat = y.toNat ∧ charsLe xs ys = true) := by
  simp only [charsLe]
  by_cases h1 : x.toNat < y.toNat
  · simp [h1]
  · by_cases h2 : y.toNat < x.toNat
    · simp [h1, h2]
      omega
    · have he : x.toNat = y.toNat := by omega
      simp [h1, h2, he]

theorem charsLe_trans : ∀ a b c : List Char, charsLe a b = true →
    charsLe b c = true → charsLe a c = true
  | [], _, _ => by intro _ _; rfl
  | x :: xs, [], _ => by intro h _; simp [charsLe] at h
  | x :: xs, y :: ys, [] => by intro _ h; simp [charsLe] at h
  | x :: xs, y :: ys, z :: zs => by
      intro h1 h2
      rw [charsLe_cons_iff] at h1 h2 ⊢
      rcases h1 with h1 | ⟨h1e, h1t⟩
      · rcases h2 with h2 | ⟨h2e, h2t⟩
        · exact Or.inl (by omega)
        · exact Or.inl (by omega)
      · rcases h2 with h2 | ⟨h2e, h2t⟩
        · exact Or.inl (by omega)
        · exact Or.inr ⟨by omega, charsLe_trans xs ys zs h1t h2t⟩

theorem charsLe_total : ∀ a b : List Char,
    charsLe a b = true ∨ charsLe b a = true
  | [], _ => Or.inl rfl
  | _ :: _, [] => Or.inr rfl
  | x :: xs, y :: ys => by
      rw [charsLe_cons_iff, charsLe_cons_iff]
      rcases Nat.lt_trichotomy x.toNat y.toNat with h | h | h
      · exact Or.inl (Or.inl h)
      · rcases charsLe_total xs ys with h2 | h2
        · exact Or.inl (Or.inr ⟨h, h2⟩)
        · exact Or.inr (Or.inr ⟨h.symm, h2⟩)
      · exact Or.inr (Or.inl h)

theorem strLe_trans {a b c : String} (h1 : strLe a b = true)
    (h2 : strLe b c = true) : strLe a c = true :=
  charsLe_trans a.data b.data c.data h1 h2

theorem strLe_of_not_strLe {a b : String} (h : ¬ strLe a b = true) :
    strLe b a = true := by
  rcases charsLe_total a.data b.data with h2 | h2
  · exact absurd h2 h
  · exact h2

/-- Insert an entry into a key-sorted entry list (insertion sort step),
the order canonical JSON serialization applies to object keys. -/
def insertByKey {β : Type} (k : String) (v : β) :
    List (String × β) → List (String × β)
  | [] => [(k, v)]
  | (k2, v2) :: tl =>
      if strLe k k2 then (k, v) :: (k2, v2) :: tl
      else (k2, v2) :: insertByKey k v tl

/-- Sort an entry list by key. -/
def sortByKey {β : Type} : List (String × β) → List (String × β)
  | [] => []
  | (k, v) :: tl => insertByKey k v (sortByKey tl)

/-- Join rendered fields with commas, each as a quoted key and a value. -/
def joinFields : List (String × String) → String
  | [] => ""
  | [(k, sv)] => "\"" ++ k ++ "\":" ++ sv
  | (k, sv) :: tl => "\"" ++ k ++ "\":" ++ sv ++ "," ++ joinFields tl

mutual
/-- Model of `@stratumn/canonicaljson` `stringify` as the spec describes
it: a JSON rendering whose object keys are serialized in sorted order,
independent of insertion order.  Class instances contribute their own
enumerable properties. -/
def canonStr : Data → String
  | .null => "null"
  | .undef => "null"
  | .boolD true => "true"
  | .boolD false => "false"
  | .num n => intStr n
  | .str s => "\"" ++ s ++ "\""
  | .arr l => "[" ++ canonItems l ++ "]"
  | .obj kvs => "\x7b" ++ joinFields (sortByKey (canonFields kvs)) ++ "\x7d"
  | .wrapper i => "\x7b\"id\":\"" ++ i ++ "\"\x7d"
  | .record a b c d =>
      "\x7b" ++ joinFields (sortByKey [("digest", canonStr a),
        ("mimetype", canonStr c), ("name", canonStr b),
        ("size", canonStr d)]) ++ "\x7d"

/-- Comma-joined canonical rendering of array items. -/
def canonItems : List Data → String
  | [] => ""
  | [x] => canonStr x
  | x :: tl => canonStr x ++ "," ++ canonItems tl

/-- Canonical rendering of each field value, keys kept in order. -/
def canonFields : List (String × Data) → List (String × String)
  | [] => []
  | (k, v) :: tl => (k, canonStr v) :: canonFields tl
end

mutual
/-- Key-order normal form of a value: recursively sort the keys of every
object.  Two values are deep-equal up to object key insertion order
exactly when their normal forms coincide (their keys being pairwise
distinct). -/
def sortAllD : Data → Data
  | .arr l => .arr (sortAllArr l)
  | .obj kvs => .obj (sortByKey (sortAllFields kvs))
  | .record a b c d =>
      .record (sortAllD a) (sortAllD b) (sortAllD c) (sortAllD d)
  | d => d

/-- Array leg of `sortAllD`. -/
def sortAllArr : List Data → List Data
  | [] => []
  | x :: tl => sortAllD x :: sortAllArr tl

/-- Object leg of `sortAllD` (values normalized, keys kept). -/
def sortAllFields : List (String × Data) → List (String × Data)
  | [] => []
  | (k, v) :: tl => (k, sortAllD v) :: sortAllFields tl
end

theorem mem_insertByKey {β : Type} {k : String} {v : β} {e : String × β} :
    ∀ {l : List (String × β)}, e ∈ insertByKey k v l → e = (k, v) ∨ e ∈ l := by
  intro l
  induction l with
  | nil => intro h; simp [insertByKey] at h; exact Or.inl h
  | cons hd tl ih =>
      obtain ⟨k2, v2⟩ := hd
      intro h
      simp only [insertByKey] at h
      by_cases hle : strLe k k2 = true
      · rw [if_pos hle] at h
        rcases List.mem_cons.mp h with h | h
        · exact Or.inl h
        · exact Or.inr h
      · rw [if_neg hle] at h
        rcases List.mem_cons.mp h with h | h
        · exact Or.inr (h ▸ List.mem_cons_self _ _)
        · rcases ih h with h2 | h2
          · exact Or.inl h2
          · exact Or.inr (List.mem_cons_of_mem _ h2)

theorem insertByKey_sorted {β : Type} (k : String) (v : β) :
    ∀ {l : List (String × β)}, l.Pairwise (fun a b => strLe a.1 b.1 = true) →
    (insertByKey k v l).Pairwise (fun a b => strLe a.1 b.1 = true) := by
  intro l
  induction l with
  | nil => intro _; simp [insertByKey]
  | cons hd tl ih =>
      obtain ⟨k2, v2⟩ := hd
      intro h
      rw [List.pairwise_cons] at h
      simp only [insertByKey]
      by_cases hle : strLe k k2 = true
      · rw [if_pos hle]
        refine List.Pairwise.cons ?_ (List.Pairwise.cons h.1 h.2)
        intro b hb
        rcases List.mem_cons.mp hb with hb | hb
        · subst hb; exact hle
        · exact strLe_trans hle (h.1 b hb)
      · rw [if_neg hle]
        refine List.Pairwise.cons ?_ (ih h.2)
        intro b hb
        rcases mem_insertByKey hb with hb | hb
        · subst hb; exact strLe_of_not_strLe hle
        · exact h.1 b hb

theorem sortByKey_sorted {β : Type} :
    ∀ (l : List (String × β)),
      (sortByKey l).Pairwise (fun a b => strLe a.1 b.1 = true)
  | [] => by simp [sortByKey]
  | (k, v) :: tl => insertByKey_sorted k v (sortByKey_sorted tl)

theorem sortByKey_of_sorted {β : Type} :
    ∀ {l : List (String × β)}, l.Pairwise (fun a b => strLe a.1 b.1 = true) →
    sortByKey l = l := by
  intro l
  induction l with
  | nil => intro _; rfl
  | cons kv tl ih =>
      obtain ⟨k, v⟩ := kv
      intro h
      rw [List.pairwise_cons] at h
      simp only [sortByKey]
      rw [ih h.2]
      cases tl with
      | nil => rfl
      | cons hd tl2 =>
          obtain ⟨k2, v2⟩ := hd
          simp only [insertByKey]
          rw [if_pos (h.1 (k2, v2) (List.mem_cons_self _ _))]

theorem sortByKey_idem {β : Type} (l : List (String × β)) :
    sortByKey (sortByKey l) = sortByKey l :=
  sortByKey_of_sorted (sortByKey_sorted l)

theorem insertByKey_mapVal {β γ : Type} (f : β → γ) (k : String) (v : β) :
    ∀ (l : List (String × β)),
    (insertByKey k v l).map (fun p => (p.1, f p.2)) =
      insertByKey k (f v) (l.map fun p => (p.1, f p.2))
  | [] => rfl
  | (k2, v2) :: tl => by
      simp only [insertByKey, List.map_cons]
      by_cases hle : strLe k k2 = true
      · simp [insertByKey, hle]
      · simp only [insertByKey, if_neg hle, List.map_cons]
        rw [insertByKey_mapVal f k v tl]

theorem sortByKey_mapVal {β γ : Type} (f : β → γ) :
    ∀ (l : List (String × β)),
    (sortByKey l).map (fun p => (p.1, f p.2)) =
      sortByKey (l.map fun p => (p.1, f p.2))
  | [] => rfl
  | (k, v) :: tl => by
      simp only [sortByKey, List.map_cons]
      rw [insertByKey_mapVal f k v (sortByKey tl), sortByKey_mapVal f tl]

theorem canonFields_eq_map (kvs : List (String × Data)) :
    canonFields kvs = kvs.map fun p => (p.1, canonStr p.2) := by
  induction kvs with
  | nil => rfl
  | cons kv tl ih =>
      obtain ⟨k, v⟩ := kv
      simp only [canonFields, List.map_cons]
      rw [ih]

theorem canonFields_sortByKey (kvs : List (String × Data)) :
    canonFields (sortByKey kvs) = sortByKey (canonFields kvs) := by
  rw [canonFields_eq_map, canonFields_eq_map, sortByKey_mapVal]

mutual
theorem canonStr_sortAllD : ∀ (d : Data), canonStr (sortAllD d) = canonStr d
  | .null => rfl
  | .undef => rfl
  | .boolD b => by cases b <;> rfl
  | .num n => rfl
  | .str s => rfl
  | .wrapper i => rfl
  | .arr l => by
      show "[" ++ canonItems (sortAllArr l) ++ "]" = _
      rw [canonItems_sortAllArr l]
      rfl
  | .obj kvs => by
      show "\x7b" ++ joinFields (sortByKey (canonFields
        (sortByKey (sortAllFields kvs)))) ++ "\x7d" = _
      rw [canonFields_sortByKey, sortByKey_idem,
        canonFields_sortAllFields kvs]
      rfl
  | .record a b c d => by
      show "\x7b" ++ joinFields (sortByKey [("digest", canonStr (sortAllD a)),
        ("mimetype", canonStr (sortAllD c)), ("name", canonStr (sortAllD b)),
        ("size", canonStr (sortAllD d))]) ++ "\x7d" = _
      rw [canonStr_sortAllD a, canonStr_sortAllD b, canonStr_sortAllD c,
        canonStr_sortAllD d]
      rfl

theorem canonItems_sortAllArr : ∀ (l : List Data),
    canonItems (sortAllArr l) = canonItems l
  | [] => rfl
  | [x] => by
      show canonItems [sortAllD x] = _
      show canonStr (sortAllD x) = _
      rw [canonStr_sortAllD x]
      rfl
  | x :: y :: tl => by
      show canonStr (sortAllD x) ++ "," ++
        canonItems (sortAllArr (y :: tl)) = _
      rw [canonStr_sortAllD x, canonItems_sortAllArr (y :: tl)]
      rfl

theorem canonFields_sortAllFields : ∀ (kvs : List (String × Data)),
    canonFields (sortAllFields kvs) = canonFields kvs
  | [] => rfl
  | (k, v) :: tl => by
      show (k, canonStr (sortAllD v)) :: canonFields (sortAllFields tl) = _
      rw [canonStr_sortAllD v, canonFields_sortAllFields tl]
      rfl
end

/-- JavaScript truthiness of a value (`if (obj)` in `withHashedData`). -/
def truthyD : Data → Bool
  | .null => false
  | .undef => false
  | .boolD b => b
  | .num n => !(n == 0)
  | .str s => !(s == "")
  | _ => true

theorem truthyD_sortAllD (d : Data) :
    truthyD (sortAllD d) = truthyD d := by
  cases d <;> rfl

/-- The link metadata assembled by `TraceLinkBuilder`
(`Partial<TraceLinkMetaData>` in `src/types`): every field starts unset. -/
structure TraceLinkMetaDataS where
  createdAt : Option Nat
  ownerId : Option String
  groupId : Option String
  createdById : Option String
  formId : Option String
  lastFormId : Option String
  inputs : Option (List String)
  configId : Option String
  deriving Repr, DecidableEq

/-- All-unset metadata. -/
def emptyMeta : TraceLinkMetaDataS :=
  ⟨none, none, none, none, none, none, none, none⟩

/-- The views of a parent `ITraceLink` that `TraceLinkBuilder` reads:
`traceId()` (the parent's map id), `hash()`, `priority()`, `owner()`,
`group()`, `form()` and `lastForm()`. -/
structure ParentLink where
  traceId : String
  hash : String
  priority : Nat
  owner : String
  group : String
  form : Option String
  lastForm : Option String
  deriving Repr, DecidableEq

/-- The state of a `TraceLinkBuilder` (`src/traceLinkBuilder.ts` over the
chainscript `LinkBuilder`): link fields, the metadata under assembly, the
optional parent link and the retained raw form data. -/
structure TraceLinkBuilderS where
  workflowId : String
  mapId : String
  degree : Nat
  priority : Nat
  prevLinkHash : Option String
  action : String
  processState : String
  dataField : Option Data
  metadata : TraceLinkMetaDataS
  parentLink : Option ParentLink
  formData : Option Data
  deriving Repr, DecidableEq

/-- `LinkBuilder.withPriority`. -/
def TraceLinkBuilderS.withPriority (b : TraceLinkBuilderS) (p : Nat) :
    TraceLinkBuilderS := { b with priority := p }

/-- `LinkBuilder.withParent`. -/
def TraceLinkBuilderS.withParent (b : TraceLinkBuilderS) (h : String) :
    TraceLinkBuilderS := { b with prevLinkHash := some h }

/-- `LinkBuilder.withDegree`. -/
def TraceLinkBuilderS.withDegree (b : TraceLinkBuilderS) (d : Nat) :
    TraceLinkBuilderS := { b with degree := d }

/-- `LinkBuilder.withData`. -/
def TraceLinkBuilderS.withData (b : TraceLinkBuilderS) (d : Data) :
    TraceLinkBuilderS := { b with dataField := some d }

/-- `LinkBuilder.withAction`. -/
def TraceLinkBuilderS.withAction (b : TraceLinkBuilderS) (a : String) :
    TraceLinkBuilderS := { b with action := a }

/-- `LinkBuilder.withProcessState`. -/
def TraceLinkBuilderS.withProcessState (b : TraceLinkBuilderS) (t : String) :
    TraceLinkBuilderS := { b with processState := t }

/-- `TraceLinkBuilder.withOwner`. -/
def TraceLinkBuilderS.withOwner (b : TraceLinkBuilderS) (ownerId : String) :
    TraceLinkBuilderS :=
  { b with metadata := { b.metadata with ownerId := some ownerId } }

/-- `TraceLinkBuilder.withGroup`. -/
def TraceLinkBuilderS.withGroup (b : TraceLinkBuilderS) (groupId : String) :
    TraceLinkBuilderS :=
  { b with metadata := { b.metadata with groupId := some groupId } }

/-- `TraceLinkBuilder.withCreatedBy`. -/
def TraceLinkBuilderS.withCreatedBy (b : TraceLinkBuilderS) (userId : String) :
    TraceLinkBuilderS :=
  { b with metadata := { b.metadata with createdById := some userId } }

/-- The constructor of `TraceLinkBuilder`: the fresh uuid and the clock
reading are passed in, as they are environment effects.  The trace id is
the parent's when one is given, a fresh uuid otherwise; degree is 1,
priority defaults to 1 and, when a parent is given, is overridden to the
parent's priority plus one alongside the parent hash. -/
def mkTraceLinkBuilder (workflowId : String) (parentLink : Option ParentLink)
    (freshUuid : String) (now : Nat) : TraceLinkBuilderS :=
  let traceId := match parentLink with
    | some p => p.traceId
    | none => freshUuid
  let b : TraceLinkBuilderS :=
    { workflowId := workflowId, mapId := traceId, degree := 1, priority := 1,
      prevLinkHash := none, action := "", processState := "",
      dataField := none,
      metadata := { emptyMeta with createdAt := some now },
      parentLink := parentLink, formData := none }
  match parentLink with
  | some p => (b.withPriority (p.priority + 1)).withParent p.hash
  | none => b

/-- `TraceLinkBuilder.withHashedData` with the sha256-base64 digest
abstracted as a hash function over the canonical serialization: a truthy
argument sets `{algo, hash}` as the link data and retains the raw form
data, anything else leaves the builder unchanged. -/
def TraceLinkBuilderS.withHashedData (b : TraceLinkBuilderS)
    (H : String → String) (obj : Option Data) : TraceLinkBuilderS :=
  match obj with
  | some o =>
      if truthyD o then
        { b.withData (.obj [("algo", .str "sha256"),
            ("hash", .str (H (canonStr o)))]) with formData := some o }
      else b
  | none => b

/-- `TraceLinkBuilder.forAttestation`: hashed data, action, OWNED state
and the form id in the metadata; never consults the parent link. -/
def TraceLinkBuilderS.forAttestation (b : TraceLinkBuilderS)
    (H : String → String) (actionKey : String) (data : Data) :
    TraceLinkBuilderS :=
  let b1 := (((b.withHashedData H (some data)).withAction
    actionKey).withProcessState "OWNED")
  { b1 with metadata := { b1.metadata with formId := some actionKey } }

/-- JavaScript `a || b` on an optional string (empty strings are falsy),
as in `parent.form() || parent.lastForm()`. -/
def jsOrStr : Option String → Option String → Option String
  | some f, g => if f = "" then g else some f
  | none, g => g

/-- `TraceLinkBuilder.forTransferRequest`: throws the parent-required
error when no parent link was provided, otherwise sets owner and group
from the parent, the hashed data, action and state, the transfer inputs
and the last form id. -/
def TraceLinkBuilderS.forTransferRequest (b : TraceLinkBuilderS)
    (H : String → String) (toGroup action type : String) (data : Option Data) :
    Except String TraceLinkBuilderS :=
  match b.parentLink with
  | none => .error "Parent link must be provided"
  | some parent =>
      let b1 := (((((b.withOwner parent.owner).withGroup
        parent.group).withHashedData H data).withAction
        action).withProcessState type)
      .ok { b1 with metadata := { b1.metadata with
        inputs := some [toGroup],
        lastFormId := jsOrStr parent.form parent.lastForm } }

/-- `TraceLinkBuilder.forPushTransfer`. -/
def TraceLinkBuilderS.forPushTransfer (b : TraceLinkBuilderS)
    (H : String → String) (toGroup : String) (data : Option Data) :
    Except String TraceLinkBuilderS :=
  b.forTransferRequest H toGroup "_PUSH_OWNERSHIP_" "PUSHING" data

/-- `TraceLinkBuilder.forPullTransfer`. -/
def TraceLinkBuilderS.forPullTransfer (b : TraceLinkBuilderS)
    (H : String → String) (toGroup : String) (data : Option Data) :
    Except String TraceLinkBuilderS :=
  b.forTransferRequest H toGroup "_PULL_OWNERSHIP_" "PULLING" data

/-- `TraceLinkBuilder.forCancelTransfer`. -/
def TraceLinkBuilderS.forCancelTransfer (b : TraceLinkBuilderS)
    (H : String → String) (data : Option Data) :
    Except String TraceLinkBuilderS :=
  match b.parentLink with
  | none => .error "Parent link must be provided"
  | some parent =>
      .ok (((((b.withOwner parent.owner).withGroup
        parent.group).withHashedData H data).withAction
        "_CANCEL_TRANSFER_").withProcessState "OWNED")

/-- `TraceLinkBuilder.forRejectTransfer`. -/
def TraceLinkBuilderS.forRejectTransfer (b : TraceLinkBuilderS)
    (H : String → String) (data : Option Data) :
    Except String TraceLinkBuilderS :=
  match b.parentLink with
  | none => .error "Parent link must be provided"
  | some parent =>
      .ok (((((b.withOwner parent.owner).withGroup
        parent.group).withHashedData H data).withAction
        "_REJECT_TRANSFER_").withProcessState "OWNED")

/-- `TraceLinkBuilder.forAcceptTransfer`: asserts the parent link exists
but reads nothing from it. -/
def TraceLinkBuilderS.forAcceptTransfer (b : TraceLinkBuilderS)
    (H : String → String) (data : Option Data) :
    Except String TraceLinkBuilderS :=
  match b.parentLink with
  | none => .error "Parent link must be provided"
  | some _ =>
      .ok (((b.withHashedData H data).withAction
        "_ACCEPT_TRANSFER_").withProcessState "OWNED")

/-- The immutable link `build()` produces (the chainscript link fields
plus the finalized metadata). -/
structure TraceLinkS where
  workflowId : String
  mapId : String
  degree : Nat
  priority : Nat
  prevLinkHash : Option String
  action : String
  processState : String
  dataField : Option Data
  metadata : TraceLinkMetaDataS
  deriving Repr, DecidableEq

/-- The value `TraceLinkBuilder.build` returns: the link and the retained
raw form data. -/
structure BuiltTraceLink where
  link : TraceLinkS
  formData : Option Data
  deriving Repr, DecidableEq

/-- `TraceLinkBuilder.build`: finalize the metadata onto the link and
wrap it with the retained form data.  No field is validated: the method
body performs no check of the action or of any other field (the
repository's own tests build links on which no `forX` method was ever
called). -/
def TraceLinkBuilderS.build (b : TraceLinkBuilderS) : BuiltTraceLink :=
  ⟨⟨b.workflowId, b.mapId, b.degree, b.priority, b.prevLinkHash, b.action,
    b.processState, b.dataField, b.metadata⟩, b.formData⟩

/-- C1: a builder constructed with a parent link builds a link whose
priority is the parent's plus one, whose parent hash is the parent's
hash and whose map id is the parent's trace id (its map id); a builder
constructed without a parent builds a link with priority 1, no parent
hash and the freshly generated uuid as map id. -/
theorem C1_constructor (wf : String) (p : ParentLink) (u u2 : String)
    (now now2 : Nat) :
    ((mkTraceLinkBuilder wf (some p) u now).build).link.priority =
      p.priority + 1 ∧
    ((mkTraceLinkBuilder wf (some p) u now).build).link.prevLinkHash =
      some p.hash ∧
    ((mkTraceLinkBuilder wf (some p) u now).build).link.mapId = p.traceId ∧
    ((mkTraceLinkBuilder wf none u2 now2).build).link.priority = 1 ∧
    ((mkTraceLinkBuilder wf none u2 now2).build).link.prevLinkHash = none ∧
    ((mkTraceLinkBuilder wf none u2 now2).build).link.mapId = u2 :=
  ⟨rfl, rfl, rfl, rfl, rfl, rfl⟩

/-- C3: payloads that are deep-equal up to object key insertion order
(equal key-sorted normal forms) give `forAttestation` identical data
fields, and a truthy payload's data field is the `sha256`/hash pair over
the canonical serialization. -/
theorem C3_canonical_digest (H : String → String) (b : TraceLinkBuilderS)
    (actionKey : String) (d1 d2 : Data) (heq : sortAllD d1 = sortAllD d2) :
    (b.forAttestation H actionKey d1).dataField =
      (b.forAttestation H actionKey d2).dataField ∧
    (truthyD d1 = true →
      (b.forAttestation H actionKey d1).dataField =
        some (.obj [("algo", .str "sha256"),
          ("hash", .str (H (canonStr d1)))])) := by
  have hcanon : canonStr d1 = canonStr d2 := by
    rw [← canonStr_sortAllD d1, heq, canonStr_sortAllD d2]
  have htruthy : truthyD d1 = truthyD d2 := by
    rw [← truthyD_sortAllD d1, heq, truthyD_sortAllD d2]
  have hdf : ∀ d : Data, (b.forAttestation H actionKey d).dataField =
      if truthyD d = true then some (.obj [("algo", .str "sha256"),
        ("hash", .str (H (canonStr d)))]) else b.dataField := by
    intro d
    show (TraceLinkBuilderS.withHashedData b H (some d)).dataField = _
    rw [show TraceLinkBuilderS.withHashedData b H (some d) =
      (if truthyD d = true then
        { b.withData (.obj [("algo", .str "sha256"),
            ("hash", .str (H (canonStr d)))]) with formData := some d }
      else b) from rfl]
    by_cases ht : truthyD d = true
    · rw [if_pos ht, if_pos ht]
      rfl
    · rw [if_neg ht, if_neg ht]
  constructor
  · rw [hdf d1, hdf d2, hcanon, htruthy]
  · intro ht
    rw [hdf d1, if_pos ht]

/-- C3: witness instantiating the canonical-digest theorem on two
payloads whose keys are inserted in opposite orders. -/
theorem C3_canonical_digest_witness :
    sortAllD (.obj [("b", .num 2), ("a", .num 1)]) =
      sortAllD (.obj [("a", .num 1), ("b", .num 2)]) ∧
    ((mkTraceLinkBuilder "wf" none "uuid-1" 0).forAttestation id "form-1"
        (.obj [("b", .num 2), ("a", .num 1)])).dataField =
      ((mkTraceLinkBuilder "wf" none "uuid-1" 0).forAttestation id "form-1"
        (.obj [("a", .num 1), ("b", .num 2)])).dataField :=
  ⟨by decide, (C3_canonical_digest id (mkTraceLinkBuilder "wf" none "uuid-1" 0)
    "form-1" (.obj [("b", .num 2), ("a", .num 1)])
    (.obj [("a", .num 1), ("b", .num 2)]) (by decide)).1⟩

/-- C4: on a parentless builder every transfer operation fails with the
parent-required error while `forAttestation` completes (it never reads
the parent link); on a builder with a parent link none of the transfer
operations fails. -/
theorem C4_parent_required (wf u : String) (now : Nat) (H : String → String)
    (toGroup actionKey : String) (data : Option Data) (payload : Data)
    (p : ParentLink) :
    ((mkTraceLinkBuilder wf none u now).forPushTransfer H toGroup data =
      .error "Parent link must be provided") ∧
    ((mkTraceLinkBuilder wf none u now).forPullTransfer H toGroup data =
      .error "Parent link must be provided") ∧
    ((mkTraceLinkBuilder wf none u now).forCancelTransfer H data =
      .error "Parent link must be provided") ∧
    ((mkTraceLinkBuilder wf none u now).forRejectTransfer H data =
      .error "Parent link must be provided") ∧
    ((mkTraceLinkBuilder wf none u now).forAcceptTransfer H data =
      .error "Parent link must be provided") ∧
    ((mkTraceLinkBuilder wf none u now).forAttestation H actionKey
      payload).action = actionKey ∧
    ((mkTraceLinkBuilder wf (some p) u now).forPushTransfer H toGroup
      data).isOk = true ∧
    ((mkTraceLinkBuilder wf (some p) u now).forPullTransfer H toGroup
      data).isOk = true ∧
    ((mkTraceLinkBuilder wf (some p) u now).forCancelTransfer H
      data).isOk = true ∧
    ((mkTraceLinkBuilder wf (some p) u now).forRejectTransfer H
      data).isOk = true ∧
    ((mkTraceLinkBuilder wf (some p) u now).forAcceptTransfer H
      data).isOk = true :=
  ⟨rfl, rfl, rfl, rfl, rfl, rfl, rfl, rfl, rfl, rfl, rfl⟩

/-- C8: counterexample to "build() fails when no `forX` operation was
called": a builder given only data builds successfully and returns a
link (with an empty action), exactly as the repository's own
`TraceLink` test does. -/
theorem C8_counterexample :
    ((mkTraceLinkBuilder "wf-1" none "uuid-1" 7).withData (.num 42)).build =
      ⟨⟨"wf-1", "uuid-1", 1, 1, none, "", "", some (.num 42),
        ⟨some 7, none, none, none, none, none, none, none⟩⟩,
        none⟩ := rfl

/-- C8 (amended): `build()` performs no action validation: on a builder
on which no `forX` operation was ever called it still returns a link,
with an empty action, the constructor's fields and the builder's data. -/
theorem C8_build_no_forX (wf u : String) (now : Nat) (d : Data) :
    (((mkTraceLinkBuilder wf none u now).withData d).build).link.action =
      "" ∧
    (((mkTraceLinkBuilder wf none u now).withData d).build).link.workflowId =
      wf ∧
    (((mkTraceLinkBuilder wf none u now).withData d).build).link.dataField =
      some d ∧
    (((mkTraceLinkBuilder wf none u now).withData d).build).formData =
      none :=
  ⟨rfl, rfl, rfl, rfl⟩

/-- `TraceLinkBuilder.withConfigId` as `Sdk.createLink` uses it on a
deprecated-config retry.  Modelled from the spec: the method's
definition is not among the repository files (only its call site is);
the spec describes it as re-deriving the updated `configId` into the
in-flight link builder, all other fields unaffected. -/
def TraceLinkBuilderS.withConfigId (b : TraceLinkBuilderS) (cid : String) :
    TraceLinkBuilderS :=
  { b with metadata := { b.metadata with configId := some cid } }

/-- What one GraphQL `createLink` mutation attempt is observed to do:
succeed, or fail with the messages of the error response. -/
inductive MutationOutcome where
  | success
  | failure (messages : List String)
  deriving Repr, DecidableEq

/-- A link as submitted: the built link and its signatures (the link is
signed exactly once right after `build()`). -/
structure Submission where
  link : BuiltTraceLink
  signatures : List String
  deriving Repr, DecidableEq

/-- Model of `Sdk.createLink` (the unnamed `Sdk` source): build and sign
the link, submit it; when the first submission fails with a
`link config deprecated` message among the response errors, force a
config refresh, update the config id in the builder, sign the freshly
rebuilt link and resubmit exactly once; a failure of the resubmission
(the same deprecation included) propagates, and any other first failure
propagates with no retry.  `o1`/`o2` are the outcomes of the two
possible mutation attempts and `refreshedConfigId` is the config id the
forced refresh returns; the result pairs the submissions made with the
outcome. -/
def createLinkM (b : TraceLinkBuilderS) (sigStr : String)
    (o1 o2 : MutationOutcome) (refreshedConfigId : String) :
    List Submission × Except (List String) Unit :=
  let link1 : Submission := ⟨b.build, [sigStr]⟩
  match o1 with
  | .success => ([link1], .ok ())
  | .failure msgs =>
      if msgs.contains "link config deprecated" then
        let b2 := b.withConfigId refreshedConfigId
        let link2 : Submission := ⟨b2.build, [sigStr]⟩
        match o2 with
        | .success => ([link1, link2], .ok ())
        | .failure msgs2 => ([link1, link2], .error msgs2)
      else ([link1], .error msgs)

/-- C5: a submission rejected with the `link config deprecated` error is
resubmitted exactly once with a fresh single signature and a builder in
which only the config id changed; a second deprecation (or any failure
of the resubmission) propagates, and every other error propagates with
no retry. -/
theorem C5_deprecated_retry (b : TraceLinkBuilderS) (sigStr cid : String)
    (o2 : MutationOutcome) (msgs msgs2 : List String) :
    (createLinkM b sigStr .success o2 cid = ([⟨b.build, [sigStr]⟩], .ok ())) ∧
    (msgs.contains "link config deprecated" = true →
      createLinkM b sigStr (.failure msgs) .success cid =
        ([⟨b.build, [sigStr]⟩, ⟨(b.withConfigId cid).build, [sigStr]⟩],
          .ok ())) ∧
    (msgs.contains "link config deprecated" = true →
      createLinkM b sigStr (.failure msgs) (.failure msgs2) cid =
        ([⟨b.build, [sigStr]⟩, ⟨(b.withConfigId cid).build, [sigStr]⟩],
          .error msgs2)) ∧
    (msgs.contains "link config deprecated" = false →
      createLinkM b sigStr (.failure msgs) o2 cid =
        ([⟨b.build, [sigStr]⟩], .error msgs)) ∧
    ((b.withConfigId cid).build.link.workflowId = b.build.link.workflowId ∧
      (b.withConfigId cid).build.link.mapId = b.build.link.mapId ∧
      (b.withConfigId cid).build.link.degree = b.build.link.degree ∧
      (b.withConfigId cid).build.link.priority = b.build.link.priority ∧
      (b.withConfigId cid).build.link.prevLinkHash =
        b.build.link.prevLinkHash ∧
      (b.withConfigId cid).build.link.action = b.build.link.action ∧
      (b.withConfigId cid).build.link.processState =
        b.build.link.processState ∧
      (b.withConfigId cid).build.link.dataField = b.build.link.dataField ∧
      (b.withConfigId cid).build.formData = b.build.formData ∧
      (b.withConfigId cid).build.link.metadata =
        { b.build.link.metadata with configId := some cid }) := by
  refine ⟨rfl, ?_, ?_, ?_,
    rfl, rfl, rfl, rfl, rfl, rfl, rfl, rfl, rfl, rfl⟩
  · intro h
    show (if msgs.contains "link config deprecated" = true then _ else _) = _
    rw [if_pos h]
  · intro h
    show (if msgs.contains "link config deprecated" = true then _ else _) = _
    rw [if_pos h]
  · intro h
    show (if msgs.contains "link config deprecated" = true then _ else _) = _
    rw [if_neg (by rw [h]; exact Bool.false_ne_true)]

/-- C5: witness running the retry theorem on a concrete builder and a
concrete deprecated-error response. -/
theorem C5_deprecated_retry_witness :
    ((["other error", "link config deprecated"] : List String).contains
      "link config deprecated" = true) ∧
    createLinkM (mkTraceLinkBuilder "wf" none "uuid-1" 0) "sig-1"
        (.failure ["other error", "link config deprecated"]) .success
        "cfg-2" =
      ([⟨(mkTraceLinkBuilder "wf" none "uuid-1" 0).build, ["sig-1"]⟩,
        ⟨((mkTraceLinkBuilder "wf" none "uuid-1" 0).withConfigId
          "cfg-2").build, ["sig-1"]⟩], .ok ()) :=
  ⟨by decide, (C5_deprecated_retry (mkTraceLinkBuilder "wf" none "uuid-1" 0)
    "sig-1" "cfg-2" .success ["other error", "link config deprecated"]
    []).2.1 (by decide)⟩

/-- The candidate group selection of `Sdk.getConfig` (the unnamed `Sdk`
source): the groups the account belongs to, reduced to exactly one. -/
def selectMyGroup (myGroups : List String) : Except String String :=
  if myGroups.length > 1 then .error "More than one group to choose from."
  else if myGroups.length = 0 then .error "No group to choose from."
  else .ok (myGroups.headD "")

/-- The fields of `SdkConfig` (`src/sdkConfig.ts`) that group resolution
reads: the optional group label and the label-to-id map (a `Record` kept
in insertion order). -/
structure SdkConfigS where
  workflowId : String
  configId : String
  accountId : String
  groupLabel : Option String
  groupLabelToIdMap : List (String × String)
  deriving Repr, DecidableEq

/-- `SdkConfig.getGroupIdByLabel` (`src/sdkConfig.ts`): with no label
argument, a singleton map yields its only id and a larger map requires a
configured truthy label mapped to a truthy id (else the multiple-groups
error); with a label argument, a direct lookup; a falsy outcome (missing
entry, empty map or empty id) is the no-group error. -/
def SdkConfigS.getGroupIdByLabel (cfg : SdkConfigS)
    (groupLabelParam : Option String) : Except String String :=
  let m := cfg.groupLabelToIdMap
  let multipleErr :=
    "Multiple groups to select from, please specify the group label you wish to perform the action with."
  let noneErr :=
    "No group to select from. At least one group is required to perform an action."
  let resultE : Except String (Option String) :=
    if 0 < m.length then
      match groupLabelParam with
      | none =>
          if m.length = 1 then .ok (m.head?.map Prod.snd)
          else
            match cfg.groupLabel with
            | some gl =>
                if gl = "" then .error multipleErr
                else
                  match mapGet m gl with
                  | some v => if v = "" then .error multipleErr else .ok (some v)
                  | none => .error multipleErr
            | none => .error multipleErr
      | some param => .ok (mapGet m param)
    else .ok none
  match resultE with
  | .error e => .error e
  | .ok none => .error noneErr
  | .ok (some v) => if v = "" then .error noneErr else .ok v

/-- `SdkConfig.groupId` (`src/sdkConfig.ts`): an empty label argument is
coerced to no argument (`groupLabel || null`). -/
def SdkConfigS.groupId (cfg : SdkConfigS) (groupLabel : Option String) :
    Except String String :=
  cfg.getGroupIdByLabel (match groupLabel with
    | some gl => if gl = "" then none else some gl
    | none => none)

/-- C6: config-time group selection fails with the no-group error on an
empty candidate set and with the ambiguous-group error on more than one
candidate; a single candidate's id is kept.  On the stored config, a
label (pre-supplied as an argument or set on the config) disambiguates a
multi-entry map, a singleton map needs none, and an empty map is the
no-group error. -/
theorem C6_group_resolution (wf cid acc : String) :
    (selectMyGroup [] = .error "No group to choose from.") ∧
    (∀ g1 g2 gs, selectMyGroup (g1 :: g2 :: gs) =
      .error "More than one group to choose from.") ∧
    (∀ g, selectMyGroup [g] = .ok g) ∧
    (∀ (glbl param : Option String),
      (SdkConfigS.mk wf cid acc glbl []).groupId param =
        .error "No group to select from. At least one group is required to perform an action.") ∧
    (∀ (k v : String) (glbl : Option String), v ≠ "" →
      (SdkConfigS.mk wf cid acc glbl [(k, v)]).groupId none = .ok v) ∧
    (∀ (k1 v1 k2 v2 : String),
      (SdkConfigS.mk wf cid acc none [(k1, v1), (k2, v2)]).groupId none =
        .error "Multiple groups to select from, please specify the group label you wish to perform the action with.") ∧
    (∀ (k1 v1 k2 v2 : String), k2 ≠ "" → v2 ≠ "" → k1 ≠ k2 →
      (SdkConfigS.mk wf cid acc (some k2) [(k1, v1), (k2, v2)]).groupId
        none = .ok v2) ∧
    (∀ (k1 v1 k2 v2 : String), k1 ≠ "" → v1 ≠ "" →
      (SdkConfigS.mk wf cid acc none [(k1, v1), (k2, v2)]).groupId
        (some k1) = .ok v1) := by
  refine ⟨rfl, ?_, fun g => rfl, ?_, ?_, ?_, ?_, ?_⟩
  · intro g1 g2 gs
    unfold selectMyGroup
    rw [if_pos (by simp only [List.length_cons]; omega)]
  · intro glbl param
    unfold SdkConfigS.groupId SdkConfigS.getGroupIdByLabel
    cases param with
    | none => rfl
    | some p => by_cases hp : p = "" <;> simp [hp]
  · intro k v glbl hv
    unfold SdkConfigS.groupId SdkConfigS.getGroupIdByLabel
    simp [hv]
  · intro k1 v1 k2 v2
    rfl
  · intro k1 v1 k2 v2 hk2 hv2 hne
    unfold SdkConfigS.groupId SdkConfigS.getGroupIdByLabel
    simp [hk2, mapGet, hne, hv2]
  · intro k1 v1 k2 v2 hk1 hv1
    unfold SdkConfigS.groupId SdkConfigS.getGroupIdByLabel
    simp [hk1, mapGet, hv1]

/-- C6: witness running the group-resolution theorem on a concrete
two-entry label map. -/
theorem C6_group_resolution_witness :
    (SdkConfigS.mk "wf" "cfg" "acc" (some "teamB")
      [("teamA", "gid-A"), ("teamB", "gid-B")]).groupId none =
      .ok "gid-B" ∧
    (SdkConfigS.mk "wf" "cfg" "acc" none
      [("teamA", "gid-A"), ("teamB", "gid-B")]).groupId (some "teamA") =
      .ok "gid-A" :=
  ⟨(C6_group_resolution "wf" "cfg" "acc").2.2.2.2.2.2.1 "teamA" "gid-A"
      "teamB" "gid-B" (by decide) (by decide) (by decide),
    (C6_group_resolution "wf" "cfg" "acc").2.2.2.2.2.2.2 "teamA" "gid-A"
      "teamB" "gid-B" (by decide) (by decide)⟩

/-- The cursor-pagination arguments of the read operations. -/
structure PaginationInfoS where
  first : Option Nat
  after : Option String
  last : Option Nat
  before : Option String
  deriving Repr, DecidableEq

/-- The `getTraceDetails` input: a trace id and the pagination info. -/
structure GetTraceDetailsInputS where
  traceId : String
  pagination : PaginationInfoS
  deriving Repr, DecidableEq

/-- Model of `Sdk.getTraceDetails` (the unnamed `Sdk` source): the input
is passed straight through to a single GraphQL query — the method body
contains no validation of the pagination arguments.  The result pairs
the queries issued with the outcome. -/
def getTraceDetailsM (input : GetTraceDetailsInputS) :
    List GetTraceDetailsInputS × Except String Unit :=
  ([input], .ok ())

/-- Model of `Sdk.getTracesInStage` (the unnamed `Sdk` source): the only
precondition checked is that `actionKey` is given exactly when the stage
type is `ATTESTATION`; the pagination info is spread unvalidated into
the variables of the single GraphQL query, and the stage-count checks
happen on the response. -/
def getTracesInStageM (stageType : String) (paginationInfo : PaginationInfoS)
    (actionKey : Option String) (stagesInResponse : Nat) :
    List (String × Option String × PaginationInfoS) × Except String Unit :=
  if (decide (stageType = "ATTESTATION")) ≠ actionKey.isSome then
    ([], .error "You must and can only provide actionKey when stageType is ATTESTATION")
  else
    ([(stageType, actionKey, paginationInfo)],
      if stagesInResponse = 1 then .ok ()
      else if stagesInResponse = 0 then .error "No stage"
      else .error "Multiple stages")

/-- C7: counterexample to "paginated reads validate that `first`/`after`
and `last`/`before` are mutually exclusive and fail fast before any
network call": the mixed input `{first: 5, before: 'x'}` is passed
straight through to one `getTraceDetails` query and the call does not
fail. -/
theorem C7_counterexample :
    getTraceDetailsM ⟨"trace-1", ⟨some 5, none, none, some "x"⟩⟩ =
      ([⟨"trace-1", ⟨some 5, none, none, some "x"⟩⟩], .ok ()) := rfl

/-- C7 (amended): no pagination validation exists anywhere on the read
path: every input — mixed cursor pairs included — is forwarded to
exactly one query; `getTracesInStage` checks only the
`actionKey`/`ATTESTATION` pairing before its single query. -/
theorem C7_passthrough (input : GetTraceDetailsInputS) (st : String)
    (pag : PaginationInfoS) (ak : Option String) (n : Nat)
    (hak : (decide (st = "ATTESTATION")) = ak.isSome) :
    (getTraceDetailsM input).1 = [input] ∧
    (getTraceDetailsM input).2 = .ok () ∧
    (getTracesInStageM st pag ak n).1 = [(st, ak, pag)] := by
  refine ⟨rfl, rfl, ?_⟩
  unfold getTracesInStageM
  rw [if_neg (by rw [hak]; simp)]

/-- C7: witness running the pass-through theorem on mixed pagination
inputs for both read operations. -/
theorem C7_passthrough_witness :
    ((decide (("INCOMING" : String) = "ATTESTATION")) =
      (none : Option String).isSome) ∧
    (getTracesInStageM "INCOMING" ⟨some 5, none, none, some "x"⟩ none 1).1 =
      [("INCOMING", none, ⟨some 5, none, none, some "x"⟩)] :=
  ⟨by decide, (C7_passthrough ⟨"trace-1", ⟨some 5, none, none, some "x"⟩⟩
    "INCOMING" ⟨some 5, none, none, some "x"⟩ none 1 (by decide)).2.2⟩

/-- The config cache of an `Sdk` instance: the resolved value (abstract)
and the number of `ConfigQuery` network queries run so far. -/
structure ConfigState where
  config : Option String
  queryCount : Nat
  deriving Repr, DecidableEq

/-- One `Sdk.getConfig` call (the unnamed `Sdk` source), which the mutex
makes atomic: a cached config is returned without a query (unless a
forced update); otherwise one `ConfigQuery` runs, whose outcome is
`responses` at the current query index — a success is cached, while a
failure (workflow missing, group selection, signing key) throws without
caching anything. -/
def getConfigStep (responses : Nat → Except String String)
    (st : ConfigState) (forceUpdate : Bool) :
    ConfigState × Except String String :=
  match st.config, forceUpdate with
  | some c, false => (st, .ok c)
  | _, _ =>
      match responses st.queryCount with
      | .ok v => (⟨some v, st.queryCount + 1⟩, .ok v)
      | .error e => (⟨st.config, st.queryCount + 1⟩, .error e)

/-- N concurrent `getConfig` callers, serialized by the mutex into a
sequence of atomic calls (async-mutex wakes waiters in order): the final
state and each caller's observed outcome. -/
def runGetConfigN (responses : Nat → Except String String) :
    Nat → ConfigState → ConfigState × List (Except String String)
  | 0, st => (st, [])
  | n + 1, st =>
      let p1 := getConfigStep responses st false
      let p2 := runGetConfigN responses n p1.1
      (p2.1, p1.2 :: p2.2)

/-- C9: counterexample to "N concurrent writes trigger exactly one
config query regardless of N, and all callers observe the same value or
the same failure": a failed resolution is not cached, so with a failing
backend two serialized callers run two queries, and when the backend
recovers after the first query the two callers observe different
outcomes. -/
theorem C9_counterexample :
    ((runGetConfigN (fun _ => .error "network down") 2
      ⟨none, 0⟩).1.queryCount = 2) ∧
    (runGetConfigN
        (fun i => if i = 0 then .error "network down" else .ok "cfg-1") 2
        ⟨none, 0⟩).2 =
      [.error "network down", .ok "cfg-1"] :=
  ⟨rfl, rfl⟩

theorem runGetConfigN_cached (responses : Nat → Except String String)
    (v : String) (q : Nat) :
    ∀ n, runGetConfigN responses n ⟨some v, q⟩ =
      (⟨some v, q⟩, List.replicate n (.ok v))
  | 0 => rfl
  | n + 1 => by
      show ((runGetConfigN responses n ⟨some v, q⟩).1,
        (.ok v : Except String String) ::
          (runGetConfigN responses n ⟨some v, q⟩).2) = _
      rw [runGetConfigN_cached responses v q n]
      rfl

/-- C9 (amended): when the first resolution succeeds, N serialized
callers on a fresh instance trigger exactly one `ConfigQuery` and every
caller observes the same resolved value. -/
theorem C9_single_query (responses : Nat → Except String String)
    (v : String) (hresp : responses 0 = .ok v) (n : Nat) :
    (runGetConfigN responses (n + 1) ⟨none, 0⟩).1.queryCount = 1 ∧
    (runGetConfigN responses (n + 1) ⟨none, 0⟩).2 =
      List.replicate (n + 1) (.ok v) := by
  have hstep : getConfigStep responses ⟨none, 0⟩ false =
      (⟨some v, 1⟩, .ok v) := by
    unfold getConfigStep
    rw [show responses (0 : Nat) = .ok v from hresp]
  constructor
  · show (runGetConfigN responses n
      (getConfigStep responses ⟨none, 0⟩ false).1).1.queryCount = 1
    rw [hstep, runGetConfigN_cached responses v 1 n]
  · show ((getConfigStep responses ⟨none, 0⟩ false).2 ::
      (runGetConfigN responses n
        (getConfigStep responses ⟨none, 0⟩ false).1).2) = _
    rw [hstep, runGetConfigN_cached responses v 1 n]
    rfl

/-- C9: witness running the single-query theorem with three callers on a
concrete succeeding backend. -/
theorem C9_single_query_witness :
    ((fun _ : Nat => (.ok "cfg-1" : Except String String)) 0 =
      .ok "cfg-1") ∧
    (runGetConfigN (fun _ => .ok "cfg-1") 3 ⟨none, 0⟩).1.queryCount = 1 ∧
    (runGetConfigN (fun _ => .ok "cfg-1") 3 ⟨none, 0⟩).2 =
      List.replicate 3 (.ok "cfg-1") :=
  ⟨rfl, C9_single_query (fun _ => .ok "cfg-1") "cfg-1" rfl 2⟩

/-- C10: `isFileWrapper` accepts exactly wrapper instances (an object
shaped like one is rejected); `isFileRecord` accepts exactly record
instances and plain objects whose `digest`, `name`, `mimetype` and
`size` are all defined; consequently the record-direction extraction
treats any user-data object of that shape as a record site. -/
theorem C10_predicates :
    (∀ v, isFileWrapperB v = true ↔ ∃ i, v = .wrapper i) ∧
    (∀ kvs, isFileWrapperB (.obj kvs) = false) ∧
    (∀ v, isFileRecordB v = true ↔
      ((∃ a b c d, v = .record a b c d) ∨
        (∃ kvs, v = .obj kvs ∧ isDefinedProp kvs "digest" = true ∧
          isDefinedProp kvs "name" = true ∧
          isDefinedProp kvs "mimetype" = true ∧
          isDefinedProp kvs "size" = true))) ∧
    (∀ (k : String) (kvs0 : List (String × Data)),
      isFileRecordB (.obj kvs0) = true →
      isFileRecordB (.obj [(k, .obj kvs0)]) = false →
      sitesD isFileRecordB (.obj [(k, .obj kvs0)]) =
        [([Seg.key k], .obj kvs0)]) := by
  refine ⟨?_, fun kvs => rfl, ?_, ?_⟩
  · intro v
    cases v <;> simp [isFileWrapperB]
  · intro v
    cases v with
    | obj kvs =>
        simp only [isFileRecordB, Bool.and_eq_true]
        constructor
        · intro h
          exact Or.inr ⟨kvs, rfl, h.1.1.1, h.1.1.2, h.1.2, h.2⟩
        · intro h
          rcases h with ⟨a, b, c, d, h⟩ | ⟨kvs2, he, h1, h2, h3, h4⟩
          · cases h
          · cases he
            exact ⟨⟨⟨h1, h2⟩, h3⟩, h4⟩
    | record a b c d =>
        constructor
        · intro _
          exact Or.inl ⟨a, b, c, d, rfl⟩
        · intro _
          rfl
    | null => simp [isFileRecordB]
    | undef => simp [isFileRecordB]
    | boolD b => simp [isFileRecordB]
    | num n => simp [isFileRecordB]
    | str sx => simp [isFileRecordB]
    | arr l => simp [isFileRecordB]
    | wrapper i => simp [isFileRecordB]
  · intro k kvs0 hin hout
    rw [sitesD_obj_false hout]
    show ((sitesD isFileRecordB (.obj kvs0)).map
      fun pr => (Seg.key k :: pr.1, pr.2)) ++ [] = _
    rw [sitesD_pred_true hin]
    rfl

/-- C10: witness running the predicate theorem on a concrete
record-shaped user object nested under a key. -/
theorem C10_predicates_witness :
    isFileRecordB (.obj [("digest", .str "d1"), ("name", .str "n1"),
      ("mimetype", .str "m1"), ("size", .num 12)]) = true ∧
    isFileRecordB (.obj [("attachment",
      .obj [("digest", .str "d1"), ("name", .str "n1"),
        ("mimetype", .str "m1"), ("size", .num 12)])]) = false ∧
    sitesD isFileRecordB (.obj [("attachment",
      .obj [("digest", .str "d1"), ("name", .str "n1"),
        ("mimetype", .str "m1"), ("size", .num 12)])]) =
      [([Seg.key "attachment"],
        .obj [("digest", .str "d1"), ("name", .str "n1"),
          ("mimetype", .str "m1"), ("size", .num 12)])] :=
  ⟨by decide, by decide,
    C10_predicates.2.2.2 "attachment"
      [("digest", .str "d1"), ("name", .str "n1"),
        ("mimetype", .str "m1"), ("size", .num 12)]
      (by decide) (by decide)⟩

end StratumnSdk
